import Mathlib

/-!
The outline (bookmark) subsystem of `source/pdf/pdf-outline.c`.

A shallow embedding of the loader, the validator, the clearer, the writer and
the rewrite entry point, followed by the properties proved about them.

Conventions of the embedding.

* A `pdf_obj *` is a `Handle`: the null pointer, an indirect reference
  `num 0 R`, or a pointer to a direct object, named by the place it occupies.
* A `fz_outline *` is an `Outline`: `nil` is the null pointer; `down` and
  `next` are the owned subtrees; `parent` and `prev` are plain addresses.
* Code that can run forever takes a `fuel : Nat` and answers `none` when the
  fuel is spent; every other `none`/`error` is a result of the C code itself.
* `fz_throw` is `Err.throw msg`; reading a field through a null pointer is
  `Err.null_deref`.
* A C `float` is a `Flt`: IEEE 754 binary32 with the arithmetic of that
  format. The conversions between `float` and `int` and the subtraction are
  `Flt.to_int`, `Flt.of_int` and `Flt.sub`.
* Arithmetic on a C `int` wraps to 32 bits (`c_int`).
* Memory is unbounded: allocation never fails.
* `Doc.freed` lists the numbers that calls of `pdf_delete_object` have freed,
  in the order of the calls.
-/

namespace PdfOutline

/-! ## Errors and machine integers -/

/-- What ends a call abnormally: an exception raised with `fz_throw`, or a read
through a null pointer. -/
inductive Err where
  | throw (msg : String)
  | null_deref
deriving DecidableEq, Repr

/-- Conversion to a C `int`: wrap into the 32 bit two's complement range. -/
def c_int (v : Int) : Int := (v + 2147483648) % 4294967296 - 2147483648

/-! ## The C type `float` -/

/-- A value of the C type `float`, taken to be IEEE 754 binary32 with the
arithmetic of that format (rounding to nearest, ties to even; an expression of
type `float` is evaluated in `float`). Every finite value of the format is a
whole number of units of `2^-149`, its smallest positive value: `fin k` is
`k * 2^-149`. The values of the format are the `fin k` with `|k| < 2^277`
whose `k` has at most 24 significant bits, the two infinities and NaN; the two
zeros are not told apart. -/
inductive Flt where
  | fin (k : Int)
  | inf (negative : Bool)
  | nan
deriving DecidableEq, Repr

namespace Flt

/-- One round of the search for the length of a number: take `w` bits off `p.1`
if it has more than `w`, counting them in `p.2`. -/
def bits_step (p : Nat × Nat) (w : Nat) : Nat × Nat :=
  if p.1 < 2 ^ w then p else (p.1 / 2 ^ w, p.2 + w)

/-- The number of binary digits of `n`, for `n < 2^384`. -/
def bit_length (n : Nat) : Nat :=
  ([128, 128, 64, 32, 16, 8, 4, 2, 1].foldl bits_step (n, 0)).2 + (if n = 0 then 0 else 1)

/-- The value of the format nearest to `k * 2^-149`, ties to the even
significand: `k` is cut to its 24 leading bits, rounded on the bits cut off;
from `2^128` on the result is infinite. -/
def nearest (k : Int) : Flt :=
  if 2 ^ 128 * 2 ^ 149 ≤ k.natAbs then inf (decide (k < 0))
  else
    let n := k.natAbs
    let s := bit_length n - 24
    let hi := n / 2 ^ s
    let lo := n % 2 ^ s
    let r := if 2 ^ s < 2 * lo ∨ (2 * lo = 2 ^ s ∧ hi % 2 = 1) then hi + 1 else hi
    if 2 ^ 128 * 2 ^ 149 ≤ r * 2 ^ s then inf (decide (k < 0))
    else fin (if k < 0 then -((r * 2 ^ s : Nat) : Int) else ((r * 2 ^ s : Nat) : Int))

/-- The conversion of an `int` to `float`. -/
def of_int (i : Int) : Flt := nearest (i * ((2 ^ 149 : Nat) : Int))

/-- The difference of two `float` values, as a `float`. -/
def sub : Flt → Flt → Flt
  | fin a, fin b => nearest (a - b)
  | fin _, inf negative => inf (!negative)
  | inf negative, fin _ => inf negative
  | inf a, inf b => if a = b then nan else inf a
  | _, _ => nan

/-- The whole part of a finite value (the fraction dropped, toward zero). -/
def trunc : Flt → Int
  | fin k => Int.tdiv k ((2 ^ 149 : Nat) : Int)
  | _ => 0

/-- The conversion of the value to `int` is defined in C: it is finite and its
whole part is in the range of `int`. -/
def fits : Flt → Prop
  | fin k => -2147483648 ≤ Int.tdiv k ((2 ^ 149 : Nat) : Int) ∧
      Int.tdiv k ((2 ^ 149 : Nat) : Int) < 2147483648
  | _ => False

instance (f : Flt) : Decidable f.fits := by
  cases f <;> unfold fits <;> infer_instance

/-- The conversion of a `float` to `int`: the whole part. Where C leaves the
conversion undefined (`fits` fails) the least `int` stands for the result;
the properties stated below of a converted value assume `fits`. -/
def to_int (f : Flt) : Int := if f.fits then f.trunc else -2147483648

/-- A whole number written where a `float` is expected. -/
instance (n : Nat) : OfNat Flt n := ⟨of_int n⟩

end Flt

/-! ## The in-memory tree (`fz_outline`) -/

/-- Modelled from the spec: the normalised link target that the destination and
action parser (not part of this file's source) returns; the data model of the
spec has the two kinds `Internal{page, x, y}` and `External{uri}`. -/
inductive Uri where
  | internal (page : Int) (x y : Flt)
  | external (uri : String)
deriving DecidableEq, Repr

/-- The payload fields of an `fz_outline`; `x` and `y` are of type `float`. -/
structure Item where
  title : Option String
  uri : Option Uri
  page : Int
  x : Flt
  y : Flt
  is_open : Bool
deriving DecidableEq, Repr

/-- An `fz_outline *`. `addr` is the address of the node, `parent` and `prev`
are the non-owning pointers (`none` is NULL), `down` and `next` the owned
first child and next sibling. -/
inductive Outline where
  | nil
  | node (addr : Nat) (item : Item) (parent prev : Option Nat) (down next : Outline)
deriving DecidableEq, Repr

namespace Outline

/-- Test `outline != NULL`. -/
def isNode : Outline → Bool
  | nil => false
  | node .. => true

/-- The field `prev` of a node (`none` also for the null pointer, which the
callers below exclude before reading). -/
def prevField : Outline → Option Nat
  | nil => none
  | node _ _ _ prev _ _ => prev

/-- Number of nodes. -/
def size : Outline → Nat
  | nil => 0
  | node _ _ _ _ down next => 1 + down.size + next.size

/-- Number of nodes of the sibling chain starting here. -/
def chainLength : Outline → Nat
  | nil => 0
  | node _ _ _ _ _ next => 1 + next.chainLength

end Outline

/-! ## The validator -/

/-- The `for` loop of `check_outline_imp` (lines 268-286), entered at `outline`
with the loop variable `prev`. The recursive call
`check_outline_imp(outline->down, outline)` of line 280 is written out in
place: its test of `first->prev`, then its own loop. -/
def check_siblings : Outline → Option Nat → Option Nat → Option String
  | .nil, _, _ => none
  | .node addr _ par prv down next, parent, prev =>
    if par ≠ parent then some "parent does not match"
    else if prv ≠ prev then some "prev does not match"
    else if down.isNode then
      match (if down.prevField ≠ none then some "first child's prev is not null"
             else check_siblings down (some addr) none) with
      | some msg => some msg
      | none => check_siblings next parent (some addr)
    else check_siblings next parent (some addr)

/-- The function `check_outline_imp` (lines 258-288). `first->prev` is read
before any test of `first`, so a null `first` is a null dereference. -/
def check_outline_imp (first : Outline) (parent : Option Nat) : Except Err (Option String) :=
  match first with
  | .nil => .error .null_deref
  | .node .. =>
    if first.prevField ≠ none then .ok (some "first child's prev is not null")
    else .ok (check_siblings first parent none)

/-- The function `check_outline` (lines 290-294). -/
def check_outline (outline : Outline) : Except Err (Option String) :=
  check_outline_imp outline none

/-! ## The object store

Modelled from the spec: the generic document object store (§6, "Object store")
is a collaborator whose code is not part of this file's source. -/

/-- Dictionary keys and name objects (`PDF_NAME(...)`). -/
inductive Name where
  | Root | Outlines | First | Last | Next | Prev | Parent | Count
  | Title | Dest | A | XYZ
  | other (s : String)
deriving DecidableEq, Repr

/-- A PDF object as a value. `ref num` is the indirect reference `num 0 R`. -/
inductive PdfObj where
  | null
  | int (i : Int)
  | name (n : Name)
  | str (s : String)
  | arr (items : List PdfObj)
  | dict (entries : List (Name × PdfObj))
  | ref (num : Nat)

/-- Where a direct object lives: in the trailer or in a numbered object. -/
inductive Base where
  | trailer
  | obj (num : Nat)
deriving DecidableEq, Repr

/-- The place of an object: a numbered object (or the trailer) and the keys
leading from it to the object. This is the identity of the object. -/
structure Loc where
  base : Base
  path : List Name
deriving DecidableEq, Repr

/-- A `pdf_obj *`. -/
inductive Handle where
  | null
  | ref (num : Nat)
  | direct (loc : Loc)
deriving DecidableEq, Repr

/-- Modelled from the spec: the page index (§6, "Page index") is a collaborator
outside this file's source. `pages` lists, by page number, the object number of
the page and the `float` coordinates `y0` and `y1` of its box under the page
transform. The document
itself is the trailer, the numbered objects (`null` for a free number), the
length of the cross reference table, and the set of marked objects. `freed`
lists the numbers `pdf_delete_object` has freed, in the order of the calls, so
that one call on a number can be told from two. -/
structure Doc where
  trailer : PdfObj
  objs : Nat → PdfObj
  xref_len : Nat
  pages : List (Nat × Flt × Flt)
  marks : List Loc
  freed : List Nat := []

/-- Value stored under `key` in a list of dictionary entries (`null` if none). -/
def lookup (key : Name) : List (Name × PdfObj) → PdfObj
  | [] => .null
  | (k, v) :: es => if k = key then v else lookup key es

/-- Store `val` under `key`: replace the entry if there is one, else append. -/
def putEntry (key : Name) (val : PdfObj) : List (Name × PdfObj) → List (Name × PdfObj)
  | [] => [(key, val)]
  | (k, v) :: es => if k = key then (k, val) :: es else (k, v) :: putEntry key val es

/-- Apply `f` to the value stored under `key`. -/
def modifyEntry (key : Name) (f : PdfObj → PdfObj) :
    List (Name × PdfObj) → List (Name × PdfObj)
  | [] => []
  | (k, v) :: es => if k = key then (k, f v) :: es else (k, v) :: modifyEntry key f es

namespace PdfObj

/-- Value under `key` of a dictionary; `null` for a missing key or a non-dictionary. -/
def get (o : PdfObj) (key : Name) : PdfObj :=
  match o with
  | dict es => lookup key es
  | _ => null

/-- The object reached from `o` along a path of keys. -/
def follow : PdfObj → List Name → PdfObj
  | o, [] => o
  | o, k :: ks => (o.get k).follow ks

/-- Apply `f` to the object reached from `o` along a path of keys. -/
def modify : List Name → (PdfObj → PdfObj) → PdfObj → PdfObj
  | [], f, o => f o
  | k :: ks, f, dict es => dict (modifyEntry k (modify ks f) es)
  | _ :: _, _, o => o

/-- Put an entry into a dictionary value. -/
def put (o : PdfObj) (key : Name) (val : PdfObj) : PdfObj :=
  match o with
  | dict es => dict (putEntry key val es)
  | _ => o

/-- Remove an entry from a dictionary value. -/
def del (o : PdfObj) (key : Name) : PdfObj :=
  match o with
  | dict es => dict (es.filter fun e => e.1 ≠ key)
  | _ => o

/-- Append to an array value. -/
def push (o : PdfObj) (val : PdfObj) : PdfObj :=
  match o with
  | arr items => arr (items ++ [val])
  | _ => o

def isDict : PdfObj → Bool
  | dict _ => true
  | _ => false

def isArr : PdfObj → Bool
  | arr _ => true
  | _ => false

def isNull : PdfObj → Bool
  | null => true
  | _ => false

/-- Objects that carry no flags: `null` and the name constants (`obj < PDF_LIMIT`). -/
def isConst : PdfObj → Bool
  | null => true
  | name _ => true
  | _ => false

end PdfObj

namespace Doc

/-- The document with another set of marks. -/
def setMarks (d : Doc) (marks : List Loc) : Doc := { d with marks := marks }

/-- The document with another trailer. -/
def setTrailer (d : Doc) (o : PdfObj) : Doc := { d with trailer := o }

/-- The document with the numbered object `num` replaced by `o`. -/
def setObj (d : Doc) (num : Nat) (o : PdfObj) : Doc :=
  { d with objs := fun m => if m = num then o else d.objs m }

/-- The document with an empty dictionary as a new numbered object at the end
of the cross reference table. -/
def grow (d : Doc) : Doc :=
  { d.setObj d.xref_len (.dict []) with xref_len := d.xref_len + 1 }

/-- The document with the numbered object `num` freed. -/
def free (d : Doc) (num : Nat) : Doc :=
  { d.setObj num .null with freed := d.freed ++ [num] }

/-- The object a base stands for. -/
def atBase (d : Doc) : Base → PdfObj
  | .trailer => d.trailer
  | .obj num => d.objs num

/-- The object at a place. -/
def objAt (d : Doc) (l : Loc) : PdfObj := (d.atBase l.base).follow l.path

/-- The loop of `pdf_resolve_indirect_chain`: follow indirect references
through the numbered objects, giving up (null) when `sanity` reaches zero. -/
def resolve_chain (d : Doc) : Nat → Nat → Option Loc
  | 0, _ => none
  | sanity + 1, num =>
    match d.objs num with
    | .ref m => d.resolve_chain sanity m
    | .null => none
    | _ => some ⟨.obj num, []⟩

/-- The macro `RESOLVE(obj)`: the place of the object a handle denotes. -/
def resolve (d : Doc) : Handle → Option Loc
  | .null => none
  | .direct l => some l
  | .ref num => d.resolve_chain 9 num

/-- The object a handle denotes (`null` if it denotes none). -/
def deref (d : Doc) (h : Handle) : PdfObj :=
  match d.resolve h with
  | some l => d.objAt l
  | none => .null

/-- Replace the object at a place by its image under `f`. -/
def modifyAt (d : Doc) (l : Loc) (f : PdfObj → PdfObj) : Doc :=
  match l.base with
  | .trailer => d.setTrailer (d.trailer.modify l.path f)
  | .obj num => d.setObj num ((d.objs num).modify l.path f)

/-- The place whose flags `pdf_mark_obj` and friends touch, if any. -/
def flagged (d : Doc) (h : Handle) : Option Loc :=
  match d.resolve h with
  | some l => if (d.objAt l).isConst then none else some l
  | none => none

end Doc

/-- The function `pdf_trailer`. -/
def pdf_trailer (_d : Doc) : Handle := .direct ⟨.trailer, []⟩

/-- The pointer to the value `v` stored under `key` in the dictionary at `l`. -/
def entry_handle (l : Loc) (key : Name) (v : PdfObj) : Handle :=
  match v with
  | .null => .null
  | .ref m => .ref m
  | _ => .direct ⟨l.base, l.path ++ [key]⟩

/-- The function `pdf_dict_get`: the entry of a dictionary as a handle; null
when the dictionary, the key or the value is missing. -/
def pdf_dict_get (d : Doc) (h : Handle) (key : Name) : Handle :=
  match d.resolve h with
  | none => .null
  | some l => entry_handle l key ((d.objAt l).get key)

def pdf_is_dict (d : Doc) (h : Handle) : Bool := (d.deref h).isDict

def pdf_is_indirect (h : Handle) : Bool :=
  match h with
  | .ref _ => true
  | _ => false

/-- The function `pdf_to_num`: the object number of an indirect reference, else 0. -/
def pdf_to_num (h : Handle) : Nat :=
  match h with
  | .ref num => num
  | _ => 0

/-- The function `pdf_to_int`: the value of an integer object as a C `int`, else 0. -/
def pdf_to_int (d : Doc) (h : Handle) : Int :=
  match d.deref h with
  | .int i => c_int i
  | _ => 0

/-- The function `pdf_to_text_string`: the text of a string object, else the
empty text. -/
def pdf_to_text_string (d : Doc) (h : Handle) : String :=
  match d.deref h with
  | .str s => s
  | _ => ""

def pdf_obj_marked (d : Doc) (h : Handle) : Bool :=
  match d.flagged h with
  | some l => decide (l ∈ d.marks)
  | none => false

/-- The function `pdf_mark_obj`: set the mark and return whether it was set before. -/
def pdf_mark_obj (d : Doc) (h : Handle) : Bool × Doc :=
  match d.flagged h with
  | some l => if l ∈ d.marks then (true, d) else (false, d.setMarks (l :: d.marks))
  | none => (false, d)

def pdf_unmark_obj (d : Doc) (h : Handle) : Doc :=
  match d.flagged h with
  | some l => d.setMarks (d.marks.filter fun m => m ≠ l)
  | none => d

/-- The function `pdf_dict_put` with the value given as an object. -/
def pdf_dict_put (d : Doc) (h : Handle) (key : Name) (val : PdfObj) : Except Err Doc :=
  match d.resolve h with
  | some l =>
    if (d.objAt l).isDict then .ok (d.modifyAt l fun o => o.put key val)
    else .error (.throw "not a dict")
  | none => .error (.throw "not a dict")

/-- The function `pdf_dict_put_text_string`. The text is read through the
pointer, so a null text is a null dereference. -/
def pdf_dict_put_text_string (d : Doc) (h : Handle) (key : Name) (s : Option String) :
    Except Err Doc :=
  match s with
  | none => .error .null_deref
  | some text => pdf_dict_put d h key (.str text)

def pdf_dict_del (d : Doc) (h : Handle) (key : Name) : Except Err Doc :=
  match d.resolve h with
  | some l =>
    if (d.objAt l).isDict then .ok (d.modifyAt l fun o => o.del key)
    else .error (.throw "not a dict")
  | none => .error (.throw "not a dict")

/-- The function `pdf_array_push` with the item given as an object. -/
def pdf_array_push (d : Doc) (h : Handle) (val : PdfObj) : Except Err Doc :=
  match d.resolve h with
  | some l =>
    if (d.objAt l).isArr then .ok (d.modifyAt l fun o => o.push val)
    else .error (.throw "not an array")
  | none => .error (.throw "not an array")

/-- The function `pdf_delete_object`: free the numbered object; a number out of
range is only warned about. -/
def pdf_delete_object (d : Doc) (num : Nat) : Doc :=
  if num = 0 ∨ d.xref_len ≤ num then d
  else d.free num

/-- The function `pdf_add_new_dict`: a new numbered object holding an empty
dictionary, at the end of the cross reference table. -/
def pdf_add_new_dict (d : Doc) : Handle × Doc :=
  (.ref d.xref_len, d.grow)

/-- The function `pdf_lookup_page_obj`: the page object of a page number, null
when there is no such page. -/
def pdf_lookup_page_obj (d : Doc) (page : Int) : Handle :=
  if page < 0 then .null
  else
    match d.pages.get? page.toNat with
    | some (num, _) => .ref num
    | none => .null

/-- Modelled from the spec: the coordinates `y0` and `y1` of the box that
`pdf_page_obj_transform` and `fz_transform_rect` give for a page object
(lines 202-203). -/
def page_box (d : Doc) (page : Handle) : Flt × Flt :=
  match d.pages.find? fun e => e.1 = pdf_to_num page with
  | some (_, y0, y1) => (y0, y1)
  | none => (.fin 0, .fin 0)

/-- Line 204, `h = mediabox.y1 - mediabox.y0`: the difference of the two
`float` coordinates, converted to `int`. -/
def page_box_height (d : Doc) (page : Handle) : Int :=
  (Flt.sub (page_box d page).2 (page_box d page).1).to_int

/-! ## Link collaborators -/

/-- The destination and action parsers `pdf_parse_link_dest` and
`pdf_parse_link_action`, which are not part of this file's source, are
parameters of the loader. Either may raise, or return no URI. -/
structure LinkParser where
  parse_link_dest : Doc → Handle → Except Err (Option Uri)
  parse_link_action : Doc → Handle → Except Err (Option Uri)

/-- The function `fz_is_external_link`. -/
def fz_is_external_link : Uri → Bool
  | .external _ => true
  | .internal .. => false

/-- The function `pdf_resolve_link`: page number and coordinates of an internal URI. -/
def pdf_resolve_link : Uri → Int × Flt × Flt
  | .internal page x y => (page, x, y)
  | .external _ => (-1, .fin 0, .fin 0)

/-! ## The loader -/

/-- Lines 28-42 of `pdf_load_outline_imp`: title, URI, page and coordinates of
the node made for `dict`. A fresh node is zeroed, so it is closed. -/
def load_item (P : LinkParser) (d : Doc) (dict : Handle) : Except Err Item :=
  let title :=
    if pdf_dict_get d dict .Title ≠ .null then
      some (pdf_to_text_string d (pdf_dict_get d dict .Title))
    else none
  let parsed :=
    if pdf_dict_get d dict .Dest ≠ .null then
      P.parse_link_dest d (pdf_dict_get d dict .Dest)
    else if pdf_dict_get d dict .A ≠ .null then
      P.parse_link_action d (pdf_dict_get d dict .A)
    else .ok none
  match parsed with
  | .error e => .error e
  | .ok none => .ok ⟨title, none, -1, .fin 0, .fin 0, false⟩
  | .ok (some uri) =>
    if fz_is_external_link uri then .ok ⟨title, some uri, -1, .fin 0, .fin 0, false⟩
    else
      .ok ⟨title, some uri, (pdf_resolve_link uri).1, (pdf_resolve_link uri).2.1,
        (pdf_resolve_link uri).2.2, false⟩

/-- The loop of the `fz_always` block (lines 59-60): unmark along `Next` while
the object met is marked. Every round removes a mark, so `n` rounds are all
there can be when `n` is the number of marks. -/
def unmark_loop : Nat → Doc → Handle → Doc
  | 0, d, _ => d
  | n + 1, d, dict =>
    if dict ≠ .null ∧ pdf_obj_marked d dict then
      unmark_loop n (pdf_unmark_obj d dict) (pdf_dict_get (pdf_unmark_obj d dict) dict .Next)
    else d

/-- The `fz_always` block of `pdf_load_outline_imp`, started at `odict`. -/
def unmark_chain (d : Doc) (odict : Handle) : Doc :=
  unmark_loop d.marks.length d odict

mutual

/-- The `while` loop of `pdf_load_outline_imp` (lines 17-55), entered with the
loop variables `prev_sib` and `dict`; `heap` is the address the next
`fz_new_outline` returns. The result is the chain linked from here on (what
`*prev` receives), or the exception that left the loop. -/
def load_siblings (P : LinkParser) :
    Nat → Doc → Nat → Option Nat → Option Nat → Handle → Option (Doc × Nat × Except Err Outline)
  | 0, _, _, _, _, _ => none
  | fuel + 1, d, heap, parent, prev_sib, dict =>
    if dict = .null ∨ pdf_is_dict d dict = false then some (d, heap, .ok .nil)
    else if (pdf_mark_obj d dict).1 then some ((pdf_mark_obj d dict).2, heap, .ok .nil)
    else
      let d1 := (pdf_mark_obj d dict).2
      match load_item P d1 dict with
      | .error e => some (d1, heap + 1, .error e)
      | .ok item =>
        let obj := pdf_dict_get d1 dict .First
        let below :=
          if obj ≠ .null then
            match pdf_load_outline_imp P fuel d1 (heap + 1) (some heap) obj with
            | none => none
            | some (d2, heap2, .error e) => some (d2, heap2, Except.error e)
            | some (d2, heap2, .ok down) =>
              some (d2, heap2,
                Except.ok (down, decide (pdf_to_int d2 (pdf_dict_get d2 dict .Count) > 0)))
          else some (d1, heap + 1, Except.ok (Outline.nil, false))
        match below with
        | none => none
        | some (d2, heap2, .error e) => some (d2, heap2, .error e)
        | some (d2, heap2, .ok (down, is_open)) =>
          match load_siblings P fuel d2 heap2 parent (some heap) (pdf_dict_get d2 dict .Next) with
          | none => none
          | some (d3, heap3, .error e) => some (d3, heap3, .error e)
          | some (d3, heap3, .ok next) =>
            some (d3, heap3,
              .ok (.node heap { item with is_open := is_open } parent prev_sib down next))

/-- The function `pdf_load_outline_imp` (lines 4-69): the loop, then the
`fz_always` block on either outcome; on an exception the partial tree is
dropped and the exception passed on. -/
def pdf_load_outline_imp (P : LinkParser) :
    Nat → Doc → Nat → Option Nat → Handle → Option (Doc × Nat × Except Err Outline)
  | 0, _, _, _, _ => none
  | fuel + 1, d, heap, parent, dict =>
    match load_siblings P fuel d heap parent none dict with
    | none => none
    | some (d1, heap1, r) => some (unmark_chain d1 dict, heap1, r)

end

/-- The function `pdf_load_outline` (lines 71-93). Building and dropping the
page tree cache does not change the document. -/
def pdf_load_outline (P : LinkParser) (fuel : Nat) (d : Doc) (heap : Nat) :
    Option (Doc × Except Err Outline) :=
  let root := pdf_dict_get d (pdf_trailer d) .Root
  let obj := pdf_dict_get d root .Outlines
  let first := pdf_dict_get d obj .First
  if first ≠ .null then
    match pdf_load_outline_imp P fuel d heap none first with
    | none => none
    | some (d1, _, r) => some (d1, r)
  else some (d, .ok .nil)

/-! ## The clearer -/

mutual

/-- The `for` loop of `pdf_clear_outline_imp` (lines 101-121), entered at `dict`. -/
def clear_siblings : Nat → Doc → Handle → Option (Doc × Except Err Unit)
  | 0, _, _ => none
  | fuel + 1, d, dict =>
    if dict = .null ∨ pdf_is_dict d dict = false then some (d, .ok ())
    else
      let down := pdf_dict_get d dict .First
      if down ≠ .null ∧ pdf_is_indirect down = false then
        some (d, .error (.throw "/Down is not indirect"))
      else
        let next := pdf_dict_get d dict .Next
        if next ≠ .null ∧ pdf_is_indirect next = false then
          some (d, .error (.throw "/Next is not indirect"))
        else
          let d1 := pdf_delete_object d (pdf_to_num dict)
          let below :=
            if down ≠ .null then pdf_clear_outline_imp fuel d1 down else some (d1, .ok ())
          match below with
          | none => none
          | some (d2, .error e) => some (d2, .error e)
          | some (d2, .ok _) => clear_siblings fuel d2 next

/-- The function `pdf_clear_outline_imp` (lines 95-122). -/
def pdf_clear_outline_imp : Nat → Doc → Handle → Option (Doc × Except Err Unit)
  | 0, _, _ => none
  | fuel + 1, d, first =>
    if first ≠ .null ∧ pdf_is_indirect first = false then
      some (d, .error (.throw "/First is not indirect"))
    else clear_siblings fuel d first

end

/-- The function `pdf_clear_outline` (lines 124-158). -/
def pdf_clear_outline (fuel : Nat) (d : Doc) : Option (Doc × Except Err Unit) :=
  let root := pdf_dict_get d (pdf_trailer d) .Root
  if root = .null then some (d, .error (.throw "/Root does not exist"))
  else if pdf_is_indirect root = false then some (d, .error (.throw "/Root is not indirect"))
  else
    let outlines := pdf_dict_get d root .Outlines
    if outlines ≠ .null ∧ pdf_is_indirect outlines = false then
      some (d, .error (.throw "/Outlines is not indirect"))
    else
      let first := pdf_dict_get d outlines .First
      if first ≠ .null ∧ pdf_is_indirect first = false then
        some (d, .error (.throw "/First is not indirect"))
      else if first ≠ .null then
        match pdf_clear_outline_imp fuel d first with
        | none => none
        | some (d1, .error e) => some (d1, .error e)
        | some (d1, .ok _) =>
          let d2 := pdf_delete_object d1 (pdf_to_num outlines)
          match pdf_dict_del d2 root .Outlines with
          | .error e => some (d2, .error e)
          | .ok d3 => some (d3, .ok ())
      else some (d, .ok ())

/-! ## The writer -/

/-- The object a handle stores when it is put into a dictionary or an array:
the reference itself for an indirect handle. -/
def Handle.val (d : Doc) (h : Handle) : PdfObj :=
  match h with
  | .ref num => .ref num
  | _ => d.deref h

/-- One statement that may raise, run after the statements before it: an
exception leaves the document as it was reached. -/
def and_then (r : Doc × Except Err Unit) (f : Doc → Except Err Doc) : Doc × Except Err Unit :=
  match r with
  | (d, .error e) => (d, .error e)
  | (d, .ok _) =>
    match f d with
    | .error e => (d, .error e)
    | .ok d1 => (d1, .ok ())

/-- The text of `"page %d does not exist"`. -/
def page_missing (page : Int) : String := "page " ++ toString page ++ " does not exist"

/-- Lines 183-215 of `pdf_write_outline_imp` for the node `item`, whose object
`objIndThis` was just allocated: Title, Dest and Parent. The array is put into
the dictionary empty and filled afterwards, as in the source; its last item,
pushed as the null pointer `0`, is the null object. Lines 198-210: `h` is an
`int`, `x` is `outline->x` converted to `int`, and `y` is the `float`
difference of `h` and `outline->y` converted to `int`, or 0 when `outline->y`
is zero. -/
def write_entries (d : Doc) (item : Item) (objIndThis objIndParent : Handle) :
    Doc × Except Err Unit :=
  let r1 := and_then (and_then (d, .ok ())
    (fun d => pdf_dict_put_text_string d objIndThis .Title item.title))
    (fun d => pdf_dict_put d objIndThis .Dest (.arr []))
  match r1 with
  | (d1, .error e) => (d1, .error e)
  | (d1, .ok _) =>
    let arr := pdf_dict_get d1 objIndThis .Dest
    let page := pdf_lookup_page_obj d1 item.page
    if page = .null then (d1, .error (.throw (page_missing item.page)))
    else
      let h := page_box_height d1 page
      let x := item.x.to_int
      let y := if item.y ≠ .fin 0 then (Flt.sub (Flt.of_int h) item.y).to_int else 0
      and_then (and_then (and_then (and_then (and_then (and_then (d1, .ok ())
        (fun d => pdf_array_push d arr (page.val d)))
        (fun d => pdf_array_push d arr (.name .XYZ)))
        (fun d => pdf_array_push d arr (.int x)))
        (fun d => pdf_array_push d arr (.int y)))
        (fun d => pdf_array_push d arr .null))
        (fun d => pdf_dict_put d objIndThis .Parent (objIndParent.val d))

/-- The `for` loop of `pdf_write_outline_imp` and the three puts after it
(lines 175-234), entered at `outline` with the loop variables `objIndFirst`,
`objIndLast` and `cnt`. The recursive call of line 227 is written out in
place: its test `if (!first) return`, then its own loop. -/
def write_siblings :
    Doc → Outline → Handle → Bool → Handle → Handle → Int → Doc × Except Err Unit
  | d, .nil, objIndParent, parentIsOpen, objIndFirst, objIndLast, cnt =>
    and_then (and_then (and_then (d, .ok ())
      (fun d => pdf_dict_put d objIndParent .First (objIndFirst.val d)))
      (fun d => pdf_dict_put d objIndParent .Last (objIndLast.val d)))
      (fun d => pdf_dict_put d objIndParent .Count
        (.int (if parentIsOpen then cnt else c_int (-cnt))))
  | d, .node _ item _ _ down next, objIndParent, parentIsOpen, objIndFirst, objIndLast, cnt =>
    let objIndThis := (pdf_add_new_dict d).1
    match write_entries (pdf_add_new_dict d).2 item objIndThis objIndParent with
    | (d1, .error e) => (d1, .error e)
    | (d1, .ok _) =>
      let first1 := if objIndFirst = .null then objIndThis else objIndFirst
      let linked :=
        if objIndLast ≠ .null then
          and_then (and_then (d1, .ok ())
            (fun d => pdf_dict_put d objIndLast .Next (objIndThis.val d)))
            (fun d => pdf_dict_put d objIndThis .Prev (objIndLast.val d))
        else (d1, .ok ())
      match linked with
      | (d2, .error e) => (d2, .error e)
      | (d2, .ok _) =>
        let below :=
          if down.isNode then write_siblings d2 down objIndThis item.is_open .null .null 0
          else (d2, .ok ())
        match below with
        | (d3, .error e) => (d3, .error e)
        | (d3, .ok _) =>
          write_siblings d3 next objIndParent parentIsOpen first1 objIndThis (c_int (cnt + 1))

/-- The function `pdf_write_outline_imp` (lines 160-235). The two assertions on
`objIndParent` hold at both call sites, where it comes from `pdf_add_new_dict`. -/
def pdf_write_outline_imp (d : Doc) (first : Outline) (objIndParent : Handle)
    (parentIsOpen : Bool) : Doc × Except Err Unit :=
  if first.isNode then write_siblings d first objIndParent parentIsOpen .null .null 0
  else (d, .ok ())

/-- The function `pdf_write_outline` (lines 237-256). -/
def pdf_write_outline (d : Doc) (outline : Outline) : Doc × Except Err Unit :=
  if outline.isNode then
    let objIndRoot := pdf_dict_get d (pdf_trailer d) .Root
    if pdf_dict_get d objIndRoot .Outlines ≠ .null then
      (d, .error (.throw "outline already exists"))
    else
      let objIndOutline := (pdf_add_new_dict d).1
      match pdf_write_outline_imp (pdf_add_new_dict d).2 outline objIndOutline true with
      | (d1, .error e) => (d1, .error e)
      | (d1, .ok _) =>
        and_then (d1, .ok ())
          (fun d => pdf_dict_put d objIndRoot .Outlines (objIndOutline.val d))
  else (d, .ok ())

/-! ## The rewrite entry point -/

/-- The function `pdf_rewrite_outline` (lines 296-306). -/
def pdf_rewrite_outline (fuel : Nat) (d : Doc) (outline : Outline) :
    Option (Doc × Except Err Unit) :=
  match check_outline outline with
  | .error e => some (d, .error e)
  | .ok (some msg) => some (d, .error (.throw ("invalid outline: " ++ msg)))
  | .ok none =>
    match pdf_clear_outline fuel d with
    | none => none
    | some (d1, .error e) => some (d1, .error e)
    | some (d1, .ok _) => some (pdf_write_outline d1 outline)

/-! ## The invariant of the data model and the walk of the validator -/

/-- The pointer fields of one node: its address, its `parent` and its `prev`. -/
structure Links where
  addr : Nat
  parent : Option Nat
  prev : Option Nat
deriving DecidableEq, Repr

namespace Outline

/-- The elements of the sibling chain that starts at a node, in `next` order. -/
def chain : Outline → List Links
  | nil => []
  | node addr _ parent prev _ next => ⟨addr, parent, prev⟩ :: next.chain

/-- The sibling chains strictly below a chain: for every element with a `down`
subtree, the chain of its children with that element as the expected parent,
and the chains below those. -/
def chains_below : Outline → List (Option Nat × List Links)
  | nil => []
  | node addr _ _ _ down next =>
    (if down.isNode then [(some addr, down.chain)] else []) ++ down.chains_below
      ++ next.chains_below

/-- Every sibling chain reachable through `down` and `next` from the root, each
with its expected parent; the chain of the root has the expected parent `top`. -/
def chains (t : Outline) (top : Option Nat) : List (Option Nat × List Links) :=
  (top, t.chain) :: t.chains_below

end Outline

/-- The invariant of the data model for one sibling chain with expected parent
`P`: the first element has no `prev`, every element has parent `P`, and the
`prev` of every element is the element just before it. -/
def chain_valid (P : Option Nat) (c : List Links) : Prop :=
  (∀ e ∈ c.head?, e.prev = none) ∧ (∀ e ∈ c, e.parent = P) ∧
  (∀ p ∈ c.zip c.tail, p.2.prev = some p.1.addr)

instance (P : Option Nat) (c : List Links) : Decidable (chain_valid P c) := by
  unfold chain_valid; infer_instance

/-- A chain whose elements have parent `P` and whose `prev` pointers thread it,
starting from the expected `prev` of its first element. -/
def threaded (P : Option Nat) : Option Nat → List Links → Prop
  | _, [] => True
  | prev, e :: rest => e.parent = P ∧ e.prev = prev ∧ threaded P (some e.addr) rest

/-- The pointer fields below `t` are as a walk from the expected parent `P`
and the expected `prev` requires. -/
def Linked : Outline → Option Nat → Option Nat → Prop
  | .nil, _, _ => True
  | .node addr _ par prv down next, P, prev =>
    par = P ∧ prv = prev ∧ Linked down (some addr) none ∧ Linked next P (some addr)

/-- The checks the validator makes on a chain from `t` on, in the order of its
walk, each with its verdict (`true`: violated) and the reason it would report:
per element the parent check, the prev check, then the `down` subtree (the
first-element check of that chain, then its elements), then the next sibling. -/
def walk_chain : Outline → Option Nat → Option Nat → List (Bool × String)
  | .nil, _, _ => []
  | .node addr _ par prv down next, P, prev =>
    [(decide (par ≠ P), "parent does not match"), (decide (prv ≠ prev), "prev does not match")]
      ++ (if down.isNode then
            (decide (down.prevField ≠ none), "first child's prev is not null")
              :: walk_chain down (some addr) none
          else [])
      ++ walk_chain next P (some addr)

/-- All checks for a chain with expected parent `P`: the first-element check,
then the elements. -/
def walk (t : Outline) (P : Option Nat) : List (Bool × String) :=
  (decide (t.prevField ≠ none), "first child's prev is not null") :: walk_chain t P none

/-- The reason of the first violated check of a list of checks, if any. -/
def first_violation (checks : List (Bool × String)) : Option String :=
  (checks.find? fun c => c.1).map fun c => c.2

/-- A tree with one subtree left out: the path from the root to the gap. -/
inductive Ctx where
  | hole
  | down (addr : Nat) (item : Item) (parent prev : Option Nat) (inner : Ctx) (next : Outline)
  | next (addr : Nat) (item : Item) (parent prev : Option Nat) (down : Outline) (inner : Ctx)

namespace Ctx

/-- Put a subtree into the gap. -/
def fill : Ctx → Outline → Outline
  | hole, s => s
  | down addr item parent prev inner nxt, s => .node addr item parent prev (inner.fill s) nxt
  | next addr item parent prev dwn inner, s => .node addr item parent prev dwn (inner.fill s)

/-- The parent and prev pointers a valid tree has at the gap. -/
def expect : Ctx → Option Nat → Option Nat → Option Nat × Option Nat
  | hole, P, prev => (P, prev)
  | down addr _ _ _ inner _, _, _ => inner.expect (some addr) none
  | next addr _ _ _ _ inner, P, _ => inner.expect P (some addr)

end Ctx

/-! ## Sibling chains of the persisted form -/

/-- A dictionary without a `First` entry. -/
def leaf_dict (d : Doc) (h : Handle) : Prop :=
  pdf_is_dict d h = true ∧ pdf_dict_get d h .First = .null

/-- The handles are dictionaries without `First`, each the `Next` of the one before. -/
def next_chain (d : Doc) : List Handle → Prop
  | [] => True
  | [h] => leaf_dict d h
  | h :: h' :: rest => leaf_dict d h ∧ pdf_dict_get d h .Next = h' ∧ next_chain d (h' :: rest)

/-- The sibling list the loader builds for a chain of nodes without children:
consecutive addresses from `heap`, the given parent, each `prev` the node before. -/
def sibling_list (heap : Nat) (parent : Option Nat) : Option Nat → List Item → Outline
  | _, [] => .nil
  | prev, item :: rest =>
    .node heap item parent prev .nil (sibling_list (heap + 1) parent (some heap) rest)

/-! ## The persisted layout of the writer and the round trip -/

/-- The object the writer leaves for a node before it is linked to its siblings
and children: Title, Dest and Parent. -/
def node_obj (title : String) (page : Nat) (x y : Int) (parent : Nat) : PdfObj :=
  .dict [(.Title, .str title), (.Dest, .arr [.ref page, .name .XYZ, .int x, .int y, .null]),
    (.Parent, .ref parent)]

/-- The value of `cnt` after `n` rounds of `++cnt`. -/
def count_up : Nat → Int → Int
  | 0, c => c
  | n + 1, c => count_up n (c_int (c + 1))

/-- The y coordinate the writer stores for a node on the page object `pg`. -/
def dest_y (d : Doc) (item : Item) (pg : Nat) : Int :=
  if item.y ≠ .fin 0 then
    (Flt.sub (Flt.of_int (page_box_height d (.ref pg))) item.y).to_int
  else 0

/-- What the writer needs of a tree: every node has a title and a page of the
document. -/
def writable (d : Doc) : Outline → Prop
  | .nil => True
  | .node _ item _ _ down next =>
    item.title ≠ none ∧ pdf_lookup_page_obj d item.page ≠ .null ∧ writable d down ∧
      writable d next

/-- The numbered objects of `d` from `num` on hold the chain `t` in the layout
of the writer: a node, then its `down` subtree, then its next siblings; `dp` is
the document the pages are looked up in. -/
def persisted (dp d : Doc) : Outline → Nat → Prop
  | .nil, _ => True
  | .node _ item _ _ down next, num =>
    (d.objs num).isDict = true ∧
    (∃ title pg, item.title = some title ∧ pdf_lookup_page_obj dp item.page = .ref pg ∧
      (d.objs num).get .Title = .str title ∧
      (d.objs num).get .Dest
        = .arr [.ref pg, .name .XYZ, .int item.x.to_int, .int (dest_y dp item pg), .null]) ∧
    (d.objs num).get .A = .null ∧
    (d.objs num).get .First = (if down.isNode then .ref (num + 1) else .null) ∧
    (down.isNode = true → (d.objs num).get .Count
      = .int (if item.is_open then count_up down.chainLength 0
              else c_int (-count_up down.chainLength 0))) ∧
    (d.objs num).get .Next = (if next.isNode then .ref (num + 1 + down.size) else .null) ∧
    persisted dp d down (num + 1) ∧ persisted dp d next (num + 1 + down.size)

/-- The contract of the destination parser that the round trip relies on: in a
document whose pages have distinct objects, the destination array
`[page object, /XYZ, x, y, null]` of integers `x` and `y` resolves to the
number of that page, to `x`, and to the height of the page box minus `y`, both
converted to `float`. -/
def resolves_xyz (P : LinkParser) : Prop :=
  ∀ (d : Doc) (h : Handle) (page : Int) (pg : Nat) (x y : Int),
    (d.pages.map Prod.fst).Nodup → pdf_lookup_page_obj d page = .ref pg →
    d.deref h = .arr [.ref pg, .name .XYZ, .int x, .int y, .null] →
    P.parse_link_dest d h
      = .ok (some (.internal page (Flt.of_int x)
          (Flt.of_int (page_box_height d (.ref pg) - y))))

/-- The range of a C `int`. -/
def in_int (v : Int) : Prop := -2147483648 ≤ v ∧ v < 2147483648

/-- The conversions from `float` to `int` that lines 198-210 make for a node
are defined in C: those of `x`, of the height of the box of its page, and,
when `y` is not zero, of the difference of that height and `y`. -/
def converts (d : Doc) (item : Item) : Prop :=
  item.x.fits ∧
  (Flt.sub (page_box d (pdf_lookup_page_obj d item.page)).2
    (page_box d (pdf_lookup_page_obj d item.page)).1).fits ∧
  (item.y ≠ .fin 0 →
    (Flt.sub (Flt.of_int (page_box_height d (pdf_lookup_page_obj d item.page))) item.y).fits)

instance (d : Doc) (item : Item) : Decidable (converts d item) :=
  inferInstanceAs (Decidable (_ ∧ _ ∧ _))

/-- The conversions of the writer are defined for every node of the tree. -/
def convertible (d : Doc) : Outline → Prop
  | .nil => True
  | .node _ item _ _ down next => converts d item ∧ convertible d down ∧ convertible d next

/-- Whether a tree is `convertible` can be computed. -/
def convertible_dec (d : Doc) : (t : Outline) → Decidable (convertible d t)
  | .nil => isTrue trivial
  | .node _ _ _ _ down next =>
    have := convertible_dec d down
    have := convertible_dec d next
    inferInstanceAs (Decidable (_ ∧ _ ∧ _))

instance (d : Doc) (t : Outline) : Decidable (convertible d t) := convertible_dec d t

/-- What the round trip needs of a tree beyond what the writer needs: no
destination has `y = 0`; the conversions of the writer are defined; the
coordinates survive them, that is, `x` is the `float` of the integer written
for it, and `y` is the `float` of the height `h` of the page box minus the
integer `y'` written for it; a node without children is closed; and no node
has `2^31` children or more. -/
def faithful (d : Doc) : Outline → Prop
  | .nil => True
  | .node _ item _ _ down next =>
    item.y ≠ .fin 0 ∧ converts d item ∧ Flt.of_int item.x.to_int = item.x ∧
    Flt.of_int (page_box_height d (pdf_lookup_page_obj d item.page)
      - (Flt.sub (Flt.of_int (page_box_height d (pdf_lookup_page_obj d item.page)))
          item.y).to_int) = item.y ∧
    (down.isNode = false → item.is_open = false) ∧ down.chainLength < 2147483648 ∧
    faithful d down ∧ faithful d next

/-- Whether a tree is `faithful` can be computed. -/
def faithful_dec (d : Doc) : (t : Outline) → Decidable (faithful d t)
  | .nil => isTrue trivial
  | .node _ _ _ _ down next =>
    have := faithful_dec d down
    have := faithful_dec d next
    inferInstanceAs (Decidable (_ ∧ _ ∧ _ ∧ _ ∧ _ ∧ _ ∧ _ ∧ _))

instance (d : Doc) (t : Outline) : Decidable (faithful d t) := faithful_dec d t

/-- The tree the loader returns for the persisted form of `t`: the nodes of `t`
at consecutive addresses from `heap` in the order node, children, next
siblings, linked to the given parent and previous sibling, with the URI of the
destination. -/
def stamp : Outline → Nat → Option Nat → Option Nat → Outline
  | .nil, _, _, _ => .nil
  | .node _ item _ _ down next, heap, parent, prev =>
    .node heap { item with uri := some (.internal item.page item.x item.y) } parent prev
      (stamp down (heap + 1) (some heap) none)
      (stamp next (heap + 1 + down.size) parent (some heap))

/-- A tree without what the round trip does not compare: addresses, the
`parent` and `prev` pointers (which the validator checks), and the URI. -/
def erase : Outline → Outline
  | .nil => .nil
  | .node _ item _ _ down next =>
    .node 0 { item with uri := none } none none (erase down) (erase next)

/-- The marks the loop of the loader holds after the chain `t` persisted from
`num` on: its siblings, the last one first. -/
def chain_marks : Outline → Nat → List Loc
  | .nil, _ => []
  | .node _ _ _ _ down next, num =>
    chain_marks next (num + 1 + down.size) ++ [⟨.obj num, []⟩]

/-- The handle of the chain `t` persisted from `num` on. -/
def chain_handle (t : Outline) (num : Nat) : Handle :=
  if t.isNode then .ref num else .null

/-- The number of the first page whose object is `pg`. -/
def page_number : List (Nat × Flt × Flt) → Nat → Option Nat
  | [], _ => none
  | e :: rest, pg => if e.1 = pg then some 0 else (page_number rest pg).map fun i => i + 1

/-- Modelled from the spec: the destination parser (§6, "Destination/action
parser"), which is not part of this file's source, on the destinations the
writer produces: `[page object, /XYZ, x, y, ...]` is the internal link to the
number of that page at `x` and at the height of the page box minus `y` (the
inversion of the y coordinate undone), both converted to `float`; anything
else has no URI here. -/
def spec_links : LinkParser :=
  { parse_link_dest := fun d h =>
      match d.deref h with
      | .arr [.ref pg, .name .XYZ, .int x, .int y, _] =>
        match page_number d.pages pg with
        | some page =>
          .ok (some (.internal page (Flt.of_int x)
            (Flt.of_int (page_box_height d (.ref pg) - y))))
        | none => .ok none
      | _ => .ok none,
    parse_link_action := fun _ _ => .ok none }

/-! ## Persisted trees as the clearer walks them -/

/-- The shape of a persisted outline: the object number of every entry, with
its child chain and the chain of its later siblings. -/
inductive Shape where
  | nil
  | node (num : Nat) (down next : Shape)

namespace Shape

/-- The value of a `First` or `Next` entry that leads to the chain: an indirect
reference to its first entry, nothing for the empty chain. -/
def link : Shape → PdfObj
  | nil => .null
  | node num _ _ => .ref num

/-- The handle of the chain. -/
def handle : Shape → Handle
  | nil => .null
  | node num _ _ => .ref num

/-- The object numbers of the entries in the order node, children, next siblings. -/
def nums : Shape → List Nat
  | nil => []
  | node num down next => num :: (down.nums ++ next.nums)

end Shape

/-- The document holds the tree `t`: every entry is a dictionary at its number,
a number in use, and its `First` and `Next` entries are exactly the indirect
references to its child chain and to its next sibling. -/
def stored (d : Doc) : Shape → Prop
  | .nil => True
  | .node num down next =>
    0 < num ∧ num < d.xref_len ∧ (d.objs num).isDict = true ∧
    (d.objs num).get .First = down.link ∧ (d.objs num).get .Next = next.link ∧
    stored d down ∧ stored d next

/-- One call of `pdf_delete_object` for every number of the list, in its order. -/
def delete_all (d : Doc) (nums : List Nat) : Doc := nums.foldl pdf_delete_object d

/-- The part of a stored tree that the clearer passes before it reaches one of
its entries: the path to that entry from the first entry of the chain. -/
inductive Before where
  | here
  | child (num : Nat) (inner : Before)
  | sibling (num : Nat) (down : Shape) (inner : Before)

namespace Before

/-- The first entry of the chain, when the path leads to the entry `target`. -/
def head : Before → Nat → Nat
  | here, target => target
  | child num _, _ => num
  | sibling num _ _, _ => num

/-- The entries that come before the target in pre-order. -/
def visited : Before → List Nat
  | here => []
  | child num inner => num :: inner.visited
  | sibling num dwn inner => num :: (dwn.nums ++ inner.visited)

end Before

/-- The document holds the entries before `target` along the path `c`: an entry
with the target in its child chain has a `Next` entry that is absent or
indirect, an entry with the target among its later siblings has its child tree
stored. -/
def stored_before (d : Doc) (target : Nat) : Before → Prop
  | .here => True
  | .child num inner =>
    0 < num ∧ num < d.xref_len ∧ (d.objs num).isDict = true ∧
    (d.objs num).get .First = .ref (inner.head target) ∧
    ((d.objs num).get .Next = .null ∨ ∃ m, (d.objs num).get .Next = .ref m) ∧
    stored_before d target inner
  | .sibling num dwn inner =>
    0 < num ∧ num < d.xref_len ∧ (d.objs num).isDict = true ∧
    (d.objs num).get .First = dwn.link ∧ (d.objs num).get .Next = .ref (inner.head target) ∧
    stored d dwn ∧ stored_before d target inner

/-- The entry `key` of the dictionary `h` is present but not indirect. -/
def not_indirect (d : Doc) (h : Handle) (key : Name) : Prop :=
  pdf_dict_get d h key ≠ .null ∧ pdf_is_indirect (pdf_dict_get d h key) = false

/-! ## The links and the order of the objects the writer allocates -/

/-- The number of the object of the last node of the chain `t`, when its first
node gets the object `num`. -/
def last_sibling : Outline → Nat → Nat
  | .nil, num => num
  | .node _ _ _ _ down next, num =>
    if next.isNode then last_sibling next (num + 1 + down.size) else num

/-- The numbers of the objects of the nodes of the chain `t` itself, without
their descendants, when its first node gets the object `num`. -/
def sibling_nums : Outline → Nat → List Nat
  | .nil, _ => []
  | .node _ _ _ _ down next, num => num :: sibling_nums next (num + 1 + down.size)

/-- The nodes of a tree in the order the writer meets them (a node, its
descendants, its later siblings), each as its item and its child chain. The
writer allocates one object per node in this order, so node `i` of the list
gets the `i`-th number from the first. -/
def Outline.nodes : Outline → List (Item × Outline)
  | .nil => []
  | .node _ item _ _ down next => (item, down) :: (down.nodes ++ next.nodes)

/-- What the objects of the chain `t` from `num` on hold besides the entries of
`persisted`: `Parent` is the reference to `pn`, `Prev` is `prev` for the first
node and the reference to the node before for every other one, `Last` is the
reference to the last child, and a node without children has neither `Last`
nor `Count`. -/
def links_written (d : Doc) : Outline → Nat → Nat → PdfObj → Prop
  | .nil, _, _, _ => True
  | .node _ _ _ _ down next, num, pn, prev =>
    (d.objs num).get .Parent = .ref pn ∧ (d.objs num).get .Prev = prev ∧
    (d.objs num).get .Last = (if down.isNode then .ref (last_sibling down (num + 1)) else .null) ∧
    (down.isNode = false → (d.objs num).get .Count = .null) ∧
    links_written d down (num + 1) num .null ∧
    links_written d next (num + 1 + down.size) pn (.ref num)

/-- The items of the nodes of the chain `t` itself, without their descendants. -/
def chain_items : Outline → List Item
  | .nil => []
  | .node _ item _ _ _ next => item :: chain_items next

/-- The tree with `is_open` cleared in every node that has no children. -/
def close_leaves : Outline → Outline
  | .nil => .nil
  | .node a item p v down next =>
    .node a { item with is_open := item.is_open && down.isNode } p v (close_leaves down)
      (close_leaves next)

/-- What the writer needs of the nodes it meets before the gap of `c`: every
node on the path to the gap, and every node of the child trees it passes on
the way, has a title and a page of the document. -/
def writable_before (d : Doc) : Ctx → Prop
  | .hole => True
  | .down _ item _ _ inner _ =>
    item.title ≠ none ∧ pdf_lookup_page_obj d item.page ≠ .null ∧ writable_before d inner
  | .next _ item _ _ dwn inner =>
    item.title ≠ none ∧ pdf_lookup_page_obj d item.page ≠ .null ∧ writable d dwn ∧
      writable_before d inner

/-- The numbers of the objects of the ancestors of the gap of `c`, when the
first node of the tree gets the object `num`. -/
def objs_above : Ctx → Nat → List Nat
  | .hole, _ => []
  | .down _ _ _ _ inner _, num => num :: objs_above inner (num + 1)
  | .next _ _ _ _ dwn inner, num => objs_above inner (num + 1 + dwn.size)

/-! ## Concrete inputs used below -/

/-- Numbered objects given as a list; every other number is free. -/
def objs_of_list (l : List (Nat × PdfObj)) : Nat → PdfObj := fun num =>
  match l.find? fun e => e.1 = num with
  | some e => e.2
  | none => .null

/-- A leaf node at address `addr`. -/
def leaf (addr : Nat) (title : String) (page : Int) (x y : Flt) (is_open : Bool)
    (parent prev : Option Nat) (next : Outline) : Outline :=
  .node addr ⟨some title, none, page, x, y, is_open⟩ parent prev .nil next

/-- A document with two pages (objects 2 and 3, with boxes of height 100 and
200) and no outline. -/
def doc_plain : Doc :=
  { trailer := .dict [(.Root, .ref 1)],
    objs := objs_of_list [(1, .dict []), (2, .dict []), (3, .dict [])],
    xref_len := 4,
    pages := [(2, 0, 100), (3, 0, 200)],
    marks := [] }

/-- Two siblings of which the second has a null `prev`. -/
def tree_bad_prev : Outline :=
  leaf 1 "a" 0 0 10 false none none (leaf 2 "b" 1 0 10 false none none .nil)

/-- A valid tree: `a` with the children `b` (which has the child `c`) and `d`,
followed by its sibling `e`. -/
def tree_family : Outline :=
  .node 1 ⟨some "a", none, 0, 0, 10, true⟩ none none
    (.node 2 ⟨some "b", none, 0, 0, 20, true⟩ (some 1) none
      (leaf 3 "c" 0 0 30 false (some 2) none .nil)
      (leaf 4 "d" 1 0 40 false (some 1) (some 2) .nil))
    (leaf 5 "e" 0 0 50 false none (some 1) .nil)

/-- The tree `tree_family` with the `prev` of `d`, the second child of `a`, null. -/
def tree_second_prev_null : Outline :=
  .node 1 ⟨some "a", none, 0, 0, 10, true⟩ none none
    (.node 2 ⟨some "b", none, 0, 0, 20, true⟩ (some 1) none
      (leaf 3 "c" 0 0 30 false (some 2) none .nil)
      (leaf 4 "d" 1 0 40 false (some 1) none .nil))
    (leaf 5 "e" 0 0 50 false none (some 1) .nil)

/-- The tree `tree_family` with the `parent` of `c` pointing to `a`, its grandparent. -/
def tree_parent_is_grandparent : Outline :=
  .node 1 ⟨some "a", none, 0, 0, 10, true⟩ none none
    (.node 2 ⟨some "b", none, 0, 0, 20, true⟩ (some 1) none
      (leaf 3 "c" 0 0 30 false (some 1) none .nil)
      (leaf 4 "d" 1 0 40 false (some 1) (some 2) .nil))
    (leaf 5 "e" 0 0 50 false none (some 1) .nil)

/-- A document whose outline has one entry, object 3, with `First` and `Next`
both referring to object 3 itself. -/
def doc_self_loop : Doc :=
  { trailer := .dict [(.Root, .ref 1)],
    objs := objs_of_list
      [(1, .dict [(.Outlines, .ref 2)]),
       (2, .dict [(.First, .ref 3)]),
       (3, .dict [(.First, .ref 3), (.Next, .ref 3)])],
    xref_len := 4,
    pages := [],
    marks := [] }

/-- A document whose outline has the entries 3 and 4, linked by `Next`, where
`First` of object 3 refers to object 3 itself, an object of the chain being
traversed. -/
def doc_child_alias : Doc :=
  { trailer := .dict [(.Root, .ref 1)],
    objs := objs_of_list
      [(1, .dict [(.Outlines, .ref 2)]),
       (2, .dict [(.First, .ref 3)]),
       (3, .dict [(.Title, .str "a"), (.First, .ref 3), (.Next, .ref 4)]),
       (4, .dict [(.Title, .str "b")])],
    xref_len := 5,
    pages := [],
    marks := [] }

/-- A document whose outline is the sibling chain 3, 4, 5 with the `Next` of
object 5 referring back to object 3. -/
def doc_sibling_cycle : Doc :=
  { trailer := .dict [(.Root, .ref 1)],
    objs := objs_of_list
      [(1, .dict [(.Outlines, .ref 2)]),
       (2, .dict [(.First, .ref 3)]),
       (3, .dict [(.Title, .str "a"), (.Next, .ref 4)]),
       (4, .dict [(.Title, .str "b"), (.Next, .ref 5)]),
       (5, .dict [(.Title, .str "c"), (.Next, .ref 3)])],
    xref_len := 6,
    pages := [],
    marks := [] }

/-- A parser that finds no URI in any destination or action. -/
def no_links : LinkParser := ⟨fun _ _ => .ok none, fun _ _ => .ok none⟩

/-- A document with one page (object 3) whose Outlines entry is an indirect
dictionary without a `First` entry. -/
def doc_empty_outlines : Doc :=
  { trailer := .dict [(.Root, .ref 1)],
    objs := objs_of_list
      [(1, .dict [(.Outlines, .ref 2)]),
       (2, .dict [(.Count, .int 0)]),
       (3, .dict [])],
    xref_len := 4,
    pages := [(3, 0, 100)],
    marks := [] }

/-- A valid tree of one node, on page 0. -/
def tree_single : Outline := leaf 1 "a" 0 0 10 false none none .nil

/-- A valid tree of one node that is open and has no children. -/
def tree_open_leaf : Outline := leaf 1 "a" 0 0 10 true none none .nil

/-- A valid tree of one closed node whose destination has `y = 0`. -/
def tree_y_zero : Outline := leaf 1 "a" 0 5 0 false none none .nil

/-- A valid tree of one closed node without a title. -/
def tree_no_title : Outline := .node 1 ⟨none, none, 0, 0, 10, false⟩ none none .nil .nil

/-- A document without a catalogue. -/
def doc_no_root : Doc :=
  { trailer := .dict [], objs := objs_of_list [(1, .dict [])], xref_len := 2, pages := [],
    marks := [] }

/-- A document whose catalogue is a dictionary written directly into the trailer. -/
def doc_direct_root : Doc :=
  { trailer := .dict [(.Root, .dict [(.Outlines, .ref 1)])],
    objs := objs_of_list [(1, .dict [(.First, .ref 2)]), (2, .dict [])], xref_len := 3,
    pages := [], marks := [] }

/-- A document whose Outlines entry is a dictionary written directly into the
catalogue; its `First` refers to the outline entry 2. -/
def doc_direct_outlines : Doc :=
  { trailer := .dict [(.Root, .ref 1)],
    objs := objs_of_list [(1, .dict [(.Outlines, .dict [(.First, .ref 2)])]), (2, .dict [])],
    xref_len := 3, pages := [], marks := [] }

/-- A document whose Outlines object holds its first entry directly. -/
def doc_direct_first : Doc :=
  { trailer := .dict [(.Root, .ref 1)],
    objs := objs_of_list
      [(1, .dict [(.Outlines, .ref 2)]), (2, .dict [(.First, .dict [(.Title, .str "a")])])],
    xref_len := 3, pages := [], marks := [] }

/-- A document with an outline of three entries: object 5 with the child 6, and
its sibling 7, under the Outlines object 4. -/
def doc_outline3 : Doc :=
  { trailer := .dict [(.Root, .ref 1)],
    objs := objs_of_list
      [(1, .dict [(.Title, .str "catalogue"), (.Outlines, .ref 4)]),
       (2, .dict []), (3, .dict []),
       (4, .dict [(.First, .ref 5), (.Last, .ref 7), (.Count, .int 2)]),
       (5, .dict [(.Title, .str "a"), (.Parent, .ref 4), (.Next, .ref 7), (.First, .ref 6),
          (.Last, .ref 6), (.Count, .int 1)]),
       (6, .dict [(.Title, .str "b"), (.Parent, .ref 5)]),
       (7, .dict [(.Title, .str "c"), (.Parent, .ref 4), (.Prev, .ref 5)])],
    xref_len := 8,
    pages := [(2, 0, 100), (3, 0, 200)],
    marks := [] }

/-- The shape of the outline of `doc_outline3`. -/
def shape3 : Shape := .node 5 (.node 6 .nil .nil) (.node 7 .nil .nil)

/-- A document with the outline entries 5 (with the child 6) and 7, where the
`Next` entry of object 7 is a dictionary written directly into it. -/
def doc_direct_next : Doc :=
  { trailer := .dict [(.Root, .ref 1)],
    objs := objs_of_list
      [(1, .dict [(.Outlines, .ref 4)]),
       (4, .dict [(.First, .ref 5)]),
       (5, .dict [(.Title, .str "a"), (.Next, .ref 7), (.First, .ref 6)]),
       (6, .dict [(.Title, .str "b")]),
       (7, .dict [(.Title, .str "c"), (.Next, .dict [(.Title, .str "d")])])],
    xref_len := 8,
    pages := [],
    marks := [] }

/-- A document whose single outline entry, object 3, has a positive `Count` and a
`First` entry that refers to object 4, which is a number and no dictionary. -/
def doc_first_not_dict : Doc :=
  { trailer := .dict [(.Root, .ref 1)],
    objs := objs_of_list
      [(1, .dict [(.Outlines, .ref 2)]),
       (2, .dict [(.First, .ref 3)]),
       (3, .dict [(.Title, .str "a"), (.First, .ref 4), (.Count, .int 2)]),
       (4, .int 7)],
    xref_len := 5,
    pages := [],
    marks := [] }

/-- A parser that tells destinations from actions: every destination is the
internal link to page 1 at (2, 3), every action the external link "u". -/
def links_by_kind : LinkParser :=
  ⟨fun _ _ => .ok (some (.internal 1 2 3)), fun _ _ => .ok (some (.external "u"))⟩

/-- A document whose outline has three entries: object 3 with a `Dest` and an
`A` entry, object 4 with an `A` entry only, object 5 with neither. -/
def doc_dest_and_action : Doc :=
  { trailer := .dict [(.Root, .ref 1)],
    objs := objs_of_list
      [(1, .dict [(.Outlines, .ref 2)]),
       (2, .dict [(.First, .ref 3)]),
       (3, .dict [(.Title, .str "a"), (.Dest, .arr []), (.A, .dict []), (.Next, .ref 4)]),
       (4, .dict [(.Title, .str "b"), (.A, .dict []), (.Next, .ref 5)]),
       (5, .dict [(.Title, .str "c")])],
    xref_len := 6,
    pages := [],
    marks := [] }

/-- Three siblings `a`, `b`, `c` on the pages of `doc_plain`; `b` is open and
has the child `b1`. -/
def tree_three : Outline :=
  leaf 1 "a" 0 0 10 false none none
    (.node 2 ⟨some "b", none, 1, 0, 20, true⟩ none (some 1)
      (leaf 3 "b1" 0 0 30 false (some 2) none .nil)
      (leaf 4 "c" 0 0 40 false none (some 2) .nil))

/-- A document with the outline entries 5 (with the child 6) and 7, where the
`First` entry of object 6 is a dictionary written directly into it. -/
def doc_direct_down : Doc :=
  { trailer := .dict [(.Root, .ref 1)],
    objs := objs_of_list
      [(1, .dict [(.Outlines, .ref 4)]),
       (4, .dict [(.First, .ref 5)]),
       (5, .dict [(.Title, .str "a"), (.Next, .ref 7), (.First, .ref 6)]),
       (6, .dict [(.Title, .str "b"), (.First, .dict [(.Title, .str "d")])]),
       (7, .dict [(.Title, .str "c")])],
    xref_len := 8,
    pages := [],
    marks := [] }

/-- One node on page 0 with `x = 2.75` (eleven quarters) and `y = 10`. -/
def tree_fraction : Outline :=
  leaf 1 "a" 0 (.fin (11 * ((2 ^ 147 : Nat) : Int))) 10 false none none .nil

/-- One node on page 0 with `x = 0` and `y = 2^27`. -/
def tree_far : Outline := leaf 1 "a" 0 0 134217728 false none none .nil

/-- One node without a title, on page 7, which `doc_plain` does not have. -/
def tree_untitled_page7 : Outline :=
  .node 1 ⟨none, none, 7, 0, 10, false⟩ none none .nil .nil

/-- A node without a title on page 0, followed by the sibling `b` on page 7,
which `doc_plain` does not have. -/
def tree_untitled_then_page7 : Outline :=
  .node 1 ⟨none, none, 0, 0, 10, false⟩ none none .nil
    (leaf 2 "b" 7 0 20 false none (some 1) .nil)

/-- The tree `tree_three` with the child `b1` on page 7, which `doc_plain` does
not have. -/
def tree_page7 : Outline :=
  leaf 1 "a" 0 0 10 false none none
    (.node 2 ⟨some "b", none, 1, 0, 20, true⟩ none (some 1)
      (leaf 3 "b1" 7 0 30 false (some 2) none .nil)
      (leaf 4 "c" 0 0 40 false none (some 2) .nil))

/-! ## Theorems -/

/-- C8 (code at the failing input): the validator reads `first->prev` of the
empty tree, which is a null dereference, and `pdf_rewrite_outline` called with
no tree ends there, before the clear and write stages, with the document as it
was. -/
theorem check_outline_nil_faults :
    check_outline .nil = .error .null_deref ∧
    ∀ (fuel : Nat) (d : Doc), pdf_rewrite_outline fuel d .nil = some (d, .error .null_deref) :=
  ⟨rfl, fun _ _ => rfl⟩

/-- C10: when the validator reports a violation `msg` for the tree, then
`pdf_rewrite_outline` raises "invalid outline: msg" and returns the document it
was given: trailer, numbered objects, table length and marks are all as before. -/
theorem rewrite_invalid_untouched (fuel : Nat) (d : Doc) (outline : Outline) (msg : String)
    (hbad : check_outline outline = .ok (some msg)) :
    pdf_rewrite_outline fuel d outline = some (d, .error (.throw ("invalid outline: " ++ msg))) := by
  simp [pdf_rewrite_outline, hbad]

theorem rewrite_invalid_untouched_witness :
    check_outline tree_bad_prev = .ok (some "prev does not match") ∧
    pdf_rewrite_outline 0 doc_plain tree_bad_prev
      = some (doc_plain, .error (.throw ("invalid outline: " ++ "prev does not match"))) :=
  ⟨rfl, rewrite_invalid_untouched 0 doc_plain tree_bad_prev "prev does not match" rfl⟩

/-! ### The validator -/

@[simp] theorem isNode_node (a : Nat) (i : Item) (p v : Option Nat) (d n : Outline) :
    (Outline.node a i p v d n).isNode = true := rfl

@[simp] theorem isNode_nil : Outline.nil.isNode = false := rfl

@[simp] theorem prevField_node (a : Nat) (i : Item) (p v : Option Nat) (d n : Outline) :
    (Outline.node a i p v d n).prevField = v := rfl

@[simp] theorem prevField_nil : Outline.nil.prevField = none := rfl

theorem chain_valid_iff_threaded (P : Option Nat) (c : List Links) :
    chain_valid P c ↔ threaded P none c := by
  have key : ∀ (c : List Links) (prev : Option Nat),
      threaded P prev c ↔
        (∀ e ∈ c.head?, e.prev = prev) ∧ (∀ e ∈ c, e.parent = P) ∧
        (∀ p ∈ c.zip c.tail, p.2.prev = some p.1.addr) := by
    intro c
    induction c with
    | nil => intro prev; simp [threaded]
    | cons e rest ih =>
      intro prev
      rw [threaded, ih]
      cases rest with
      | nil => simp; tauto
      | cons e2 rest2 =>
        simp only [List.head?_cons, Option.mem_def, Option.some.injEq, forall_eq',
          List.mem_cons, forall_eq_or_imp, List.tail_cons, List.zip_cons_cons]
        tauto
  exact (key c none).symm

theorem check_siblings_none_iff (t : Outline) :
    ∀ (P prev : Option Nat), check_siblings t P prev = none ↔ Linked t P prev := by
  induction t with
  | nil => intro P prev; simp [check_siblings, Linked]
  | node addr item par prv down next ihd ihn =>
    intro P prev
    rw [check_siblings, Linked]
    by_cases h1 : par = P
    · by_cases h2 : prv = prev
      · cases down with
        | nil => simp [h1, h2, Outline.isNode, ihn, Linked]
        | node a2 i2 p2 v2 d2 n2 =>
          have hd := ihd (some addr) none
          by_cases h3 : v2 = none
          · cases hc : check_siblings (Outline.node a2 i2 p2 v2 d2 n2) (some addr) none with
            | none =>
              have := hd.mp hc
              simp [h1, h2, h3, Outline.isNode, Outline.prevField, hc, ihn, this, h3 ▸ hc,
                h3 ▸ this]
            | some m =>
              have : ¬ Linked (Outline.node a2 i2 p2 v2 d2 n2) (some addr) none := by
                intro hl; rw [hd.mpr hl] at hc; cases hc
              simp [h1, h2, h3, Outline.isNode, Outline.prevField, h3 ▸ hc, h3 ▸ this]
          · have : ¬ Linked (Outline.node a2 i2 p2 v2 d2 n2) (some addr) none := by
              intro hl; rw [Linked] at hl; exact h3 hl.2.1
            simp [h1, h2, h3, Outline.isNode, Outline.prevField, this]
      · simp [h1, h2]
    · simp [h1]

theorem linked_iff_chains (t : Outline) :
    ∀ (P prev : Option Nat), Linked t P prev ↔
      threaded P prev t.chain ∧ ∀ pc ∈ t.chains_below, chain_valid pc.1 pc.2 := by
  induction t with
  | nil => intro P prev; simp [Linked, Outline.chain, Outline.chains_below, threaded]
  | node addr item par prv down next ihd ihn =>
    intro P prev
    rw [Linked, ihd, ihn]
    cases down with
    | nil =>
      simp [Outline.chain, Outline.chains_below, threaded, Outline.isNode]
      tauto
    | node a2 i2 p2 v2 d2 n2 =>
      simp only [Outline.chain, threaded, Outline.chains_below, Outline.isNode, ↓reduceIte,
        List.mem_append, List.mem_singleton, chain_valid_iff_threaded]
      constructor
      · rintro ⟨h1, h2, ⟨h3, h4⟩, h5, h6⟩
        refine ⟨⟨h1, h2, h5⟩, ?_⟩
        rintro pc ((hpc | hpc) | hpc)
        · subst hpc; exact h3
        · exact h4 pc hpc
        · exact h6 pc hpc
      · rintro ⟨⟨h1, h2, h5⟩, h⟩
        refine ⟨h1, h2, ⟨?_, ?_⟩, h5, ?_⟩
        · exact h _ (Or.inl (Or.inl rfl))
        · intro pc hpc; exact h pc (Or.inl (Or.inr hpc))
        · intro pc hpc; exact h pc (Or.inr hpc)

/-- C6: for a non-empty tree the validator returns no violation exactly when
every sibling chain reachable from the root through `down` and `next`
satisfies the invariant of the data model for its expected parent (none at the
top level): first element without `prev`, every element with that parent,
every `prev` the element just before. -/
theorem check_outline_decides_invariant (t : Outline) (ht : t.isNode = true) :
    check_outline t = .ok none ↔ ∀ pc ∈ t.chains none, chain_valid pc.1 pc.2 := by
  cases t with
  | nil => simp [Outline.isNode] at ht
  | node addr item par prv down next =>
    have h1 := check_siblings_none_iff (.node addr item par prv down next) none none
    have h2 := linked_iff_chains (.node addr item par prv down next) none none
    simp only [check_outline, check_outline_imp, Outline.prevField, Outline.chains,
      List.mem_cons, forall_eq_or_imp, chain_valid_iff_threaded]
    by_cases h3 : prv = none
    · simp only [h3, ne_eq, not_true_eq_false, ↓reduceIte, Except.ok.injEq]
      rw [h3] at h1 h2
      rw [h1, h2]
      simp [chain_valid_iff_threaded]
    · have : ¬ threaded none none (Outline.node addr item par prv down next).chain := by
        simp [Outline.chain, threaded, h3]
      simp [h3, this]

theorem first_violation_nil : first_violation [] = none := rfl

theorem first_violation_cons (b : Bool) (m : String) (l : List (Bool × String)) :
    first_violation ((b, m) :: l) = if b then some m else first_violation l := by
  cases b <;> simp [first_violation, List.find?]

theorem first_violation_append (l1 l2 : List (Bool × String)) :
    first_violation (l1 ++ l2) =
      match first_violation l1 with
      | some m => some m
      | none => first_violation l2 := by
  induction l1 with
  | nil => simp [first_violation_nil]
  | cons c rest ih =>
    obtain ⟨b, m⟩ := c
    rw [List.cons_append, first_violation_cons, first_violation_cons, ih]
    cases b <;> simp

theorem check_siblings_eq_walk (t : Outline) :
    ∀ (P prev : Option Nat), check_siblings t P prev = first_violation (walk_chain t P prev) := by
  induction t with
  | nil => intro P prev; simp [check_siblings, walk_chain, first_violation_nil]
  | node addr item par prv down next ihd ihn =>
    intro P prev
    rw [check_siblings, walk_chain, first_violation_append, first_violation_append,
      first_violation_cons, first_violation_cons, first_violation_nil, ← ihn]
    by_cases h1 : par = P <;> by_cases h2 : prv = prev <;> cases hn : down.isNode <;>
      by_cases h3 : down.prevField = none <;>
      simp [h1, h2, hn, h3, first_violation_nil, first_violation_cons, ← ihd]

theorem isNode_fill (c : Ctx) (s : Outline) (h : s.isNode = true) :
    (c.fill s).isNode = true := by
  cases c
  · exact h
  · rfl
  · rfl

theorem prevField_fill (c : Ctx) (s s' : Outline) (h : s'.prevField = s.prevField) :
    (c.fill s').prevField = (c.fill s).prevField := by
  cases c
  · exact h
  · rfl
  · rfl

theorem linked_prevField (t : Outline) (P prev : Option Nat) (h : Linked t P prev)
    (ht : t.isNode = true) : t.prevField = prev := by
  cases t with
  | nil => simp at ht
  | node a i p v d n => rw [Linked] at h; simpa using h.2.1

theorem linked_at_hole (c : Ctx) (s : Outline) :
    ∀ (P prev : Option Nat), Linked (c.fill s) P prev →
      Linked s (c.expect P prev).1 (c.expect P prev).2 := by
  induction c with
  | hole => intro P prev h; exact h
  | down addr item parent prv inner next ih =>
    intro P prev h
    rw [Ctx.fill, Linked] at h
    exact ih _ _ h.2.2.1
  | next addr item parent prv dwn inner ih =>
    intro P prev h
    rw [Ctx.fill, Linked] at h
    exact ih _ _ h.2.2.2

/-- The walk over a node all of whose own checks pass and whose `down` subtree
is valid goes on with the next sibling. -/
theorem check_siblings_pass (addr : Nat) (item : Item) (P prev : Option Nat)
    (down next : Outline) (hd : Linked down (some addr) none) :
    check_siblings (.node addr item P prev down next) P prev
      = check_siblings next P (some addr) := by
  have h1 := (check_siblings_none_iff down (some addr) none).mpr hd
  rw [check_siblings]
  cases hn : down.isNode
  · simp
  · simp [h1, linked_prevField down _ _ hd hn]

/-- Replacing the subtree at the gap of a valid tree by one that fails with
`m` there, and that keeps the first node's `prev`, makes the walk fail with `m`. -/
theorem check_siblings_fill (c : Ctx) (s s' : Outline) (m : String)
    (hs : s.isNode = true) (hs' : s'.isNode = true) (hp : s'.prevField = s.prevField) :
    ∀ (P prev : Option Nat), Linked (c.fill s) P prev →
      check_siblings s' (c.expect P prev).1 (c.expect P prev).2 = some m →
      check_siblings (c.fill s') P prev = some m := by
  induction c with
  | hole => intro P prev _ h; exact h
  | down addr item parent prv inner next ih =>
    intro P prev hl h
    rw [Ctx.fill, Linked] at hl
    obtain ⟨h1, h2, h3, _⟩ := hl
    have hpf : (inner.fill s').prevField = none := by
      rw [prevField_fill inner s s' hp]
      exact linked_prevField _ _ _ h3 (isNode_fill inner s hs)
    rw [Ctx.fill, check_siblings]
    simp [h1, h2, isNode_fill inner s' hs', hpf, ih _ _ h3 h]
  | next addr item parent prv dwn inner ih =>
    intro P prev hl h
    rw [Ctx.fill, Linked] at hl
    obtain ⟨h1, h2, h3, h4⟩ := hl
    subst h1 h2
    rw [Ctx.fill, check_siblings_pass _ _ _ _ _ _ h3]
    exact ih _ _ h4 h

theorem check_outline_ok_iff_linked (t : Outline) (ht : t.isNode = true) :
    check_outline t = .ok none ↔ Linked t none none := by
  cases t with
  | nil => simp at ht
  | node addr item par prv down next =>
    have h1 := check_siblings_none_iff (.node addr item par prv down next) none none
    simp only [check_outline, check_outline_imp, prevField_node]
    by_cases h3 : prv = none
    · simp only [h3, ne_eq, not_true_eq_false, ↓reduceIte, Except.ok.injEq]
      rw [h3] at h1
      exact h1
    · simp [h3, Linked]

theorem check_outline_fill (c : Ctx) (s s' : Outline) (m : String)
    (hs : s.isNode = true) (hs' : s'.isNode = true) (hp : s'.prevField = s.prevField)
    (hvalid : check_outline (c.fill s) = .ok none)
    (h : check_siblings s' (c.expect none none).1 (c.expect none none).2 = some m) :
    check_outline (c.fill s') = .ok (some m) := by
  have hl := (check_outline_ok_iff_linked _ (isNode_fill c s hs)).mp hvalid
  have hc := check_siblings_fill c s s' m hs hs' hp none none hl h
  have hpf : (c.fill s').prevField = none := by
    rw [prevField_fill c s s' hp]
    exact linked_prevField _ _ _ hl (isNode_fill c s hs)
  have hn := isNode_fill c s' hs'
  cases hf : c.fill s' with
  | nil => rw [hf] at hn; simp at hn
  | node a2 i2 p2 v2 d2 n2 =>
    rw [hf] at hpf hc
    simp only [prevField_node] at hpf
    subst hpf
    simp [check_outline, check_outline_imp, hc]

/-- C9: the validator reports the reason of the first violated check in its
walk order (the first-element prev check of a chain, then per element the
parent check, the prev check, the `down` subtree and the next sibling). In
particular: a tree that is valid once the `prev` of a node with a previous
sibling `a` is set to `a`, but in which that `prev` is null, is rejected with
"prev does not match"; and a tree that is valid once the `parent` of a node is
set to its parent `pa`, but in which it is another pointer `g` (such as the
grandparent), is rejected with "parent does not match". -/
theorem validator_reports_first_violation :
    (∀ t : Outline, t.isNode = true →
      check_outline t = .ok (first_violation (walk t none))) ∧
    (∀ (c : Ctx) (a : Nat) (ia : Item) (pa va : Option Nat) (da : Outline)
        (b : Nat) (ib : Item) (pb : Option Nat) (db nb : Outline),
      check_outline (c.fill (.node a ia pa va da (.node b ib pb (some a) db nb))) = .ok none →
      check_outline (c.fill (.node a ia pa va da (.node b ib pb none db nb)))
        = .ok (some "prev does not match")) ∧
    (∀ (c : Ctx) (a : Nat) (ia : Item) (pa va g : Option Nat) (da na : Outline),
      check_outline (c.fill (.node a ia pa va da na)) = .ok none → g ≠ pa →
      check_outline (c.fill (.node a ia g va da na)) = .ok (some "parent does not match")) := by
  refine ⟨?_, ?_, ?_⟩
  · intro t ht
    cases t with
    | nil => simp at ht
    | node addr item par prv down next =>
      rw [walk, first_violation_cons, ← check_siblings_eq_walk]
      by_cases h3 : prv = none <;> simp [check_outline, check_outline_imp, h3]
  · intro c a ia pa va da b ib pb db nb hvalid
    refine check_outline_fill c (.node a ia pa va da (.node b ib pb (some a) db nb)) _ _
      rfl rfl rfl hvalid ?_
    have hl := linked_at_hole c (.node a ia pa va da (.node b ib pb (some a) db nb)) none none
      ((check_outline_ok_iff_linked _ (isNode_fill c (.node a ia pa va da _) rfl)).mp hvalid)
    rw [Linked, Linked] at hl
    obtain ⟨h1, h2, h3, h4, _, _, _⟩ := hl
    subst h1 h2
    rw [check_siblings_pass _ _ _ _ _ _ h3, check_siblings]
    simp [h4]
  · intro c a ia pa va g da na hvalid hg
    refine check_outline_fill c (.node a ia pa va da na) _ _ rfl rfl rfl hvalid ?_
    have hl := linked_at_hole c (.node a ia pa va da na) none none
      ((check_outline_ok_iff_linked _ (isNode_fill c (.node a ia pa va da na) rfl)).mp hvalid)
    rw [Linked] at hl
    rw [check_siblings]
    simp [← hl.1, hg]

theorem check_outline_decides_invariant_witness :
    tree_family.isNode = true ∧
    (check_outline tree_family = .ok none ↔
      ∀ pc ∈ tree_family.chains none, chain_valid pc.1 pc.2) :=
  ⟨rfl, check_outline_decides_invariant tree_family rfl⟩

theorem validator_reports_first_violation_witness :
    check_outline tree_family = .ok none ∧
    check_outline tree_second_prev_null = .ok (some "prev does not match") ∧
    check_outline tree_parent_is_grandparent = .ok (some "parent does not match") :=
  ⟨rfl,
   validator_reports_first_violation.2.1
     (.down 1 ⟨some "a", none, 0, 0, 10, true⟩ none none .hole
       (leaf 5 "e" 0 0 50 false none (some 1) .nil))
     2 ⟨some "b", none, 0, 0, 20, true⟩ (some 1) none
     (leaf 3 "c" 0 0 30 false (some 2) none .nil)
     4 ⟨some "d", none, 1, 0, 40, false⟩ (some 1) .nil .nil rfl,
   validator_reports_first_violation.2.2
     (.down 1 ⟨some "a", none, 0, 0, 10, true⟩ none none
       (.down 2 ⟨some "b", none, 0, 0, 20, true⟩ (some 1) none .hole
         (leaf 4 "d" 1 0 40 false (some 1) (some 2) .nil))
       (leaf 5 "e" 0 0 50 false none (some 1) .nil))
     3 ⟨some "c", none, 0, 0, 30, false⟩ (some 2) none (some 1) .nil .nil rfl (by decide)⟩

/-! ### The loader: fuel -/

theorem load_mono (P : LinkParser) : ∀ n,
    (∀ d heap parent prev dict r, load_siblings P n d heap parent prev dict = some r →
      load_siblings P (n + 1) d heap parent prev dict = some r) ∧
    (∀ d heap parent dict r, pdf_load_outline_imp P n d heap parent dict = some r →
      pdf_load_outline_imp P (n + 1) d heap parent dict = some r) := by
  intro n
  induction n with
  | zero =>
    exact ⟨fun _ _ _ _ _ _ h => by simp [load_siblings] at h,
      fun _ _ _ _ _ h => by simp [pdf_load_outline_imp] at h⟩
  | succ n ih =>
    obtain ⟨ih1, ih2⟩ := ih
    constructor
    · intro d heap parent prev dict r h
      rw [load_siblings] at h ⊢
      split_ifs at h ⊢ with c1 c2
      · exact h
      · exact h
      · cases hi : load_item P (pdf_mark_obj d dict).2 dict with
        | error e => simp only [hi] at h ⊢; exact h
        | ok item =>
          simp only [hi] at h ⊢
          by_cases hf : pdf_dict_get (pdf_mark_obj d dict).2 dict .First = .null
          · simp only [hf, ne_eq, not_true_eq_false, ↓reduceIte] at h ⊢
            cases hB : load_siblings P n (pdf_mark_obj d dict).2 (heap + 1) parent (some heap)
                (pdf_dict_get (pdf_mark_obj d dict).2 dict .Next) with
            | none => simp [hB] at h
            | some b => simp only [hB, ih1 _ _ _ _ _ _ hB] at h ⊢; exact h
          · simp only [hf, ne_eq, not_false_eq_true, ↓reduceIte] at h ⊢
            cases hA : pdf_load_outline_imp P n (pdf_mark_obj d dict).2 (heap + 1) (some heap)
                (pdf_dict_get (pdf_mark_obj d dict).2 dict .First) with
            | none => simp [hA] at h
            | some a =>
              obtain ⟨d2, heap2, ra⟩ := a
              simp only [hA, ih2 _ _ _ _ _ hA] at h ⊢
              cases ra with
              | error e => exact h
              | ok down =>
                simp only at h ⊢
                cases hB : load_siblings P n d2 heap2 parent (some heap)
                    (pdf_dict_get d2 dict .Next) with
                | none => simp [hB] at h
                | some b => simp only [hB, ih1 _ _ _ _ _ _ hB] at h ⊢; exact h
    · intro d heap parent dict r h
      rw [pdf_load_outline_imp] at h ⊢
      cases hB : load_siblings P n d heap parent none dict with
      | none => simp [hB] at h
      | some b => simp only [hB, ih1 _ _ _ _ _ _ hB] at h ⊢; exact h

theorem load_imp_fuel (P : LinkParser) (n m : Nat) (h : n ≤ m) (d heap parent dict r)
    (hr : pdf_load_outline_imp P n d heap parent dict = some r) :
    pdf_load_outline_imp P m d heap parent dict = some r := by
  induction h with
  | refl => exact hr
  | step _ ih => exact (load_mono P _).2 _ _ _ _ _ ih

theorem load_siblings_fuel (P : LinkParser) (n m : Nat) (h : n ≤ m) (d heap parent prev dict r)
    (hr : load_siblings P n d heap parent prev dict = some r) :
    load_siblings P m d heap parent prev dict = some r := by
  induction h with
  | refl => exact hr
  | step _ ih => exact (load_mono P _).1 _ _ _ _ _ _ ih

theorem load_outline_fuel (P : LinkParser) (n m : Nat) (h : n ≤ m) (d heap r)
    (hr : pdf_load_outline P n d heap = some r) :
    pdf_load_outline P m d heap = some r := by
  simp only [pdf_load_outline] at hr ⊢
  split_ifs at hr ⊢ with c
  · cases hA : pdf_load_outline_imp P n d heap none
        (pdf_dict_get d (pdf_dict_get d (pdf_dict_get d (pdf_trailer d) .Root) .Outlines)
          .First) with
    | none => simp [hA] at hr
    | some a => simp only [hA, load_imp_fuel P n m h _ _ _ _ _ hA] at hr ⊢; exact hr
  · exact hr

/-! ### The loader on cyclic and aliased chains -/

@[simp] theorem setMarks_marks (d : Doc) (m : List Loc) : (d.setMarks m).marks = m := rfl
@[simp] theorem setMarks_setMarks (d : Doc) (m m' : List Loc) :
    (d.setMarks m).setMarks m' = d.setMarks m' := rfl
@[simp] theorem setMarks_self (d : Doc) : d.setMarks d.marks = d := rfl
@[simp] theorem flagged_setMarks (d : Doc) (m : List Loc) (h : Handle) :
    (d.setMarks m).flagged h = d.flagged h := rfl
@[simp] theorem dict_get_setMarks (d : Doc) (m : List Loc) (h : Handle) (k : Name) :
    pdf_dict_get (d.setMarks m) h k = pdf_dict_get d h k := rfl
@[simp] theorem is_dict_setMarks (d : Doc) (m : List Loc) (h : Handle) :
    pdf_is_dict (d.setMarks m) h = pdf_is_dict d h := rfl
@[simp] theorem to_int_setMarks (d : Doc) (m : List Loc) (h : Handle) :
    pdf_to_int (d.setMarks m) h = pdf_to_int d h := rfl

theorem is_dict_ne_null (d : Doc) (h : Handle) (hd : pdf_is_dict d h = true) : h ≠ .null := by
  intro hn; subst hn; simp [pdf_is_dict, Doc.deref, Doc.resolve, PdfObj.isDict] at hd

theorem is_dict_flagged (d : Doc) (h : Handle) (hd : pdf_is_dict d h = true) :
    ∃ l, d.flagged h = some l ∧ d.resolve h = some l := by
  unfold pdf_is_dict Doc.deref at hd
  cases hr : d.resolve h with
  | none => simp [hr, PdfObj.isDict] at hd
  | some l =>
    refine ⟨l, ?_, rfl⟩
    simp only [hr] at hd
    unfold Doc.flagged
    simp only [hr]
    cases ho : d.objAt l <;> simp [ho, PdfObj.isDict, PdfObj.isConst] at hd ⊢

theorem flagged_is_dict (d : Doc) (h h' : Handle) (hd : pdf_is_dict d h = true)
    (he : d.flagged h' = d.flagged h) : pdf_is_dict d h' = true := by
  obtain ⟨l, hl, hr⟩ := is_dict_flagged d h hd
  rw [hl] at he
  unfold Doc.flagged at he
  cases hr' : d.resolve h' with
  | none => simp [hr'] at he
  | some l' =>
    simp only [hr'] at he
    split_ifs at he
    simp only [Option.some.injEq] at he
    subst he
    simp only [pdf_is_dict, Doc.deref, hr', hr] at hd ⊢
    exact hd

theorem load_item_closed (P : LinkParser) (d : Doc) (h : Handle) (item : Item)
    (hi : load_item P d h = .ok item) : item.is_open = false := by
  unfold load_item at hi
  simp only at hi
  split at hi
  · cases hi
  · cases hi; rfl
  · split_ifs at hi <;> cases hi <;> rfl

theorem mark_new (d : Doc) (m : List Loc) (h : Handle) (l : Loc)
    (hl : d.flagged h = some l) (hm : l ∉ m) :
    pdf_mark_obj (d.setMarks m) h = (false, d.setMarks (l :: m)) := by
  simp [pdf_mark_obj, hl, hm]

theorem mark_old (d : Doc) (m : List Loc) (h : Handle) (l : Loc)
    (hl : d.flagged h = some l) (hm : l ∈ m) :
    pdf_mark_obj (d.setMarks m) h = (true, d.setMarks m) := by
  simp [pdf_mark_obj, hl, hm]

/-- The loop of the loader along a chain of dictionaries without children whose
places are unmarked and distinct, when the `Next` of the last one is marked by
then: one node per handle, and every handle marked. -/
theorem load_siblings_chain (P : LinkParser) (d : Doc) (parent : Option Nat) (hb : Handle) :
    ∀ (hs : List Handle) (hne : hs ≠ []) (m : List Loc) (heap : Nat) (prev : Option Nat)
      (fuel : Nat),
      next_chain d hs → (hs.map d.flagged).Nodup →
      (∀ h ∈ hs, ∀ l, d.flagged h = some l → l ∉ m) →
      pdf_dict_get d (hs.getLast hne) .Next = hb →
      pdf_is_dict d hb = true →
      (d.flagged hb ∈ hs.map d.flagged ∨ ∃ l ∈ m, d.flagged hb = some l) →
      (∀ m h, h ∈ hs → ∃ item, load_item P (d.setMarks m) h = .ok item) →
      hs.length + 1 ≤ fuel →
      ∃ items, List.Forall₂ (fun h item => ∃ m, load_item P (d.setMarks m) h = .ok item) hs items ∧
        load_siblings P fuel (d.setMarks m) heap parent prev (hs.head hne)
          = some (d.setMarks ((hs.filterMap d.flagged).reverse ++ m), heap + hs.length,
              .ok (sibling_list heap parent prev items)) := by
  intro hs
  induction hs with
  | nil => intro hne; exact absurd rfl hne
  | cons h rest ih =>
    intro _ m heap prev fuel hchain hnd hfresh hback hbd hbin hparse hfuel
    obtain ⟨fuel, rfl⟩ : ∃ f, fuel = f + 1 := ⟨fuel - 1, by omega⟩
    have hleaf : leaf_dict d h := by
      cases rest with
      | nil => exact hchain
      | cons h' r => exact hchain.1
    obtain ⟨l, hl, -⟩ := is_dict_flagged d h hleaf.1
    have hlm : l ∉ m := hfresh h (List.mem_cons_self _ _) l hl
    obtain ⟨item, hitem⟩ := hparse (l :: m) h (List.mem_cons_self _ _)
    have hclosed := load_item_closed P _ _ _ hitem
    have hitem' : ({ item with is_open := false } : Item) = item := by
      cases item; simp only at hclosed; subst hclosed; rfl
    rw [List.head_cons, load_siblings]
    simp only [is_dict_setMarks, hleaf.1, is_dict_ne_null d h hleaf.1, mark_new d m h l hl hlm,
      hitem, dict_get_setMarks, hleaf.2, false_or, Bool.true_eq_false, ↓reduceIte, ne_eq,
      not_true_eq_false, Bool.false_eq_true]
    cases rest with
    | nil =>
      simp only [List.getLast_singleton] at hback
      obtain ⟨fuel, rfl⟩ : ∃ f, fuel = f + 1 := ⟨fuel - 1, by simp at hfuel; omega⟩
      have hbl : d.flagged hb = some l ∨ ∃ l' ∈ m, d.flagged hb = some l' := by
        rcases hbin with hbin | hbin
        · left; simpa [hl] using hbin
        · right; exact hbin
      have hmarked : ∃ l', d.flagged hb = some l' ∧ l' ∈ l :: m := by
        rcases hbl with hbl | ⟨l', hl', hbl⟩
        · exact ⟨l, hbl, List.mem_cons_self _ _⟩
        · exact ⟨l', hbl, List.mem_cons_of_mem _ hl'⟩
      obtain ⟨l', hl', hin⟩ := hmarked
      refine ⟨[item], List.Forall₂.cons ⟨_, hitem⟩ List.Forall₂.nil, ?_⟩
      rw [hback, load_siblings]
      simp [hbd, is_dict_ne_null d hb hbd, mark_old d (l :: m) hb l' hl' hin, hl,
        sibling_list, hitem']
    | cons h' r =>
      obtain ⟨_, hnext, hrest⟩ := hchain
      have hnd' := List.nodup_cons.mp hnd
      simp only [List.map_cons] at hnd'
      obtain ⟨items, hitems, hload⟩ := ih (List.cons_ne_nil _ _) (l :: m) (heap + 1) (some heap)
        fuel hrest hnd'.2
        (by
          intro x hx lx hlx hmem
          rcases List.mem_cons.mp hmem with hmem | hmem
          · subst hmem
            apply hnd'.1
            rw [hl, ← hlx]
            exact List.mem_map_of_mem _ hx
          · exact hfresh x (List.mem_cons_of_mem _ hx) lx hlx hmem)
        (by simpa using hback) hbd
        (by
          rcases hbin with hbin | ⟨l', hl', hbin⟩
          · rcases List.mem_cons.mp hbin with hbin | hbin
            · right; exact ⟨l, List.mem_cons_self _ _, by rw [hbin, hl]⟩
            · left; exact hbin
          · right; exact ⟨l', List.mem_cons_of_mem _ hl', hbin⟩)
        (fun m x hx => hparse m x (List.mem_cons_of_mem _ hx))
        (by simp at hfuel ⊢; omega)
      refine ⟨item :: items, List.Forall₂.cons ⟨_, hitem⟩ hitems, ?_⟩
      rw [List.head_cons] at hload
      simp only [hnext, hload]
      simp [hl, sibling_list, hitem', Nat.add_assoc, Nat.add_comm 1]

theorem marked_setMarks (d : Doc) (m : List Loc) (h : Handle) (l : Loc)
    (hl : d.flagged h = some l) : pdf_obj_marked (d.setMarks m) h = decide (l ∈ m) := by
  simp [pdf_obj_marked, hl]

theorem unmark_setMarks (d : Doc) (m : List Loc) (h : Handle) (l : Loc)
    (hl : d.flagged h = some l) :
    pdf_unmark_obj (d.setMarks m) h = d.setMarks (m.filter fun x => x ≠ l) := by
  simp [pdf_unmark_obj, hl]

theorem unmark_loop_stop (d : Doc) (m : List Loc) (h : Handle) (n : Nat)
    (hl : ∀ l, d.flagged h = some l → l ∉ m) :
    unmark_loop n (d.setMarks m) h = d.setMarks m := by
  cases n with
  | zero => rfl
  | succ n =>
    rw [unmark_loop]
    cases hf : d.flagged h with
    | none => simp [pdf_obj_marked, hf]
    | some l => simp [marked_setMarks d m h l hf, hl l hf]

/-- The loop of the `fz_always` block along a chain of marked dictionaries
with distinct places, when the `Next` of the last one is unmarked by then:
exactly the marks of the chain are removed. -/
theorem unmark_loop_chain (d : Doc) (hb : Handle) :
    ∀ (hs : List Handle) (hne : hs ≠ []) (m : List Loc) (n : Nat),
      next_chain d hs → (hs.map d.flagged).Nodup →
      (∀ h ∈ hs, ∀ l, d.flagged h = some l → l ∈ m) →
      pdf_dict_get d (hs.getLast hne) .Next = hb →
      (d.flagged hb ∈ hs.map d.flagged ∨ ∀ l, d.flagged hb = some l → l ∉ m) →
      hs.length ≤ n →
      unmark_loop n (d.setMarks m) (hs.head hne)
        = d.setMarks (m.filter fun x => x ∉ hs.filterMap d.flagged) := by
  intro hs
  induction hs with
  | nil => intro hne; exact absurd rfl hne
  | cons h rest ih =>
    intro _ m n hchain hnd hin hback hbout hn
    obtain ⟨n, rfl⟩ : ∃ k, n = k + 1 := ⟨n - 1, by simp at hn; omega⟩
    have hleaf : leaf_dict d h := by
      cases rest with
      | nil => exact hchain
      | cons h' r => exact hchain.1
    obtain ⟨l, hl, -⟩ := is_dict_flagged d h hleaf.1
    have hlm : l ∈ m := hin h (List.mem_cons_self _ _) l hl
    rw [List.head_cons, unmark_loop]
    simp only [ne_eq, is_dict_ne_null d h hleaf.1, not_false_eq_true,
      marked_setMarks d m h l hl, hlm, decide_True, and_self, ↓reduceIte,
      unmark_setMarks d m h l hl, dict_get_setMarks]
    cases rest with
    | nil =>
      simp only [List.getLast_singleton] at hback
      rw [hback, unmark_loop_stop]
      · simp [hl]
      · intro l' hl' hmem
        rcases hbout with hbout | hbout
        · simp only [List.map_cons, List.map_nil, List.mem_singleton, hl, hl',
            Option.some.injEq] at hbout
          subst hbout
          simp at hmem
        · exact hbout l' hl' (List.mem_of_mem_filter hmem)
    | cons h' r =>
      obtain ⟨_, hnext, hrest⟩ := hchain
      have hnd' := List.nodup_cons.mp hnd
      simp only [List.map_cons] at hnd'
      have := ih (List.cons_ne_nil _ _) (m.filter fun x => x ≠ l) n hrest hnd'.2
        (by
          intro x hx lx hlx
          refine List.mem_filter.mpr ⟨hin x (List.mem_cons_of_mem _ hx) lx hlx, ?_⟩
          simp only [ne_eq, decide_not, Bool.not_eq_true', decide_eq_false_iff_not]
          intro hxl
          subst hxl
          apply hnd'.1
          rw [hl, ← hlx]
          exact List.mem_map_of_mem _ hx)
        (by simpa using hback)
        (by
          rcases hbout with hbout | hbout
          · rcases List.mem_cons.mp hbout with hbout | hbout
            · right
              intro l' hl' hmem
              rw [hbout, hl] at hl'
              simp only [Option.some.injEq] at hl'
              subst hl'
              simp at hmem
            · left; exact hbout
          · right
            intro l' hl' hmem
            exact hbout l' hl' (List.mem_of_mem_filter hmem))
        (by simp at hn ⊢; omega)
      rw [List.head_cons] at this
      rw [hnext, this]
      congr 1
      rw [List.filter_filter]
      apply List.filter_congr
      intro x _
      have hcons : List.filterMap d.flagged (h :: h' :: r)
          = l :: List.filterMap d.flagged (h' :: r) := by
        rw [List.filterMap_cons, hl]
      rw [hcons]
      by_cases hx1 : x = l <;> by_cases hx2 : x ∈ List.filterMap d.flagged (h' :: r) <;>
        simp [hx1, hx2]

theorem filterMap_flagged_length (d : Doc) :
    ∀ (hs : List Handle), next_chain d hs → (hs.filterMap d.flagged).length = hs.length := by
  intro hs
  induction hs with
  | nil => intro _; rfl
  | cons h rest ih =>
    intro hchain
    have hleaf : leaf_dict d h ∧ next_chain d rest := by
      cases rest with
      | nil => exact ⟨hchain, trivial⟩
      | cons h' r => exact ⟨hchain.1, hchain.2.2⟩
    obtain ⟨l, hl, -⟩ := is_dict_flagged d h hleaf.1.1
    simp [List.filterMap_cons, hl, ih hleaf.2]

theorem mem_filterMap_flagged (d : Doc) (hs : List Handle) (l : Loc) :
    l ∈ hs.filterMap d.flagged ↔ some l ∈ hs.map d.flagged := by
  simp [List.mem_filterMap, List.mem_map]

/-- C3: a sibling chain `hs` of dictionaries without `First` entries, with
pairwise distinct identities, each the `Next` of the one before, in which the
`Next` of the last one refers to a member of the chain. With no object marked
beforehand and the link parser succeeding on every member, the loader returns,
for every fuel from `hs.length + 2` on, a sibling list with exactly one node
per member, in chain order, without children, and the document as it was: no
object is marked. -/
theorem load_sibling_cycle (P : LinkParser) (d : Doc) (hs : List Handle) (hne : hs ≠ [])
    (heap fuel : Nat) (parent : Option Nat)
    (hmarks : d.marks = [])
    (hchain : next_chain d hs)
    (hdistinct : (hs.map d.flagged).Nodup)
    (hback : d.flagged (pdf_dict_get d (hs.getLast hne) .Next) ∈ hs.map d.flagged)
    (hparse : ∀ m h, h ∈ hs → ∃ item, load_item P (d.setMarks m) h = .ok item)
    (hfuel : hs.length + 2 ≤ fuel) :
    ∃ items,
      List.Forall₂ (fun h item => ∃ m, load_item P (d.setMarks m) h = .ok item) hs items ∧
      pdf_load_outline_imp P fuel d heap parent (hs.head hne)
        = some (d, heap + hs.length, .ok (sibling_list heap parent none items)) := by
  obtain ⟨fuel, rfl⟩ : ∃ f, fuel = f + 1 := ⟨fuel - 1, by omega⟩
  have hall : ∀ h ∈ hs, pdf_is_dict d h = true := by
    intro h hh
    clear hback hdistinct hparse hfuel
    induction hs with
    | nil => cases hh
    | cons x rest ih =>
      have hleaf : leaf_dict d x ∧ next_chain d rest := by
        cases rest with
        | nil => exact ⟨hchain, trivial⟩
        | cons h' r => exact ⟨hchain.1, hchain.2.2⟩
      rcases List.mem_cons.mp hh with hh | hh
      · subst hh; exact hleaf.1.1
      · cases rest with
        | nil => cases hh
        | cons h' r => exact ih (List.cons_ne_nil _ _) hleaf.2 hh
  have hbd : pdf_is_dict d (pdf_dict_get d (hs.getLast hne) .Next) = true := by
    obtain ⟨x, hx, hxe⟩ := List.mem_map.mp hback
    exact flagged_is_dict d x _ (hall x hx) hxe.symm
  obtain ⟨items, hitems, hload⟩ := load_siblings_chain P d parent _ hs hne [] heap none fuel
    hchain hdistinct (by intro _ _ _ _ h; cases h) rfl hbd (Or.inl hback) hparse (by omega)
  refine ⟨items, hitems, ?_⟩
  have hd : d.setMarks [] = d := by rw [← hmarks]; rfl
  rw [pdf_load_outline_imp]
  rw [hd] at hload
  rw [hload]
  simp only [unmark_chain, setMarks_marks]
  rw [unmark_loop_chain d _ hs hne _ _ hchain hdistinct ?_ rfl (Or.inl hback) ?_]
  · have : (List.filter (fun x => decide (x ∉ hs.filterMap d.flagged))
        ((hs.filterMap d.flagged).reverse ++ [])) = [] := by
      rw [List.filter_eq_nil_iff]
      intro x hx
      simp only [List.append_nil, List.mem_reverse] at hx
      simp [hx]
    rw [this, hd]
  · intro h hh l hl
    simp only [List.append_nil, List.mem_reverse, mem_filterMap_flagged]
    rw [← hl]
    exact List.mem_map_of_mem _ hh
  · simp [filterMap_flagged_length d hs hchain]

theorem load_siblings_self_loop (P : LinkParser) :
    ∀ (fuel heap : Nat) (parent prev_sib : Option Nat),
      load_siblings P fuel doc_self_loop heap parent prev_sib (.ref 3) = none := by
  intro fuel
  induction fuel with
  | zero => intro heap parent prev_sib; rfl
  | succ fuel ih =>
    intro heap parent prev_sib
    rw [load_siblings]
    have h1 : pdf_is_dict doc_self_loop (.ref 3) = true := rfl
    have h2 : pdf_mark_obj doc_self_loop (.ref 3)
        = (false, (doc_self_loop.setMarks [⟨.obj 3, []⟩])) := rfl
    have h3 : ∀ P : LinkParser, load_item P (doc_self_loop.setMarks [⟨.obj 3, []⟩]) (.ref 3)
        = .ok ⟨none, none, -1, 0, 0, false⟩ := fun _ => rfl
    have h4 : pdf_dict_get (doc_self_loop.setMarks [⟨.obj 3, []⟩]) (.ref 3) .First
        = .ref 3 := rfl
    simp only [h1, h2, h3, h4]
    cases fuel with
    | zero => simp [pdf_load_outline_imp]
    | succ f =>
      rw [pdf_load_outline_imp]
      cases f with
      | zero => simp [load_siblings]
      | succ g =>
        rw [load_siblings]
        have h5 : pdf_is_dict (doc_self_loop.setMarks [⟨.obj 3, []⟩]) (.ref 3) = true := rfl
        have h6 : pdf_mark_obj (doc_self_loop.setMarks [⟨.obj 3, []⟩]) (.ref 3)
            = (true, (doc_self_loop.setMarks [⟨.obj 3, []⟩])) := rfl
        have h7 : unmark_chain (doc_self_loop.setMarks [⟨.obj 3, []⟩]) (.ref 3)
            = doc_self_loop := rfl
        have h8 : pdf_dict_get doc_self_loop (.ref 3) .Next = .ref 3 := rfl
        simp [h5, h6, h7, h8, ih]

/-- C4 (code at the failing input): on the document whose outline entry has
`First` and `Next` both referring to itself, the loader does not return,
whatever the fuel: the inner call for `First` unmarks the object that the
outer loop marked, so the outer loop takes it for new at every round. -/
theorem load_self_loop_never_returns (P : LinkParser) (fuel heap : Nat) :
    pdf_load_outline P fuel doc_self_loop heap = none := by
  have h1 : pdf_dict_get doc_self_loop
      (pdf_dict_get doc_self_loop (pdf_dict_get doc_self_loop (pdf_trailer doc_self_loop) .Root)
        .Outlines) .First = .ref 3 := rfl
  rw [pdf_load_outline]
  simp only [h1]
  cases fuel with
  | zero => rfl
  | succ f => simp [pdf_load_outline_imp, load_siblings_self_loop]

/-- C5 (code at the failing input): no object is marked beforehand, the call
returns a tree of two nodes, and object 4 is still marked afterwards. The inner
call for `First` of object 3 unmarks object 3, so the cleanup loop of the outer
call stops at once and never reaches object 4. -/
theorem load_child_alias_leaves_mark (P : LinkParser) (fuel heap : Nat) :
    doc_child_alias.marks = [] ∧
    pdf_load_outline P (fuel + 4) doc_child_alias heap
      = some (doc_child_alias.setMarks [⟨.obj 4, []⟩],
          .ok (.node heap ⟨some "a", none, -1, 0, 0, false⟩ none none .nil
                (.node (heap + 1) ⟨some "b", none, -1, 0, 0, false⟩ none (some heap) .nil .nil))) :=
  ⟨rfl, load_outline_fuel P 4 (fuel + 4) (Nat.le_add_left 4 fuel) _ _ _ rfl⟩

theorem load_sibling_cycle_witness :
    ∃ items,
      List.Forall₂ (fun h item => ∃ m, load_item no_links (doc_sibling_cycle.setMarks m) h = .ok item)
        [.ref 3, .ref 4, .ref 5] items ∧
      pdf_load_outline_imp no_links 5 doc_sibling_cycle 10 none (.ref 3)
        = some (doc_sibling_cycle, 10 + 3, .ok (sibling_list 10 none none items)) :=
  load_sibling_cycle no_links doc_sibling_cycle [.ref 3, .ref 4, .ref 5] (by simp) 10 5 none rfl
    ⟨⟨rfl, rfl⟩, rfl, ⟨rfl, rfl⟩, rfl, ⟨rfl, rfl⟩⟩ (by decide) (by decide)
    (by
      intro m h hh
      simp only [List.mem_cons, List.mem_singleton, List.not_mem_nil, or_false] at hh
      rcases hh with rfl | rfl | rfl <;> exact ⟨_, rfl⟩)
    (by decide)

/-- C7 (code at the failing input): on a document without an Outlines entry
the loader succeeds with the empty tree, and the validator applied to that
result dereferences the null pointer instead of reporting no violation. -/
theorem load_then_check_faults (P : LinkParser) (fuel heap : Nat) :
    pdf_load_outline P fuel doc_plain heap = some (doc_plain, .ok .nil) ∧
    check_outline .nil = .error .null_deref :=
  ⟨rfl, rfl⟩

/-- C2 (code at the failing input): Root is indirect, the Outlines entry is an
indirect dictionary without `First`, the tree is valid and its page exists; the
clear stage returns without touching the document, and the write stage raises
"outline already exists". -/
theorem rewrite_empty_outlines_fails (fuel : Nat) :
    pdf_is_indirect (pdf_dict_get doc_empty_outlines (pdf_trailer doc_empty_outlines) .Root)
      = true ∧
    pdf_dict_get doc_empty_outlines (.ref 1) .Outlines = .ref 2 ∧
    pdf_is_dict doc_empty_outlines (.ref 2) = true ∧
    pdf_dict_get doc_empty_outlines (.ref 2) .First = .null ∧
    check_outline tree_single = .ok none ∧
    pdf_lookup_page_obj doc_empty_outlines 0 = .ref 3 ∧
    pdf_clear_outline fuel doc_empty_outlines = some (doc_empty_outlines, .ok ()) ∧
    pdf_rewrite_outline fuel doc_empty_outlines tree_single
      = some (doc_empty_outlines, .error (.throw "outline already exists")) :=
  ⟨rfl, rfl, rfl, rfl, rfl, rfl, rfl, rfl⟩

/-! ### The writer and the round trip -/

@[simp] theorem setObj_objs_same (d : Doc) (n : Nat) (o : PdfObj) : (d.setObj n o).objs n = o := by
  simp [Doc.setObj]

theorem setObj_objs_ne (d : Doc) (n m : Nat) (o : PdfObj) (h : m ≠ n) :
    (d.setObj n o).objs m = d.objs m := by
  simp [Doc.setObj, h]

theorem setObj_objs (d : Doc) (n m : Nat) (o : PdfObj) :
    (d.setObj n o).objs m = if m = n then o else d.objs m := rfl

@[simp] theorem setObj_xref_len (d : Doc) (n : Nat) (o : PdfObj) :
    (d.setObj n o).xref_len = d.xref_len := rfl
@[simp] theorem setObj_trailer (d : Doc) (n : Nat) (o : PdfObj) :
    (d.setObj n o).trailer = d.trailer := rfl
@[simp] theorem setObj_pages (d : Doc) (n : Nat) (o : PdfObj) :
    (d.setObj n o).pages = d.pages := rfl
@[simp] theorem setObj_marks (d : Doc) (n : Nat) (o : PdfObj) :
    (d.setObj n o).marks = d.marks := rfl

theorem isDict_iff (o : PdfObj) : o.isDict = true ↔ ∃ es, o = .dict es := by
  cases o <;> simp [PdfObj.isDict]

@[simp] theorem setObj_setObj (d : Doc) (n : Nat) (o o' : PdfObj) :
    (d.setObj n o).setObj n o' = d.setObj n o' := by
  simp only [Doc.setObj]
  congr 1
  funext m
  by_cases h : m = n <;> simp [h]

theorem resolve_ref (d : Doc) (n : Nat) (h : (d.objs n).isDict = true) :
    d.resolve (.ref n) = some ⟨.obj n, []⟩ := by
  obtain ⟨es, he⟩ := (isDict_iff _).mp h
  simp [Doc.resolve, Doc.resolve_chain, he]

theorem objAt_obj (d : Doc) (n : Nat) : d.objAt ⟨.obj n, []⟩ = d.objs n := rfl

theorem deref_ref (d : Doc) (n : Nat) (h : (d.objs n).isDict = true) :
    d.deref (.ref n) = d.objs n := by
  simp [Doc.deref, resolve_ref d n h, objAt_obj]

theorem is_dict_ref (d : Doc) (n : Nat) (h : (d.objs n).isDict = true) :
    pdf_is_dict d (.ref n) = true := by
  simp [pdf_is_dict, deref_ref d n h, h]

theorem flagged_ref (d : Doc) (n : Nat) (h : (d.objs n).isDict = true) :
    d.flagged (.ref n) = some ⟨.obj n, []⟩ := by
  obtain ⟨es, he⟩ := (isDict_iff _).mp h
  simp [Doc.flagged, resolve_ref d n h, objAt_obj, he, PdfObj.isConst]

theorem dict_put_ref (d : Doc) (n : Nat) (k : Name) (v : PdfObj)
    (h : (d.objs n).isDict = true) :
    pdf_dict_put d (.ref n) k v = .ok (d.setObj n ((d.objs n).put k v)) := by
  simp [pdf_dict_put, resolve_ref d n h, objAt_obj, h, Doc.modifyAt, PdfObj.modify]

theorem lookup_putEntry (k k' : Name) (v : PdfObj) (es : List (Name × PdfObj)) :
    lookup k' (putEntry k v es) = if k' = k then v else lookup k' es := by
  induction es with
  | nil =>
    by_cases h : k' = k
    · simp [putEntry, lookup, h]
    · simp [putEntry, lookup, h, Ne.symm h]
  | cons e rest ih =>
    obtain ⟨a, b⟩ := e
    by_cases h1 : a = k
    · by_cases h : k' = k
      · simp [putEntry, lookup, h1, h]
      · simp [putEntry, lookup, h1, h, Ne.symm h]
    · by_cases h2 : a = k'
      · have : k' ≠ k := by rintro rfl; exact h1 h2
        simp [putEntry, lookup, h1, h2, this]
      · simp [putEntry, lookup, h1, h2, ih]

theorem get_put (o : PdfObj) (k k' : Name) (v : PdfObj) (h : o.isDict = true) :
    (o.put k v).get k' = if k' = k then v else o.get k' := by
  obtain ⟨es, rfl⟩ := (isDict_iff _).mp h
  simp [PdfObj.put, PdfObj.get, lookup_putEntry]

theorem isDict_put (o : PdfObj) (k : Name) (v : PdfObj) (h : o.isDict = true) :
    (o.put k v).isDict = true := by
  obtain ⟨es, rfl⟩ := (isDict_iff _).mp h
  rfl

/-- The handle `pdf_dict_get` returns for an entry of a numbered dictionary. -/
theorem dict_get_ref (d : Doc) (n : Nat) (k : Name) (h : (d.objs n).isDict = true) :
    pdf_dict_get d (.ref n) k = entry_handle ⟨.obj n, []⟩ k ((d.objs n).get k) := by
  simp [pdf_dict_get, resolve_ref d n h, objAt_obj]

theorem deref_direct (d : Doc) (n : Nat) (k : Name) :
    d.deref (.direct ⟨.obj n, [k]⟩) = (d.objs n).get k := rfl

theorem write_entries_ok (d : Doc) (item : Item) (n pn pg : Nat) (title : String)
    (hn : d.objs n = .dict []) (ht : item.title = some title)
    (hp : pdf_lookup_page_obj d item.page = .ref pg) :
    write_entries d item (.ref n) (.ref pn) =
      (d.setObj n (node_obj title pg item.x.to_int
        (if item.y ≠ .fin 0 then
          (Flt.sub (Flt.of_int (page_box_height d (.ref pg))) item.y).to_int else 0) pn),
        .ok ()) := by
  have hp' : ∀ o, pdf_lookup_page_obj (d.setObj n o) item.page = .ref pg := fun _ => hp
  have hh : ∀ o h, page_box_height (d.setObj n o) h = page_box_height d h := fun _ _ => rfl
  simp only [write_entries, and_then, pdf_dict_put_text_string, ht]
  rw [dict_put_ref d n _ _ (by rw [hn]; rfl)]
  simp only [hn]
  rw [dict_put_ref _ n _ _ (by rw [setObj_objs_same]; rfl)]
  simp only [setObj_objs_same, setObj_setObj, hp', hh]
  simp [pdf_array_push, pdf_dict_put, pdf_dict_get, Doc.resolve, Doc.resolve_chain, Doc.objAt,
    Doc.atBase, PdfObj.follow, PdfObj.get, PdfObj.put, putEntry, lookup, entry_handle,
    PdfObj.isArr, PdfObj.isDict, Doc.modifyAt, PdfObj.modify, modifyEntry, PdfObj.push,
    Handle.val, setObj_setObj, node_obj]

@[simp] theorem grow_xref_len (d : Doc) : d.grow.xref_len = d.xref_len + 1 := rfl
@[simp] theorem grow_trailer (d : Doc) : d.grow.trailer = d.trailer := rfl
@[simp] theorem grow_pages (d : Doc) : d.grow.pages = d.pages := rfl
@[simp] theorem grow_marks (d : Doc) : d.grow.marks = d.marks := rfl
theorem grow_objs (d : Doc) (m : Nat) :
    d.grow.objs m = if m = d.xref_len then .dict [] else d.objs m := rfl

theorem lookup_page_congr (d d' : Doc) (h : d'.pages = d.pages) (p : Int) :
    pdf_lookup_page_obj d' p = pdf_lookup_page_obj d p := by
  simp [pdf_lookup_page_obj, h]

theorem box_height_congr (d d' : Doc) (h : d'.pages = d.pages) (pg : Handle) :
    page_box_height d' pg = page_box_height d pg := by
  simp [page_box_height, page_box, h]

theorem lookup_page_ref (d : Doc) (p : Int) (h : pdf_lookup_page_obj d p ≠ .null) :
    ∃ pg, pdf_lookup_page_obj d p = .ref pg := by
  unfold pdf_lookup_page_obj at h ⊢
  split_ifs at h ⊢ with hp
  · exact absurd rfl h
  · cases hg : d.pages.get? p.toNat with
    | none => rw [hg] at h; exact absurd rfl h
    | some e => exact ⟨e.1, rfl⟩

theorem writable_congr (d d' : Doc) (h : d'.pages = d.pages) (t : Outline) :
    writable d' t ↔ writable d t := by
  induction t with
  | nil => simp [writable]
  | node a item p v down next ihd ihn =>
    simp [writable, ihd, ihn, lookup_page_congr d d' h]

theorem persisted_congr (dp d d' : Doc) (t : Outline) :
    ∀ (num : Nat), (∀ n, num ≤ n → n < num + t.size → d'.objs n = d.objs n) →
      persisted dp d t num → persisted dp d' t num := by
  induction t with
  | nil => intro _ _ _; trivial
  | node a item p v down next ihd ihn =>
    intro num hagree hp
    have h0 : d'.objs num = d.objs num := hagree num (Nat.le_refl _) (by simp [Outline.size])
    simp only [persisted, h0] at hp ⊢
    obtain ⟨h1, h2, h3, h4, h5, h6, h7, h8⟩ := hp
    refine ⟨h1, h2, h3, h4, h5, h6, ?_, ?_⟩
    · exact ihd _ (fun n hn1 hn2 => hagree n (by omega) (by simp [Outline.size]; omega)) h7
    · exact ihn _ (fun n hn1 hn2 => hagree n (by omega) (by simp [Outline.size]; omega)) h8

theorem count_up_succ (n : Nat) (c : Int) : count_up (n + 1) c = count_up n (c_int (c + 1)) := rfl

theorem isNode_false (t : Outline) (h : t.isNode = false) : t = .nil := by
  cases t with
  | nil => rfl
  | node a i p v d n => simp at h

theorem val_null (d : Doc) : Handle.val d .null = .null := rfl
theorem val_ref (d : Doc) (n : Nat) : Handle.val d (.ref n) = .ref n := rfl

theorem get_A_node_obj (title : String) (pg : Nat) (x y : Int) (pn : Nat) (k : Name)
    (hk : k ≠ .Title) (hk2 : k ≠ .Dest) (hk3 : k ≠ .Parent) :
    (node_obj title pg x y pn).get k = .null := by
  simp [node_obj, PdfObj.get, lookup, Ne.symm hk, Ne.symm hk2, Ne.symm hk3]

/-- The effect of the loop of the writer on a chain `t`, entered with the
parent object `pn` and the loop variables `first`, `last` and `cnt`. -/
theorem write_siblings_ok (dp : Doc) (t : Outline) :
    ∀ (d : Doc) (pn : Nat) (opn : Bool) (first last : Handle) (cnt : Int),
      d.pages = dp.pages → writable dp t →
      (d.objs pn).isDict = true → pn < d.xref_len →
      (first = .null ∨ ∃ f, first = .ref f) →
      (last = .null ∨ ∃ ln, last = .ref ln ∧ (d.objs ln).isDict = true ∧ ln < d.xref_len ∧
        ln ≠ pn) →
      ∃ d', write_siblings d t (.ref pn) opn first last cnt = (d', .ok ()) ∧
        d'.xref_len = d.xref_len + t.size ∧ d'.trailer = d.trailer ∧ d'.pages = d.pages ∧
        d'.marks = d.marks ∧
        (∀ n, n < d.xref_len → n ≠ pn → last ≠ .ref n → d'.objs n = d.objs n) ∧
        (∀ ln, last = .ref ln → (d'.objs ln).isDict = true ∧
          (∀ k, k ≠ .Next → (d'.objs ln).get k = (d.objs ln).get k) ∧
          (d'.objs ln).get .Next
            = if t.isNode then .ref d.xref_len else (d.objs ln).get .Next) ∧
        (d'.objs pn).isDict = true ∧
        (∀ k, k ≠ .First → k ≠ .Last → k ≠ .Count →
          (d'.objs pn).get k = (d.objs pn).get k) ∧
        (∀ f, first = .ref f → (d'.objs pn).get .First = .ref f) ∧
        (first = .null → t.isNode = true → (d'.objs pn).get .First = .ref d.xref_len) ∧
        (d'.objs pn).get .Count
          = .int (if opn then count_up t.chainLength cnt
                  else c_int (-count_up t.chainLength cnt)) ∧
        persisted dp d' t d.xref_len := by
  induction t with
  | nil =>
    intro d pn opn first last cnt hpages _ hpd hpn hfirst hlast
    have hfv : ∀ d', first.val d' = first.val d := by
      intro d'; rcases hfirst with rfl | ⟨f, rfl⟩ <;> rfl
    have hlv : ∀ d', last.val d' = last.val d := by
      intro d'; rcases hlast with rfl | ⟨ln, rfl, -⟩ <;> rfl
    have h1 := isDict_put _ .First (first.val d) hpd
    have h2 := isDict_put _ .Last (last.val d) h1
    have h3 := isDict_put _ .Count
      (.int (if opn then cnt else c_int (-cnt))) h2
    refine ⟨d.setObj pn ((((d.objs pn).put .First (first.val d)).put .Last (last.val d)).put
      .Count (.int (if opn then cnt else c_int (-cnt)))), ?_, rfl, rfl, rfl, rfl, ?_, ?_, ?_, ?_,
      ?_, ?_, ?_, trivial⟩
    · simp only [write_siblings, and_then]
      rw [dict_put_ref d pn _ _ hpd]
      simp only [hfv, hlv]
      rw [dict_put_ref _ pn _ _ (by rw [setObj_objs_same]; exact h1)]
      simp only [setObj_objs_same, setObj_setObj]
      rw [dict_put_ref _ pn _ _ (by rw [setObj_objs_same]; exact h2)]
      simp only [setObj_objs_same, setObj_setObj]
    · intro n _ hn _
      exact setObj_objs_ne _ _ _ _ hn
    · intro ln hl
      rcases hlast with rfl | ⟨ln', rfl, hld, _, hne⟩
      · cases hl
      · cases hl
        rw [setObj_objs_ne _ _ _ _ hne]
        exact ⟨hld, fun _ _ => rfl, by simp⟩
    · rw [setObj_objs_same]; exact h3
    · intro k hk1 hk2 hk3
      rw [setObj_objs_same, get_put _ _ _ _ h2, get_put _ _ _ _ h1, get_put _ _ _ _ hpd]
      simp [hk1, hk2, hk3]
    · intro f hf
      subst hf
      rw [setObj_objs_same, get_put _ _ _ _ h2, get_put _ _ _ _ h1, get_put _ _ _ _ hpd]
      simp [val_ref]
    · intro _ hn
      simp at hn
    · rw [setObj_objs_same, get_put _ _ _ _ h2]
      simp [count_up, Outline.chainLength]
  | node a item p v down next ihd ihn =>
    intro d pn opn first last cnt hpages hw hpd hpn hfirst hlast
    obtain ⟨hwt, hwp, hwd, hwn⟩ := hw
    obtain ⟨title, htitle⟩ := Option.ne_none_iff_exists'.mp hwt
    obtain ⟨pg, hpg⟩ := lookup_page_ref dp item.page hwp
    -- the object of this node
    have hbpn : pn ≠ d.xref_len := by omega
    have hentries := write_entries_ok d.grow item d.xref_len pn pg title (by simp [grow_objs])
      htitle (by rw [lookup_page_congr dp d.grow (by simpa using hpages)]; exact hpg)
    have hy : (if item.y ≠ .fin 0 then
        (Flt.sub (Flt.of_int (page_box_height d.grow (.ref pg))) item.y).to_int else 0)
        = dest_y dp item pg := by
      rw [box_height_congr dp d.grow (by simpa using hpages)]; rfl
    rw [hy] at hentries
    -- linking to the previous sibling
    have hlink : ∃ d2 o2,
        (if last ≠ .null then
          and_then (and_then
            (d.grow.setObj d.xref_len
              (node_obj title pg item.x.to_int (dest_y dp item pg) pn), Except.ok ())
            (fun e => pdf_dict_put e last .Next (Handle.val e (.ref d.xref_len))))
            (fun e => pdf_dict_put e (.ref d.xref_len) .Prev (last.val e))
         else (d.grow.setObj d.xref_len
              (node_obj title pg item.x.to_int (dest_y dp item pg) pn), Except.ok ()))
          = (d2, .ok ()) ∧
        d2.xref_len = d.xref_len + 1 ∧ d2.trailer = d.trailer ∧ d2.pages = d.pages ∧
        d2.marks = d.marks ∧
        d2.objs d.xref_len = o2 ∧ o2.isDict = true ∧
        (∀ k, k ≠ .Prev → o2.get k
          = (node_obj title pg item.x.to_int (dest_y dp item pg) pn).get k) ∧
        (∀ n, n < d.xref_len → last ≠ .ref n → d2.objs n = d.objs n) ∧
        (∀ ln, last = .ref ln → d2.objs ln = (d.objs ln).put .Next (.ref d.xref_len)) := by
      rcases hlast with rfl | ⟨ln, rfl, hld, hln, hlp⟩
      · refine ⟨d.grow.setObj d.xref_len
            (node_obj title pg item.x.to_int (dest_y dp item pg) pn),
          node_obj title pg item.x.to_int (dest_y dp item pg) pn,
          by simp, rfl, rfl, rfl, rfl, by simp, rfl, fun _ _ => rfl, ?_, ?_⟩
        · intro n hn _
          rw [setObj_objs_ne _ _ _ _ (by omega), grow_objs]
          simp [Nat.ne_of_lt hn]
        · intro ln hl; cases hl
      · have hlb : ln ≠ d.xref_len := by omega
        have h1 : ((d.grow.setObj d.xref_len
            (node_obj title pg item.x.to_int (dest_y dp item pg) pn)).objs ln) = d.objs ln := by
          rw [setObj_objs_ne _ _ _ _ hlb, grow_objs]; simp [hlb]
        refine ⟨((d.grow.setObj d.xref_len
            (node_obj title pg item.x.to_int (dest_y dp item pg) pn)).setObj ln
              ((d.objs ln).put .Next (.ref d.xref_len))).setObj d.xref_len
              ((node_obj title pg item.x.to_int (dest_y dp item pg) pn).put .Prev (.ref ln)),
          (node_obj title pg item.x.to_int (dest_y dp item pg) pn).put .Prev (.ref ln),
          ?_, rfl, rfl, rfl, rfl, by simp, ?_, ?_, ?_, ?_⟩
        · simp only [ne_eq, reduceCtorEq, not_false_eq_true, ↓reduceIte, and_then, val_ref]
          rw [dict_put_ref _ ln _ _ (by rw [h1]; exact hld), h1]
          simp only []
          rw [dict_put_ref _ d.xref_len _ _ (by
            rw [setObj_objs_ne _ _ _ _ (Ne.symm hlb), setObj_objs_same]; rfl)]
          rw [setObj_objs_ne _ _ _ _ (Ne.symm hlb), setObj_objs_same]
        · rfl
        · intro k hk
          rw [get_put (node_obj title pg item.x.to_int (dest_y dp item pg) pn) _ _ _ rfl]
          simp [hk]
        · intro n hn hne
          have hnl : n ≠ ln := by rintro rfl; exact hne rfl
          rw [setObj_objs_ne _ _ _ _ (by omega), setObj_objs_ne _ _ _ _ hnl,
            setObj_objs_ne _ _ _ _ (by omega), grow_objs]
          simp [Nat.ne_of_lt hn]
        · intro ln' hl
          cases hl
          rw [setObj_objs_ne _ _ _ _ hlb, setObj_objs_same]
    obtain ⟨d2, o2, hlinkeq, hx2, ht2, hp2, hm2, ho2, ho2d, ho2g, hfr2, hl2⟩ := hlink
    -- the children
    have hbelow : ∃ d3,
        (if down.isNode then write_siblings d2 down (.ref d.xref_len) item.is_open .null .null 0
         else (d2, .ok ())) = (d3, .ok ()) ∧
        d3.xref_len = d.xref_len + 1 + down.size ∧ d3.trailer = d.trailer ∧
        d3.pages = d.pages ∧ d3.marks = d.marks ∧
        (∀ n, n < d.xref_len → d3.objs n = d2.objs n) ∧
        (d3.objs d.xref_len).isDict = true ∧
        (∀ k, k ≠ .First → k ≠ .Last → k ≠ .Count →
          (d3.objs d.xref_len).get k = o2.get k) ∧
        (d3.objs d.xref_len).get .First
          = (if down.isNode then .ref (d.xref_len + 1) else .null) ∧
        (down.isNode = true → (d3.objs d.xref_len).get .Count
          = .int (if item.is_open then count_up down.chainLength 0
                  else c_int (-count_up down.chainLength 0))) ∧
        persisted dp d3 down (d.xref_len + 1) := by
      cases hdn : down.isNode
      · have hdnil : down = .nil := isNode_false down hdn
        subst hdnil
        refine ⟨d2, by simp, by simp [hx2, Outline.size], ht2, hp2, hm2, fun _ _ => rfl,
          by rw [ho2]; exact ho2d, fun _ _ _ _ => by rw [ho2], ?_, by simp, trivial⟩
        rw [ho2, ho2g _ (by decide)]
        simp [node_obj, PdfObj.get, lookup]
      · obtain ⟨d3, h1, h2, h3, h4, h5, h6, _, h8, h9, _, h11, h12, h13⟩ :=
          ihd d2 d.xref_len item.is_open .null .null 0 (by rw [hp2, hpages]) hwd
            (by rw [ho2]; exact ho2d) (by omega) (Or.inl rfl) (Or.inl rfl)
        refine ⟨d3, by simpa using h1, by rw [h2, hx2], by rw [h3, ht2], by rw [h4, hp2],
          by rw [h5, hm2], ?_, h8, ?_, ?_, ?_, ?_⟩
        · intro n hn
          exact h6 n (by omega) (by omega) (by simp)
        · intro k hk1 hk2 hk3
          rw [h9 k hk1 hk2 hk3, ho2]
        · rw [h11 rfl hdn, hx2]; simp
        · intro _; exact h12
        · rw [hx2] at h13; exact h13
    obtain ⟨d3, hbeloweq, hx3, ht3, hp3, hm3, hfr3, hd3, hg3, hf3, hc3, hper3⟩ := hbelow
    -- the next siblings
    have hfirst1 : (if first = .null then Handle.ref d.xref_len else first) = .null ∨
        ∃ f, (if first = .null then Handle.ref d.xref_len else first) = .ref f := by
      rcases hfirst with rfl | ⟨f, rfl⟩
      · exact Or.inr ⟨d.xref_len, by simp⟩
      · exact Or.inr ⟨f, by simp⟩
    have hpn3 : d3.objs pn = d.objs pn := by
      rw [hfr3 pn hpn]
      apply hfr2 pn hpn
      rcases hlast with rfl | ⟨ln, rfl, _, _, hlp⟩
      · simp
      · intro h; cases h; exact hlp rfl
    obtain ⟨d4, h1, h2, h3, h4, h5, h6, h7, h8, h9, h10, h11, h12, h13⟩ :=
      ihn d3 pn opn (if first = .null then Handle.ref d.xref_len else first) (.ref d.xref_len)
        (c_int (cnt + 1)) (by rw [hp3, hpages]) hwn (by rw [hpn3]; exact hpd) (by omega)
        hfirst1 (Or.inr ⟨_, rfl, hd3, by omega, Ne.symm hbpn⟩)
    obtain ⟨hb1, hb2, hb3⟩ := h7 _ rfl
    refine ⟨d4, ?_, ?_, by rw [h3, ht3], by rw [h4, hp3], by rw [h5, hm3], ?_, ?_, h8, ?_, ?_,
      ?_, ?_, ?_⟩
    · rw [write_siblings]
      simp only [pdf_add_new_dict, hentries, hlinkeq, hbeloweq, h1]
    · rw [h2, hx3]; simp [Outline.size]; omega
    · intro n hn hnp hnl
      rw [h6 n (by omega) hnp (by intro h; cases h; omega), hfr3 n hn, hfr2 n hn hnl]
    · intro ln hl
      have hlfacts : ln < d.xref_len ∧ ln ≠ pn ∧ (d.objs ln).isDict = true := by
        rcases hlast with rfl | ⟨ln', hl', hld, hln, hlp⟩
        · cases hl
        · rw [hl] at hl'; cases hl'; exact ⟨hln, hlp, hld⟩
      have : d4.objs ln = (d.objs ln).put .Next (.ref d.xref_len) := by
        rw [h6 ln (by omega) hlfacts.2.1 (by intro h; cases h; omega), hfr3 ln hlfacts.1,
          hl2 ln hl]
      rw [this]
      refine ⟨isDict_put _ _ _ hlfacts.2.2, ?_, ?_⟩
      · intro k hk
        rw [get_put _ _ _ _ hlfacts.2.2]; simp [hk]
      · rw [get_put _ _ _ _ hlfacts.2.2]; simp
    · intro k hk1 hk2 hk3
      rw [h9 k hk1 hk2 hk3, hpn3]
    · intro f hf
      subst hf
      exact h10 f (by simp)
    · intro hf _
      subst hf
      exact h10 d.xref_len (by simp)
    · rw [h12]
      simp [Outline.chainLength, Nat.add_comm 1, count_up_succ]
    · simp only [persisted]
      refine ⟨hb1, ⟨title, pg, htitle, hpg, ?_, ?_⟩, ?_, ?_, ?_, ?_, ?_, ?_⟩
      · rw [hb2 _ (by decide), hg3 _ (by decide) (by decide) (by decide), ho2g _ (by decide)]
        simp [node_obj, PdfObj.get, lookup]
      · rw [hb2 _ (by decide), hg3 _ (by decide) (by decide) (by decide), ho2g _ (by decide)]
        simp [node_obj, PdfObj.get, lookup]
      · rw [hb2 _ (by decide), hg3 _ (by decide) (by decide) (by decide), ho2g _ (by decide)]
        simp [node_obj, PdfObj.get, lookup]
      · rw [hb2 _ (by decide), hf3]
      · intro hdn
        rw [hb2 _ (by decide), hc3 hdn]
      · rw [hb3, hx3]
        cases hnn : next.isNode
        · simp only [Bool.false_eq_true, ↓reduceIte]
          rw [hg3 _ (by decide) (by decide) (by decide), ho2g _ (by decide)]
          simp [node_obj, PdfObj.get, lookup]
        · simp
      · apply persisted_congr dp d3 d4 down _ _ hper3
        intro n hn1 hn2
        exact h6 n (by omega) (by omega) (by intro h; cases h; omega)
      · rw [hx3] at h13; exact h13

theorem c_int_of_in_int (v : Int) (h : in_int v) : c_int v = v := by
  unfold in_int at h
  unfold c_int
  omega

theorem count_up_eq (n : Nat) : ∀ (c : Int), -2147483648 ≤ c → c + n < 2147483648 →
    count_up n c = c + n := by
  induction n with
  | zero => intro c _ _; simp [count_up]
  | succ n ih =>
    intro c h1 h2
    have hc : c_int (c + 1) = c + 1 := c_int_of_in_int _ ⟨by omega, by push_cast at h2; omega⟩
    rw [count_up, hc, ih (c + 1) (by omega) (by push_cast at h2 ⊢; omega)]
    push_cast; ring

theorem erase_stamp (t : Outline) : ∀ (heap : Nat) (parent prev : Option Nat),
    erase (stamp t heap parent prev) = erase t := by
  induction t with
  | nil => intro _ _ _; rfl
  | node a item p v down next ihd ihn =>
    intro heap parent prev
    simp [stamp, erase, ihd, ihn]

theorem linked_stamp (t : Outline) : ∀ (heap : Nat) (parent prev : Option Nat),
    Linked (stamp t heap parent prev) parent prev := by
  induction t with
  | nil => intro _ _ _; trivial
  | node a item p v down next ihd ihn =>
    intro heap parent prev
    exact ⟨rfl, rfl, ihd _ _ _, ihn _ _ _⟩

theorem isNode_stamp (t : Outline) (heap : Nat) (parent prev : Option Nat) :
    (stamp t heap parent prev).isNode = t.isNode := by
  cases t <;> rfl

theorem size_stamp (t : Outline) : ∀ (heap : Nat) (parent prev : Option Nat),
    (stamp t heap parent prev).size = t.size := by
  induction t with
  | nil => intro _ _ _; rfl
  | node a item p v down next ihd ihn =>
    intro heap parent prev
    simp [stamp, Outline.size, ihd, ihn]

theorem mem_chain_marks (t : Outline) : ∀ (num : Nat) (l : Loc), l ∈ chain_marks t num →
    ∃ k, l = ⟨.obj k, []⟩ ∧ num ≤ k ∧ k < num + t.size := by
  induction t with
  | nil => intro _ _ h; cases h
  | node a item p v down next _ ihn =>
    intro num l h
    simp only [chain_marks, List.mem_append, List.mem_singleton] at h
    rcases h with h | h
    · obtain ⟨k, hk, h1, h2⟩ := ihn _ _ h
      exact ⟨k, hk, by omega, by simp only [Outline.size]; omega⟩
    · exact ⟨num, h, Nat.le_refl _, by simp only [Outline.size]; omega⟩

theorem chain_marks_length (t : Outline) : ∀ (num : Nat),
    (chain_marks t num).length = t.chainLength := by
  induction t with
  | nil => intro _; rfl
  | node a item p v down next _ ihn =>
    intro num
    simp [chain_marks, Outline.chainLength, ihn, Nat.add_comm]

theorem load_item_persisted (P : LinkParser) (hP : resolves_xyz P) (dp d : Doc) (m : List Loc)
    (item : Item) (num : Nat) (title : String) (pg : Nat)
    (hpages : d.pages = dp.pages) (hnd : (dp.pages.map Prod.fst).Nodup)
    (hdict : (d.objs num).isDict = true)
    (htitle : (d.objs num).get .Title = .str title)
    (hpg : pdf_lookup_page_obj dp item.page = .ref pg)
    (hdest : (d.objs num).get .Dest
      = .arr [.ref pg, .name .XYZ, .int item.x.to_int, .int (dest_y dp item pg), .null])
    (hx : Flt.of_int item.x.to_int = item.x)
    (hr : Flt.of_int (page_box_height dp (.ref pg) - dest_y dp item pg) = item.y) :
    load_item P (d.setMarks m) (.ref num)
      = .ok ⟨some title, some (.internal item.page item.x item.y), item.page, item.x, item.y,
          false⟩ := by
  have h1 : pdf_dict_get d (.ref num) .Title = .direct ⟨.obj num, [.Title]⟩ := by
    rw [dict_get_ref d num _ hdict, htitle]; rfl
  have h2 : pdf_dict_get d (.ref num) .Dest = .direct ⟨.obj num, [.Dest]⟩ := by
    rw [dict_get_ref d num _ hdict, hdest]; rfl
  have h3 : pdf_to_text_string (d.setMarks m) (.direct ⟨.obj num, [.Title]⟩) = title := by
    simp only [pdf_to_text_string]
    rw [show (d.setMarks m).deref (.direct ⟨.obj num, [.Title]⟩) = (d.objs num).get .Title from rfl,
      htitle]
  have h4 := hP (d.setMarks m) (.direct ⟨.obj num, [.Dest]⟩) item.page pg item.x.to_int
    (dest_y dp item pg) (by rw [show (d.setMarks m).pages = d.pages from rfl, hpages]; exact hnd)
    (by rw [lookup_page_congr dp (d.setMarks m) hpages]; exact hpg)
    (by rw [show (d.setMarks m).deref (.direct ⟨.obj num, [.Dest]⟩) = (d.objs num).get .Dest
          from rfl, hdest])
  have h5 : page_box_height (d.setMarks m) (.ref pg) = page_box_height dp (.ref pg) :=
    box_height_congr dp (d.setMarks m) hpages _
  rw [h5, hr, hx] at h4
  simp only [load_item, dict_get_setMarks, h1, h2, h3, h4, ne_eq, reduceCtorEq,
    not_false_eq_true, ↓reduceIte, fz_is_external_link, pdf_resolve_link, Bool.false_eq_true]

theorem next_handle_persisted (d : Doc) (num num' : Nat) (next : Outline)
    (hdict : (d.objs num).isDict = true)
    (hnext : (d.objs num).get .Next = (if next.isNode then .ref num' else .null)) :
    pdf_dict_get d (.ref num) .Next = chain_handle next num' := by
  rw [dict_get_ref d num _ hdict, hnext]
  cases hn : next.isNode <;> simp [chain_handle, entry_handle, hn]

theorem filter_ne_of_not_mem (l : List Loc) (x : Loc) (h : x ∉ l) :
    l.filter (fun y => y ≠ x) = l := by
  rw [List.filter_eq_self]
  intro y hy
  simp only [ne_eq, decide_not, Bool.not_eq_true', decide_eq_false_iff_not]
  rintro rfl
  exact h hy

theorem not_mem_chain_marks (t : Outline) (num k : Nat) (hk : k < num) :
    (⟨.obj k, []⟩ : Loc) ∉ chain_marks t num := by
  intro h
  obtain ⟨j, hj, h1, _⟩ := mem_chain_marks t num _ h
  cases hj
  omega

/-- The loop of the `fz_always` block on a persisted chain all of whose
siblings are marked: their marks are removed and no other. -/
theorem unmark_loop_persisted (dp d : Doc) (t : Outline) :
    ∀ (num : Nat) (m : List Loc) (n : Nat), persisted dp d t num →
      (∀ k, num ≤ k → k < num + t.size → (⟨.obj k, []⟩ : Loc) ∉ m) →
      t.chainLength ≤ n →
      unmark_loop n (d.setMarks (chain_marks t num ++ m)) (chain_handle t num)
        = d.setMarks m := by
  induction t with
  | nil =>
    intro num m n _ _ _
    cases n with
    | zero => rfl
    | succ n => simp [unmark_loop, chain_handle, chain_marks]
  | node a item p v down next _ ihn =>
    intro num m n hp hfresh hn
    obtain ⟨n, rfl⟩ : ∃ k, n = k + 1 := ⟨n - 1, by simp [Outline.chainLength] at hn; omega⟩
    obtain ⟨hdict, _, _, _, _, hnext, _, hpn⟩ := hp
    have hloc := flagged_ref d num hdict
    have h1 : (⟨.obj num, []⟩ : Loc) ∉ chain_marks next (num + 1 + down.size) :=
      not_mem_chain_marks _ _ _ (by omega)
    have h2 : (⟨.obj num, []⟩ : Loc) ∉ m :=
      hfresh num (Nat.le_refl _) (by simp only [Outline.size]; omega)
    have hfilter : (chain_marks (.node a item p v down next) num ++ m).filter
        (fun y => y ≠ (⟨.obj num, []⟩ : Loc)) = chain_marks next (num + 1 + down.size) ++ m := by
      simp only [chain_marks, List.filter_append, filter_ne_of_not_mem _ _ h1,
        filter_ne_of_not_mem _ _ h2]
      simp
    rw [unmark_loop]
    simp only [chain_handle, isNode_node, ↓reduceIte, ne_eq, reduceCtorEq, not_false_eq_true,
      marked_setMarks d _ _ _ hloc, true_and, unmark_setMarks d _ _ _ hloc, hfilter,
      dict_get_setMarks, next_handle_persisted d num _ next hdict hnext]
    have hmem : (⟨.obj num, []⟩ : Loc) ∈ chain_marks (.node a item p v down next) num ++ m := by
      simp [chain_marks]
    simp only [hmem, decide_True, ↓reduceIte]
    have := ihn (num + 1 + down.size) m n hpn
      (fun k hk1 hk2 => hfresh k (by omega) (by simp only [Outline.size]; omega))
      (by simp [Outline.chainLength] at hn; omega)
    simpa [chain_handle] using this

theorem handle_persisted (d : Doc) (num num' : Nat) (k : Name) (t : Outline)
    (hdict : (d.objs num).isDict = true)
    (hget : (d.objs num).get k = (if t.isNode then .ref num' else .null)) :
    pdf_dict_get d (.ref num) k = chain_handle t num' := by
  rw [dict_get_ref d num _ hdict, hget]
  cases hn : t.isNode <;> simp [chain_handle, entry_handle, hn]

theorem count_open (d : Doc) (num : Nat) (n : Nat) (is_open : Bool)
    (hdict : (d.objs num).isDict = true) (hn0 : 0 < n) (hn : n < 2147483648)
    (hc : (d.objs num).get .Count
      = .int (if is_open then count_up n 0 else c_int (-count_up n 0))) :
    decide (pdf_to_int d (pdf_dict_get d (.ref num) .Count) > 0) = is_open := by
  have hcu : count_up n 0 = n := by
    rw [count_up_eq n 0 (by omega) (by omega)]; simp
  rw [dict_get_ref d num _ hdict, hc]
  have hd : d.deref (.direct ⟨.obj num, [] ++ [.Count]⟩) = (d.objs num).get .Count := rfl
  simp only [entry_handle, pdf_to_int, hd, hc, hcu]
  cases is_open
  · have h1 : c_int (-(n : Int)) = -(n : Int) := c_int_of_in_int _ ⟨by omega, by omega⟩
    simp only [Bool.false_eq_true, ↓reduceIte, h1, gt_iff_lt, decide_eq_false_iff_not, not_lt]
    omega
  · have h1 : c_int (n : Int) = (n : Int) := c_int_of_in_int _ ⟨by omega, by omega⟩
    simp only [↓reduceIte, h1, gt_iff_lt, decide_eq_true_eq]
    omega

theorem chainLength_pos (t : Outline) (h : t.isNode = true) : 0 < t.chainLength := by
  cases t with
  | nil => simp at h
  | node a i p v d n => simp [Outline.chainLength]

/-- The loop of the loader on the persisted form of a tree `t`: it returns the
tree `stamp t`, and holds the marks of the siblings of the chain. -/
theorem load_siblings_persisted (P : LinkParser) (hP : resolves_xyz P) (dp d : Doc)
    (hpages : d.pages = dp.pages) (hnd : (dp.pages.map Prod.fst).Nodup) (t : Outline) :
    ∀ (num : Nat) (m : List Loc) (heap : Nat) (parent prev : Option Nat) (fuel : Nat),
      persisted dp d t num → faithful dp t →
      (∀ k, num ≤ k → k < num + t.size → (⟨.obj k, []⟩ : Loc) ∉ m) →
      2 * t.size + 1 ≤ fuel →
      load_siblings P fuel (d.setMarks m) heap parent prev (chain_handle t num)
        = some (d.setMarks (chain_marks t num ++ m), heap + t.size,
            .ok (stamp t heap parent prev)) := by
  induction t with
  | nil =>
    intro num m heap parent prev fuel _ _ _ hfuel
    obtain ⟨fuel, rfl⟩ : ∃ f, fuel = f + 1 := ⟨fuel - 1, by omega⟩
    simp [load_siblings, chain_handle, chain_marks, stamp, Outline.size]
  | node a item p v down next ihd ihn =>
    intro num m heap parent prev fuel hp hf hfresh hfuel
    obtain ⟨fuel, rfl⟩ : ∃ f, fuel = f + 1 := ⟨fuel - 1, by omega⟩
    obtain ⟨hdict, ⟨title, pg, htitle, hpg, hgt, hgd⟩, _, hfirst, hcount, hnext, hpd, hpn⟩ := hp
    obtain ⟨hy, _, hx, hr, hleaf, hlen, hfd, hfn⟩ := hf
    rw [hpg] at hr
    have hr' : Flt.of_int (page_box_height dp (.ref pg) - dest_y dp item pg) = item.y := by
      simp only [dest_y, hy, ne_eq, not_false_eq_true, ↓reduceIte]
      exact hr
    have hsize : (Outline.node a item p v down next).size = 1 + down.size + next.size := rfl
    have hloc := flagged_ref d num hdict
    have h2 : (⟨.obj num, []⟩ : Loc) ∉ m := hfresh num (Nat.le_refl _) (by omega)
    have hitem := load_item_persisted P hP dp d (⟨.obj num, []⟩ :: m) item num title pg hpages hnd
      hdict hgt hpg hgd hx hr'
    have hfresh1 : ∀ k, num + 1 ≤ k → k < num + 1 + down.size + next.size →
        (⟨.obj k, []⟩ : Loc) ∉ (⟨.obj num, []⟩ : Loc) :: m := by
      intro k hk1 hk2 hmem
      rcases List.mem_cons.mp hmem with h | h
      · cases h; omega
      · exact hfresh k (by omega) (by omega) h
    -- the next siblings
    have hnextload := ihn (num + 1 + down.size) (⟨.obj num, []⟩ :: m) (heap + 1 + down.size)
      parent (some heap) fuel hpn hfn
      (fun k hk1 hk2 => hfresh1 k (by omega) (by omega)) (by omega)
    rw [load_siblings]
    simp only [chain_handle, isNode_node, ↓reduceIte, reduceCtorEq, false_or, is_dict_setMarks,
      is_dict_ref d num hdict, Bool.true_eq_false, mark_new d m (.ref num) _ hloc h2,
      Bool.false_eq_true, hitem, dict_get_setMarks]
    rw [handle_persisted d num (num + 1) .First down hdict hfirst]
    cases hdn : down.isNode
    · have hdnil : down = .nil := isNode_false down hdn
      subst hdnil
      simp only [chain_handle, isNode_nil, Bool.false_eq_true, ↓reduceIte, ne_eq,
        not_true_eq_false, dict_get_setMarks]
      rw [handle_persisted d num (num + 1 + Outline.nil.size) .Next next hdict hnext]
      have hz : Outline.nil.size = 0 := rfl
      rw [hz, Nat.add_zero] at hnextload ⊢
      rw [hnextload]
      simp only [stamp, chain_marks, hsize, hz, Nat.add_zero, List.append_assoc,
        List.singleton_append, hleaf rfl, htitle]
      congr 3
      omega
    · obtain ⟨fuel, rfl⟩ : ∃ f, fuel = f + 1 := ⟨fuel - 1, by omega⟩
      have h1 := ihd (num + 1) (⟨.obj num, []⟩ :: m) (heap + 1) (some heap) none fuel hpd hfd
        (fun k hk1 hk2 => hfresh1 k hk1 (by omega)) (by omega)
      have h3 := unmark_loop_persisted dp d down (num + 1) (⟨.obj num, []⟩ :: m)
        (chain_marks down (num + 1) ++ (⟨.obj num, []⟩ : Loc) :: m).length hpd
        (fun k hk1 hk2 => hfresh1 k hk1 (by omega))
        (by rw [List.length_append, chain_marks_length]; omega)
      have h4 := count_open d num down.chainLength item.is_open hdict
        (chainLength_pos down hdn) hlen (hcount hdn)
      have himp : pdf_load_outline_imp P (fuel + 1) (d.setMarks (⟨.obj num, []⟩ :: m)) (heap + 1)
          (some heap) (chain_handle down (num + 1))
          = some (d.setMarks (⟨.obj num, []⟩ :: m), heap + 1 + down.size,
              .ok (stamp down (heap + 1) (some heap) none)) := by
        rw [pdf_load_outline_imp, h1]
        simp only [unmark_chain, setMarks_marks]
        rw [h3]
      rw [himp]
      simp only [chain_handle, hdn, ↓reduceIte, ne_eq, reduceCtorEq, not_false_eq_true,
        dict_get_setMarks, to_int_setMarks, h4]
      rw [handle_persisted d num (num + 1 + down.size) .Next next hdict hnext, hnextload]
      simp only [stamp, chain_marks, hsize, List.append_assoc, List.singleton_append, htitle]
      congr 3
      omega

theorem page_number_of_get (pages : List (Nat × Flt × Flt)) :
    ∀ (i : Nat) (pg : Nat) (ht : Flt × Flt), (pages.map Prod.fst).Nodup →
      pages.get? i = some (pg, ht) → page_number pages pg = some i := by
  induction pages with
  | nil => intro i pg ht _ h; simp at h
  | cons e rest ih =>
    intro i pg ht hnd h
    rw [List.map_cons, List.nodup_cons] at hnd
    have hnd' := hnd
    cases i with
    | zero =>
      simp only [List.get?_cons_zero, Option.some.injEq] at h
      subst h
      simp [page_number]
    | succ i =>
      simp only [List.get?_cons_succ] at h
      have hne : e.1 ≠ pg := by
        intro he
        apply hnd'.1
        rw [he]
        exact List.mem_map.mpr ⟨(pg, ht), List.get?_mem h, rfl⟩
      simp [page_number, hne, ih i pg ht hnd'.2 h]

theorem spec_links_resolve : resolves_xyz spec_links := by
  intro d h page pg x y hnd hlook hderef
  unfold pdf_lookup_page_obj at hlook
  split_ifs at hlook with hneg
  cases hg : d.pages.get? page.toNat with
  | none => rw [hg] at hlook; cases hlook
  | some e =>
    obtain ⟨n, ht⟩ := e
    rw [hg] at hlook
    simp only [Handle.ref.injEq] at hlook
    subst hlook
    have hnum := page_number_of_get d.pages page.toNat n ht hnd hg
    have hpage : ((page.toNat : Nat) : Int) = page := Int.toNat_of_nonneg (by omega)
    simp only [spec_links, hderef, hnum, hpage]

theorem dict_get_trailer (d d' : Doc) (h : d'.trailer = d.trailer) (k : Name) :
    pdf_dict_get d' (pdf_trailer d') k = pdf_dict_get d (pdf_trailer d) k := by
  simp [pdf_dict_get, pdf_trailer, Doc.resolve, Doc.objAt, Doc.atBase, h]

theorem check_outline_isNode (t : Outline) (h : check_outline t = .ok none) : t.isNode = true := by
  cases t with
  | nil => simp [check_outline, check_outline_imp] at h
  | node a i p v d n => rfl

/-- The writer on a fresh document: it succeeds, and the new objects hold the
tree in the layout `persisted`, below the container that Root refers to. -/
theorem write_outline_ok (d : Doc) (T : Outline) (root : Nat)
    (hroot : pdf_dict_get d (pdf_trailer d) .Root = .ref root)
    (hcat : (d.objs root).isDict = true)
    (hnone : (d.objs root).get .Outlines = .null)
    (hlen : root < d.xref_len)
    (hnode : T.isNode = true)
    (hw : writable d T) :
    ∃ d1, pdf_write_outline d T = (d1, .ok ()) ∧
      d1.trailer = d.trailer ∧ d1.pages = d.pages ∧ d1.marks = d.marks ∧
      d1.xref_len = d.xref_len + 1 + T.size ∧
      (d1.objs root).isDict = true ∧ (d1.objs root).get .Outlines = .ref d.xref_len ∧
      (d1.objs d.xref_len).isDict = true ∧
      (d1.objs d.xref_len).get .First = .ref (d.xref_len + 1) ∧
      persisted d d1 T (d.xref_len + 1) := by
  obtain ⟨d2, h1, h2, h3, h4, h5, h6, _, h8, _, _, h11, _, h13⟩ :=
    write_siblings_ok d T d.grow d.xref_len true .null .null 0 rfl hw
      (by simp [grow_objs, PdfObj.isDict]) (by simp) (Or.inl rfl) (Or.inl rfl)
  have hr2 : d2.objs root = d.objs root := by
    rw [h6 root (by simp only [grow_xref_len]; omega) (by omega) (by simp), grow_objs]
    simp [Nat.ne_of_lt hlen]
  have hne : d.xref_len ≠ root := by omega
  refine ⟨d2.setObj root ((d.objs root).put .Outlines (.ref d.xref_len)), ?_, by simp [h3],
    by simp [h4], by simp [h5], by simp [h2], ?_, ?_, ?_, ?_, ?_⟩
  · have hO : pdf_dict_get d (.ref root) .Outlines = .null := by
      rw [dict_get_ref d root _ hcat, hnone]; rfl
    simp only [pdf_write_outline, hnode, ↓reduceIte, hroot, hO, ne_eq, not_true_eq_false,
      pdf_add_new_dict, pdf_write_outline_imp, h1, and_then, val_ref]
    rw [dict_put_ref d2 root _ _ (by rw [hr2]; exact hcat), hr2]
  · rw [setObj_objs_same]; exact isDict_put _ _ _ hcat
  · rw [setObj_objs_same, get_put _ _ _ _ hcat]; simp
  · rw [setObj_objs_ne _ _ _ _ hne]; exact h8
  · rw [setObj_objs_ne _ _ _ _ hne, h11 rfl hnode]; simp
  · apply persisted_congr d d2 _ T _ _ (by simpa using h13)
    intro n hn1 _
    exact setObj_objs_ne _ _ _ _ (by omega)

/-- C1 (amended): take a tree that the validator accepts, in which every node
has a title, a page of the document, and a destination with `y` other than 0
whose coordinates survive the conversions of the writer (the conversions from
`float` to `int` are defined, `x` is the `float` of the integer written for it,
and `y` is the `float` of the height of the page box minus the integer written
for it), every node without children is closed, and no node has `2^31`
children or more; a document whose Root is an indirect
dictionary without an Outlines entry, with no object marked and with distinct
page objects; and a destination parser that undoes the inversion of `y`. Then
`pdf_write_outline` succeeds, and `pdf_load_outline` on the document it leaves
returns, for every fuel from `2 * size + 2` on, a tree that the validator
accepts and that is equal to the given one in shape, titles, open flags, pages
and coordinates; no object is marked afterwards. -/
theorem write_then_load (P : LinkParser) (d : Doc) (T : Outline) (root heap fuel : Nat)
    (hP : resolves_xyz P)
    (hroot : pdf_dict_get d (pdf_trailer d) .Root = .ref root)
    (hcat : (d.objs root).isDict = true)
    (hnone : (d.objs root).get .Outlines = .null)
    (hlen : root < d.xref_len)
    (hmarks : d.marks = [])
    (hnd : (d.pages.map Prod.fst).Nodup)
    (hvalid : check_outline T = .ok none)
    (hw : writable d T) (hf : faithful d T)
    (hfuel : 2 * T.size + 2 ≤ fuel) :
    ∃ d1 T', pdf_write_outline d T = (d1, .ok ()) ∧
      pdf_load_outline P fuel d1 heap = some (d1, .ok T') ∧ d1.marks = [] ∧
      erase T' = erase T ∧ check_outline T' = .ok none := by
  have hnode := check_outline_isNode T hvalid
  obtain ⟨d1, h1, h2, h3, h4, h5, h6, h7, h8, h9, h10⟩ :=
    write_outline_ok d T root hroot hcat hnone hlen hnode hw
  have hm1 : d1.marks = [] := by rw [h4, hmarks]
  have hself : d1.setMarks [] = d1 := by rw [← hm1]; rfl
  refine ⟨d1, stamp T heap none none, h1, ?_, hm1, erase_stamp T _ _ _, ?_⟩
  · obtain ⟨fuel, rfl⟩ : ∃ f, fuel = f + 1 := ⟨fuel - 1, by omega⟩
    have hR : pdf_dict_get d1 (pdf_trailer d1) .Root = .ref root := by
      rw [dict_get_trailer d d1 h2, hroot]
    have hO : pdf_dict_get d1 (.ref root) .Outlines = .ref d.xref_len := by
      rw [dict_get_ref d1 root _ h6, h7]; rfl
    have hF : pdf_dict_get d1 (.ref d.xref_len) .First = .ref (d.xref_len + 1) := by
      rw [dict_get_ref d1 _ _ h8, h9]; rfl
    have hch : chain_handle T (d.xref_len + 1) = .ref (d.xref_len + 1) := by
      simp [chain_handle, hnode]
    have hload := load_siblings_persisted P hP d d1 h3 hnd T (d.xref_len + 1) [] heap none none
      fuel h10 hf (fun _ _ _ h => by cases h) (by omega)
    have hun := unmark_loop_persisted d d1 T (d.xref_len + 1) []
      (chain_marks T (d.xref_len + 1) ++ []).length h10 (fun _ _ _ h => by cases h)
      (by rw [List.length_append, chain_marks_length]; omega)
    rw [hch, hself] at hload
    rw [hch, hself] at hun
    simp only [pdf_load_outline, hR, hO, hF, ne_eq, reduceCtorEq, not_false_eq_true, ↓reduceIte,
      pdf_load_outline_imp, hload, unmark_chain, setMarks_marks, hun]
  · rw [check_outline_ok_iff_linked _ (by rw [isNode_stamp]; exact hnode)]
    exact linked_stamp T heap none none

/-- C1 as stated fails on the fresh two page document, with the destination
parser of the spec: an open node without children comes back closed; a
destination with `y = 0` comes back with `y` equal to the height of the page;
writing a node without a title does not succeed; and a destination with
`x = 2.75` comes back with `x = 2`, the integer that the writer stores for it. -/
theorem round_trip_counterexample :
    (check_outline tree_open_leaf = .ok none ∧
      (pdf_write_outline doc_plain tree_open_leaf).2 = .ok () ∧
      pdf_load_outline spec_links 4 (pdf_write_outline doc_plain tree_open_leaf).1 0
        = some ((pdf_write_outline doc_plain tree_open_leaf).1,
            .ok (.node 0 ⟨some "a", some (.internal 0 0 10), 0, 0, 10, false⟩ none none .nil .nil)) ∧
      erase (.node 0 ⟨some "a", some (.internal 0 0 10), 0, 0, 10, false⟩ none none .nil .nil)
        ≠ erase tree_open_leaf) ∧
    (check_outline tree_y_zero = .ok none ∧
      (pdf_write_outline doc_plain tree_y_zero).2 = .ok () ∧
      pdf_load_outline spec_links 4 (pdf_write_outline doc_plain tree_y_zero).1 0
        = some ((pdf_write_outline doc_plain tree_y_zero).1,
            .ok (.node 0 ⟨some "a", some (.internal 0 5 100), 0, 5, 100, false⟩ none none .nil .nil)) ∧
      erase (.node 0 ⟨some "a", some (.internal 0 5 100), 0, 5, 100, false⟩ none none .nil .nil)
        ≠ erase tree_y_zero) ∧
    (check_outline tree_no_title = .ok none ∧
      (pdf_write_outline doc_plain tree_no_title).2 = .error .null_deref) ∧
    (check_outline tree_fraction = .ok none ∧
      (pdf_write_outline doc_plain tree_fraction).2 = .ok () ∧
      pdf_load_outline spec_links 4 (pdf_write_outline doc_plain tree_fraction).1 0
        = some ((pdf_write_outline doc_plain tree_fraction).1,
            .ok (.node 0 ⟨some "a", some (.internal 0 2 10), 0, 2, 10, false⟩ none none .nil .nil)) ∧
      erase (.node 0 ⟨some "a", some (.internal 0 2 10), 0, 2, 10, false⟩ none none .nil .nil)
        ≠ erase tree_fraction) :=
  ⟨⟨rfl, rfl, rfl, by decide⟩, ⟨rfl, rfl, rfl, by decide⟩, ⟨rfl, rfl⟩, rfl, rfl, rfl, by decide⟩

theorem write_then_load_witness :
    ∃ d1 T', pdf_write_outline doc_plain tree_family = (d1, .ok ()) ∧
      pdf_load_outline spec_links 12 d1 100 = some (d1, .ok T') ∧ d1.marks = [] ∧
      erase T' = erase tree_family ∧ check_outline T' = .ok none :=
  write_then_load spec_links doc_plain tree_family 1 100 12 spec_links_resolve
    rfl rfl rfl (by decide) rfl (by decide) rfl
    (by simp [writable, tree_family, leaf]; decide)
    (by decide)
    (by decide)

/-- A coordinate that the writer rounds can still survive the round trip. On
page 0 of `doc_plain`, of height 100, `y = 2^27` is written as -134217632, the
whole part of the `float` difference `100 - 2^27`, and is loaded back as
`2^27`, the `float` nearest to `100 + 134217632`. -/
theorem far_coordinate_round_trip :
    faithful doc_plain tree_far ∧
    ((pdf_write_outline doc_plain tree_far).1.objs 5).get .Dest
      = .arr [.ref 2, .name .XYZ, .int 0, .int (-134217632), .null] ∧
    pdf_load_outline spec_links 4 (pdf_write_outline doc_plain tree_far).1 0
      = some ((pdf_write_outline doc_plain tree_far).1,
          .ok (.node 0 ⟨some "a", some (.internal 0 0 134217728), 0, 0, 134217728, false⟩
            none none .nil .nil)) :=
  ⟨by decide, rfl, rfl⟩

/-! ### The loader: the cleanup fuel and the linkage of its results -/

theorem unmark_length_lt (d : Doc) (h : Handle) (hm : pdf_obj_marked d h = true) :
    (pdf_unmark_obj d h).marks.length < d.marks.length := by
  unfold pdf_obj_marked at hm
  unfold pdf_unmark_obj
  cases hf : d.flagged h with
  | none => simp [hf] at hm
  | some l =>
    simp only [hf, decide_eq_true_eq] at hm
    simp only [setMarks_marks]
    apply List.length_filter_lt_length_iff_exists.mpr
    exact ⟨l, hm, by simp⟩

/-- The fuel of `unmark_chain` is enough: more rounds change nothing. -/
theorem unmark_loop_enough : ∀ (n : Nat) (d : Doc) (h : Handle), d.marks.length ≤ n →
    unmark_loop (n + 1) d h = unmark_loop n d h := by
  intro n
  induction n with
  | zero =>
    intro d h hn
    have hm : d.marks = [] := List.length_eq_zero.mp (Nat.le_zero.mp hn)
    have : pdf_obj_marked d h = false := by
      unfold pdf_obj_marked
      cases d.flagged h <;> simp [hm]
    simp [unmark_loop, this]
  | succ n ih =>
    intro d h hn
    conv_lhs => rw [unmark_loop]
    conv_rhs => rw [unmark_loop]
    by_cases hc : h ≠ .null ∧ pdf_obj_marked d h = true
    · rw [if_pos hc, if_pos hc]
      have := unmark_length_lt d h hc.2
      exact ih _ _ (by omega)
    · rw [if_neg hc, if_neg hc]

/-- What the loader returns is linked as the validator requires. -/
theorem load_linked (P : LinkParser) : ∀ n,
    (∀ d heap parent prev dict d' heap' t,
      load_siblings P n d heap parent prev dict = some (d', heap', .ok t) → Linked t parent prev) ∧
    (∀ d heap parent dict d' heap' t,
      pdf_load_outline_imp P n d heap parent dict = some (d', heap', .ok t) →
      Linked t parent none) := by
  intro n
  induction n with
  | zero =>
    exact ⟨fun _ _ _ _ _ _ _ _ h => by simp [load_siblings] at h,
      fun _ _ _ _ _ _ _ h => by simp [pdf_load_outline_imp] at h⟩
  | succ n ih =>
    obtain ⟨ih1, ih2⟩ := ih
    constructor
    · intro d heap parent prev dict d' heap' t h
      rw [load_siblings] at h
      split_ifs at h with c1 c2
      · cases h; trivial
      · cases h; trivial
      · cases hi : load_item P (pdf_mark_obj d dict).2 dict with
        | error e => simp [hi] at h
        | ok item =>
          simp only [hi] at h
          by_cases hf : pdf_dict_get (pdf_mark_obj d dict).2 dict .First = .null
          · simp only [hf, ne_eq, not_true_eq_false, ↓reduceIte] at h
            cases hB : load_siblings P n (pdf_mark_obj d dict).2 (heap + 1) parent (some heap)
                (pdf_dict_get (pdf_mark_obj d dict).2 dict .Next) with
            | none => simp [hB] at h
            | some b =>
              obtain ⟨d3, heap3, rb⟩ := b
              cases rb with
              | error e => simp [hB] at h
              | ok next =>
                simp only [hB, Option.some.injEq, Prod.mk.injEq, Except.ok.injEq] at h
                obtain ⟨_, _, rfl⟩ := h
                exact ⟨rfl, rfl, trivial, ih1 _ _ _ _ _ _ _ _ hB⟩
          · simp only [hf, ne_eq, not_false_eq_true, ↓reduceIte] at h
            cases hA : pdf_load_outline_imp P n (pdf_mark_obj d dict).2 (heap + 1) (some heap)
                (pdf_dict_get (pdf_mark_obj d dict).2 dict .First) with
            | none => simp [hA] at h
            | some a =>
              obtain ⟨d2, heap2, ra⟩ := a
              cases ra with
              | error e => simp [hA] at h
              | ok down =>
                simp only [hA] at h
                cases hB : load_siblings P n d2 heap2 parent (some heap)
                    (pdf_dict_get d2 dict .Next) with
                | none => simp [hB] at h
                | some b =>
                  obtain ⟨d3, heap3, rb⟩ := b
                  cases rb with
                  | error e => simp [hB] at h
                  | ok next =>
                    simp only [hB, Option.some.injEq, Prod.mk.injEq, Except.ok.injEq] at h
                    obtain ⟨_, _, rfl⟩ := h
                    exact ⟨rfl, rfl, ih2 _ _ _ _ _ _ _ hA, ih1 _ _ _ _ _ _ _ _ hB⟩
    · intro d heap parent dict d' heap' t h
      rw [pdf_load_outline_imp] at h
      cases hB : load_siblings P n d heap parent none dict with
      | none => simp [hB] at h
      | some b =>
        obtain ⟨d3, heap3, rb⟩ := b
        simp only [hB, Option.some.injEq, Prod.mk.injEq] at h
        obtain ⟨_, _, rfl⟩ := h
        exact ih1 _ _ _ _ _ _ _ _ hB

/-- Every non-empty tree the loader returns is accepted by the validator. -/
theorem load_result_valid (P : LinkParser) (fuel : Nat) (d d' : Doc) (heap : Nat) (t : Outline)
    (h : pdf_load_outline P fuel d heap = some (d', .ok t)) (ht : t.isNode = true) :
    check_outline t = .ok none := by
  rw [check_outline_ok_iff_linked t ht]
  simp only [pdf_load_outline] at h
  split_ifs at h with c
  · cases hA : pdf_load_outline_imp P fuel d heap none
        (pdf_dict_get d (pdf_dict_get d (pdf_dict_get d (pdf_trailer d) .Root) .Outlines)
          .First) with
    | none => simp [hA] at h
    | some a =>
      obtain ⟨d2, heap2, ra⟩ := a
      simp only [hA, Option.some.injEq, Prod.mk.injEq] at h
      obtain ⟨_, rfl⟩ := h
      exact (load_linked P fuel).2 _ _ _ _ _ _ _ hA
  · simp only [Option.some.injEq, Prod.mk.injEq, Except.ok.injEq] at h
    rw [← h.2] at ht
    simp at ht

/-! ### The clearer -/

/-- C11: the four checks of `pdf_clear_outline` come before any change of the
document. With `root`, `outlines` and `first` the three entries it reads: a
missing Root, a Root that is not indirect, an Outlines entry that is present
but not indirect, and a First entry of Outlines that is present but not
indirect each end the call, for every fuel, with the message of that link and
with the document it was given; whenever one of the four holds, the result is
one of the four messages and the unchanged document. -/
theorem clear_checks_before_mutation (fuel : Nat) (d : Doc) :
    (pdf_dict_get d (pdf_trailer d) .Root = .null →
      pdf_clear_outline fuel d = some (d, .error (.throw "/Root does not exist"))) ∧
    (pdf_dict_get d (pdf_trailer d) .Root ≠ .null →
      pdf_is_indirect (pdf_dict_get d (pdf_trailer d) .Root) = false →
      pdf_clear_outline fuel d = some (d, .error (.throw "/Root is not indirect"))) ∧
    (pdf_is_indirect (pdf_dict_get d (pdf_trailer d) .Root) = true →
      pdf_dict_get d (pdf_dict_get d (pdf_trailer d) .Root) .Outlines ≠ .null →
      pdf_is_indirect (pdf_dict_get d (pdf_dict_get d (pdf_trailer d) .Root) .Outlines) = false →
      pdf_clear_outline fuel d = some (d, .error (.throw "/Outlines is not indirect"))) ∧
    (pdf_is_indirect (pdf_dict_get d (pdf_trailer d) .Root) = true →
      (pdf_dict_get d (pdf_dict_get d (pdf_trailer d) .Root) .Outlines = .null ∨
        pdf_is_indirect (pdf_dict_get d (pdf_dict_get d (pdf_trailer d) .Root) .Outlines)
          = true) →
      pdf_dict_get d (pdf_dict_get d (pdf_dict_get d (pdf_trailer d) .Root) .Outlines) .First
        ≠ .null →
      pdf_is_indirect
        (pdf_dict_get d (pdf_dict_get d (pdf_dict_get d (pdf_trailer d) .Root) .Outlines) .First)
        = false →
      pdf_clear_outline fuel d = some (d, .error (.throw "/First is not indirect"))) ∧
    ((pdf_dict_get d (pdf_trailer d) .Root = .null ∨
      pdf_is_indirect (pdf_dict_get d (pdf_trailer d) .Root) = false ∨
      (pdf_dict_get d (pdf_dict_get d (pdf_trailer d) .Root) .Outlines ≠ .null ∧
        pdf_is_indirect (pdf_dict_get d (pdf_dict_get d (pdf_trailer d) .Root) .Outlines)
          = false) ∨
      (pdf_dict_get d (pdf_dict_get d (pdf_dict_get d (pdf_trailer d) .Root) .Outlines) .First
          ≠ .null ∧
        pdf_is_indirect
          (pdf_dict_get d (pdf_dict_get d (pdf_dict_get d (pdf_trailer d) .Root) .Outlines)
            .First) = false)) →
      ∃ msg, msg ∈ ["/Root does not exist", "/Root is not indirect", "/Outlines is not indirect",
          "/First is not indirect"] ∧
        pdf_clear_outline fuel d = some (d, .error (.throw msg))) := by
  refine ⟨?_, ?_, ?_, ?_, ?_⟩
  · intro h
    simp [pdf_clear_outline, h]
  · intro h1 h2
    simp [pdf_clear_outline, h1, h2]
  · intro h1 h2 h3
    have h0 : pdf_dict_get d (pdf_trailer d) .Root ≠ .null := by
      intro h; rw [h] at h1; simp [pdf_is_indirect] at h1
    simp [pdf_clear_outline, h0, h1, h2, h3]
  · intro h1 h2 h3 h4
    have h0 : pdf_dict_get d (pdf_trailer d) .Root ≠ .null := by
      intro h; rw [h] at h1; simp [pdf_is_indirect] at h1
    have h5 : ¬ (pdf_dict_get d (pdf_dict_get d (pdf_trailer d) .Root) .Outlines ≠ .null ∧
        pdf_is_indirect (pdf_dict_get d (pdf_dict_get d (pdf_trailer d) .Root) .Outlines)
          = false) := by
      rintro ⟨h5, h6⟩
      rcases h2 with h2 | h2
      · exact h5 h2
      · rw [h2] at h6; cases h6
    simp only [pdf_clear_outline, h0, h1, if_neg h5, if_false]
    simp [h3, h4]
  · intro h
    by_cases h0 : pdf_dict_get d (pdf_trailer d) .Root = .null
    · exact ⟨"/Root does not exist", by simp, by simp [pdf_clear_outline, h0]⟩
    by_cases h1 : pdf_is_indirect (pdf_dict_get d (pdf_trailer d) .Root) = false
    · exact ⟨"/Root is not indirect", by simp, by simp [pdf_clear_outline, h0, h1]⟩
    by_cases h5 : pdf_dict_get d (pdf_dict_get d (pdf_trailer d) .Root) .Outlines ≠ .null ∧
        pdf_is_indirect (pdf_dict_get d (pdf_dict_get d (pdf_trailer d) .Root) .Outlines)
          = false
    · refine ⟨"/Outlines is not indirect", by simp, ?_⟩
      simp only [pdf_clear_outline, if_neg h0, if_neg h1, if_pos h5]
    · rcases h with h | h | h | h
      · exact absurd h h0
      · exact absurd h h1
      · exact absurd h h5
      · refine ⟨"/First is not indirect", by simp, ?_⟩
        simp only [pdf_clear_outline, if_neg h0, if_neg h1, if_neg h5, if_pos h]

theorem clear_checks_before_mutation_witness :
    pdf_clear_outline 5 doc_no_root
      = some (doc_no_root, .error (.throw "/Root does not exist")) ∧
    pdf_clear_outline 5 doc_direct_root
      = some (doc_direct_root, .error (.throw "/Root is not indirect")) ∧
    pdf_clear_outline 5 doc_direct_outlines
      = some (doc_direct_outlines, .error (.throw "/Outlines is not indirect")) ∧
    pdf_clear_outline 5 doc_direct_first
      = some (doc_direct_first, .error (.throw "/First is not indirect")) :=
  ⟨(clear_checks_before_mutation 5 doc_no_root).1 rfl,
   (clear_checks_before_mutation 5 doc_direct_root).2.1 (by decide) rfl,
   (clear_checks_before_mutation 5 doc_direct_outlines).2.2.1 rfl (by decide) rfl,
   (clear_checks_before_mutation 5 doc_direct_first).2.2.2.1 rfl (Or.inr rfl) (by decide) rfl⟩

@[simp] theorem delete_all_nil (d : Doc) : delete_all d [] = d := rfl

theorem delete_all_cons (d : Doc) (n : Nat) (l : List Nat) :
    delete_all d (n :: l) = delete_all (pdf_delete_object d n) l := rfl

theorem delete_all_append (d : Doc) (l1 l2 : List Nat) :
    delete_all d (l1 ++ l2) = delete_all (delete_all d l1) l2 := by
  simp [delete_all, List.foldl_append]

theorem delete_object_xref_len (d : Doc) (n : Nat) : (pdf_delete_object d n).xref_len = d.xref_len := by
  unfold pdf_delete_object; split_ifs <;> rfl

theorem delete_object_trailer (d : Doc) (n : Nat) : (pdf_delete_object d n).trailer = d.trailer := by
  unfold pdf_delete_object; split_ifs <;> rfl

theorem delete_object_pages (d : Doc) (n : Nat) : (pdf_delete_object d n).pages = d.pages := by
  unfold pdf_delete_object; split_ifs <;> rfl

theorem delete_object_marks (d : Doc) (n : Nat) : (pdf_delete_object d n).marks = d.marks := by
  unfold pdf_delete_object; split_ifs <;> rfl

@[simp] theorem free_xref_len (d : Doc) (n : Nat) : (d.free n).xref_len = d.xref_len := rfl
@[simp] theorem free_trailer (d : Doc) (n : Nat) : (d.free n).trailer = d.trailer := rfl
@[simp] theorem free_pages (d : Doc) (n : Nat) : (d.free n).pages = d.pages := rfl
@[simp] theorem free_marks (d : Doc) (n : Nat) : (d.free n).marks = d.marks := rfl
@[simp] theorem free_freed (d : Doc) (n : Nat) : (d.free n).freed = d.freed ++ [n] := rfl
@[simp] theorem free_objs_same (d : Doc) (n : Nat) : (d.free n).objs n = .null := by
  simp [Doc.free, Doc.setObj]
theorem free_objs_ne (d : Doc) (n m : Nat) (h : m ≠ n) : (d.free n).objs m = d.objs m := by
  simp [Doc.free, Doc.setObj, h]

theorem delete_object_ne (d : Doc) (n m : Nat) (h : m ≠ n) :
    (pdf_delete_object d n).objs m = d.objs m := by
  unfold pdf_delete_object; split_ifs
  · rfl
  · exact free_objs_ne _ _ _ h

theorem delete_object_same (d : Doc) (n : Nat) (h0 : 0 < n) (hx : n < d.xref_len) :
    pdf_delete_object d n = d.free n := by
  unfold pdf_delete_object
  rw [if_neg (by omega)]

theorem delete_all_frame (l : List Nat) : ∀ (d : Doc),
    (delete_all d l).xref_len = d.xref_len ∧ (delete_all d l).trailer = d.trailer ∧
    (delete_all d l).pages = d.pages ∧ (delete_all d l).marks = d.marks ∧
    (∀ m, m ∉ l → (delete_all d l).objs m = d.objs m) ∧
    (∀ m, m ∈ l → 0 < m → m < d.xref_len → (delete_all d l).objs m = .null) ∧
    ((∀ m, m ∈ l → 0 < m ∧ m < d.xref_len) → (delete_all d l).freed = d.freed ++ l) := by
  induction l with
  | nil =>
    intro d
    exact ⟨rfl, rfl, rfl, rfl, fun _ _ => rfl, fun _ h => by simp at h, fun _ => by simp⟩
  | cons n l ih =>
    intro d
    obtain ⟨h1, h2, h3, h4, h5, h6, h7⟩ := ih (pdf_delete_object d n)
    rw [delete_all_cons]
    refine ⟨by rw [h1, delete_object_xref_len], by rw [h2, delete_object_trailer],
      by rw [h3, delete_object_pages], by rw [h4, delete_object_marks], ?_, ?_, ?_⟩
    rotate_left 2
    · intro hall
      rw [h7 (fun m hm => by
        rw [delete_object_xref_len]; exact hall m (List.mem_cons_of_mem _ hm)),
        delete_object_same d n (hall n (List.mem_cons_self _ _)).1
          (hall n (List.mem_cons_self _ _)).2]
      simp
    · intro m hm
      simp only [List.mem_cons, not_or] at hm
      rw [h5 m hm.2, delete_object_ne _ _ _ hm.1]
    · intro m hm h0 hx
      by_cases hml : m ∈ l
      · exact h6 m hml h0 (by rw [delete_object_xref_len]; exact hx)
      · have hmn : m = n := by
          rcases List.mem_cons.mp hm with h | h
          · exact h
          · exact absurd h hml
        subst hmn
        rw [h5 m hml, delete_object_same d m h0 hx, free_objs_same]

theorem stored_congr (d d' : Doc) (t : Shape) (hx : d'.xref_len = d.xref_len) :
    (∀ n, n ∈ t.nums → d'.objs n = d.objs n) → stored d t → stored d' t := by
  induction t with
  | nil => intro _ _; trivial
  | node num down next ihd ihn =>
    intro hagree hs
    have h0 : d'.objs num = d.objs num := hagree num (by simp [Shape.nums])
    simp only [stored, h0, hx] at hs ⊢
    obtain ⟨h1, h2, h3, h4, h5, h6, h7⟩ := hs
    refine ⟨h1, h2, h3, h4, h5, ?_, ?_⟩
    · exact ihd (fun n hn => hagree n (by simp [Shape.nums, hn])) h6
    · exact ihn (fun n hn => hagree n (by simp [Shape.nums, hn])) h7

theorem entry_handle_link (l : Loc) (k : Name) (t : Shape) :
    entry_handle l k t.link = t.handle := by
  cases t <;> rfl

theorem handle_indirect (t : Shape) : ¬ (t.handle ≠ .null ∧ pdf_is_indirect t.handle = false) := by
  cases t <;> simp [Shape.handle, pdf_is_indirect]

/-- The loop of the clearer on a stored tree without repeated numbers: with
fuel for two calls per entry it ends without an exception, and the document
it leaves is the one after one `pdf_delete_object` per entry, in pre-order. -/
theorem clear_siblings_stored (t : Shape) : ∀ (fuel : Nat) (d : Doc),
    stored d t → t.nums.Nodup → 2 * t.nums.length + 1 ≤ fuel →
    clear_siblings fuel d t.handle = some (delete_all d t.nums, .ok ()) := by
  induction t with
  | nil =>
    intro fuel d _ _ hf
    obtain ⟨f, rfl⟩ : ∃ f, fuel = f + 1 := ⟨fuel - 1, by omega⟩
    simp [clear_siblings, Shape.handle, Shape.nums]
  | node num down next ihd ihn =>
    intro fuel d hs hnd hf
    obtain ⟨f, rfl⟩ : ∃ f, fuel = f + 1 := ⟨fuel - 1, by omega⟩
    obtain ⟨h0, hx, hdict, hfirst, hnext, hsd, hsn⟩ := hs
    simp only [Shape.nums, List.nodup_cons, List.mem_append, not_or, List.nodup_append,
      List.length_cons, List.length_append] at hnd hf
    obtain ⟨⟨hnd1, hnd2⟩, hndd, hndn, hdisj⟩ := hnd
    have hdel : pdf_delete_object d num = d.free num := delete_object_same d num h0 hx
    have hsd1 : stored (d.free num) down :=
      stored_congr d _ down rfl (fun n hn => free_objs_ne _ _ _ (by rintro rfl; exact hnd1 hn)) hsd
    have hbelow : (if down.handle ≠ .null then pdf_clear_outline_imp f (d.free num) down.handle
        else some (d.free num, .ok ()))
        = some (delete_all (d.free num) down.nums, .ok ()) := by
      cases down with
      | nil => simp [Shape.handle, Shape.nums]
      | node dn dd dnx =>
        obtain ⟨g, rfl⟩ : ∃ g, f = g + 1 := ⟨f - 1, by simp [Shape.nums] at hf; omega⟩
        have := ihd g (d.free num) hsd1 hndd (by simp [Shape.nums] at hf ⊢; omega)
        simp only [Shape.handle] at this
        simp [Shape.handle, pdf_clear_outline_imp, pdf_is_indirect, this]
    have hsn2 : stored (delete_all (d.free num) down.nums) next := by
      obtain ⟨e1, _, _, _, e5, _⟩ := delete_all_frame down.nums (d.free num)
      apply stored_congr d _ next (by rw [e1]; rfl) _ hsn
      intro n hn
      rw [e5 n (fun h => hdisj h hn), free_objs_ne _ _ _ (by rintro rfl; exact hnd2 hn)]
    have hnextc := ihn f (delete_all (d.free num) down.nums) hsn2 hndn (by omega)
    show clear_siblings (f + 1) d (.ref num) = _
    rw [clear_siblings]
    simp only [is_dict_ref d num hdict, dict_get_ref d num _ hdict, hfirst, hnext,
      entry_handle_link, if_neg (handle_indirect down), if_neg (handle_indirect next),
      pdf_to_num, hdel, hbelow, hnextc]
    simp [Shape.nums, delete_all_cons, delete_all_append, hdel]

theorem stored_range (d : Doc) (t : Shape) (h : stored d t) :
    ∀ m, m ∈ t.nums → 0 < m ∧ m < d.xref_len := by
  induction t with
  | nil => intro m hm; simp [Shape.nums] at hm
  | node num down next ihd ihn =>
    obtain ⟨h0, hx, _, _, _, hsd, hsn⟩ := h
    intro m hm
    simp only [Shape.nums, List.mem_cons, List.mem_append] at hm
    rcases hm with rfl | hm | hm
    · exact ⟨h0, hx⟩
    · exact ihd hsd m hm
    · exact ihn hsn m hm

theorem get_del (o : PdfObj) (k k2 : Name) :
    (o.del k).get k2 = if k2 = k then .null else o.get k2 := by
  cases o with
  | dict es =>
    simp only [PdfObj.del, PdfObj.get]
    induction es with
    | nil => simp [lookup]
    | cons e rest ih =>
      obtain ⟨a, b⟩ := e
      by_cases h1 : a = k
      · by_cases h2 : k2 = k
        · simp [List.filter, h1, h2, lookup] at ih ⊢
          exact ih
        · simp [List.filter, h1, h2, lookup, Ne.symm h2] at ih ⊢
          exact ih
      · by_cases h2 : a = k2
        · have : k2 ≠ k := by rintro rfl; exact h1 h2
          simp [List.filter, h1, h2, lookup, this]
        · simp [List.filter, h1, h2, lookup] at ih ⊢
          exact ih
  | _ => simp [PdfObj.del, PdfObj.get]

theorem isDict_del (o : PdfObj) (k : Name) (h : o.isDict = true) : (o.del k).isDict = true := by
  obtain ⟨es, rfl⟩ := (isDict_iff _).mp h
  rfl

theorem dict_del_ref (d : Doc) (n : Nat) (k : Name) (h : (d.objs n).isDict = true) :
    pdf_dict_del d (.ref n) k = .ok (d.setObj n ((d.objs n).del k)) := by
  simp [pdf_dict_del, resolve_ref d n h, objAt_obj, h, Doc.modifyAt, PdfObj.modify]

/-- C12: the clearer removes the persisted outline and nothing else. For a
document whose Root is the indirect dictionary `r`, whose Outlines entry is the
indirect dictionary `o` with a First entry, and whose outline entries form the
tree `t` (every First and Next link an indirect reference, no object number
repeated, none of them `r` or `o`), `pdf_clear_outline` with fuel for two
calls per entry succeeds. The calls of `pdf_delete_object` that freed a number
are exactly one for every entry of the tree, in pre-order, and then one for
the Outlines object, a list without repetition; those objects are free
afterwards, Root has lost its Outlines entry and kept every other entry, and
every other object and the rest of the document is unchanged. -/
theorem clear_removes_outline (fuel : Nat) (d : Doc) (r o : Nat) (t : Shape)
    (hroot : pdf_dict_get d (pdf_trailer d) .Root = .ref r)
    (hr : (d.objs r).isDict = true) (hout : (d.objs r).get .Outlines = .ref o)
    (ho : (d.objs o).isDict = true) (ho0 : 0 < o) (hox : o < d.xref_len)
    (hfirst : (d.objs o).get .First = t.link) (ht : t.handle ≠ .null)
    (hst : stored d t) (hnd : (r :: o :: t.nums).Nodup)
    (hfuel : 2 * t.nums.length + 2 ≤ fuel) :
    ∃ d', pdf_clear_outline fuel d = some (d', .ok ()) ∧
      d'.freed = d.freed ++ (t.nums ++ [o]) ∧ (t.nums ++ [o]).Nodup ∧
      (∀ n, n ∈ t.nums ++ [o] → d'.objs n = .null) ∧
      (d'.objs r).isDict = true ∧ (d'.objs r).get .Outlines = .null ∧
      (∀ k, k ≠ .Outlines → (d'.objs r).get k = (d.objs r).get k) ∧
      (∀ n, n ≠ r → n ∉ t.nums ++ [o] → d'.objs n = d.objs n) ∧
      d'.trailer = d.trailer ∧ d'.xref_len = d.xref_len ∧ d'.pages = d.pages ∧
      d'.marks = d.marks := by
  simp only [List.nodup_cons, List.mem_cons, not_or] at hnd
  obtain ⟨⟨hro, hrt⟩, hot, hndt⟩ := hnd
  obtain ⟨f, rfl⟩ : ∃ f, fuel = f + 1 := ⟨fuel - 1, by omega⟩
  have hclear := clear_siblings_stored t f d hst hndt (by omega)
  obtain ⟨e1, e2, e3, e4, e5, e6, e7⟩ := delete_all_frame t.nums d
  have hrange := stored_range d t hst
  have hdo : pdf_delete_object (delete_all d t.nums) o = (delete_all d t.nums).free o :=
    delete_object_same _ o ho0 (by rw [e1]; exact hox)
  have hr2 : (((delete_all d t.nums).free o).objs r).isDict = true := by
    rw [free_objs_ne _ _ _ hro, e5 r hrt]; exact hr
  have hr3 : ((delete_all d t.nums).free o).objs r = d.objs r := by
    rw [free_objs_ne _ _ _ hro, e5 r hrt]
  refine ⟨((delete_all d t.nums).free o).setObj r ((d.objs r).del .Outlines), ?_, ?_, ?_, ?_, ?_,
    ?_, ?_, ?_, ?_, ?_, ?_, ?_⟩
  · have hind : ¬ (t.handle ≠ .null ∧ pdf_is_indirect t.handle = false) := handle_indirect t
    have hO : pdf_dict_get d (.ref r) .Outlines = .ref o := by
      rw [dict_get_ref d r _ hr, hout]; rfl
    have hF : pdf_dict_get d (.ref o) .First = t.handle := by
      rw [dict_get_ref d o _ ho, hfirst, entry_handle_link]
    have hi : ∀ n, pdf_is_indirect (.ref n) = true := fun _ => rfl
    simp only [pdf_clear_outline, hroot, hO, hF, hi, pdf_clear_outline_imp,
      if_neg hind, hclear, pdf_to_num, hdo, dict_del_ref _ r _ hr2, hr3, if_pos ht]
    simp
  · show ((delete_all d t.nums).free o).freed = _
    rw [free_freed, e7 hrange, List.append_assoc]
  · rw [List.nodup_append]
    refine ⟨hndt, by simp, ?_⟩
    intro a ha hb
    simp only [List.mem_singleton] at hb
    subst hb
    exact hot ha
  · intro n hn
    have hnr : n ≠ r := by
      rintro rfl
      rcases List.mem_append.mp hn with h | h
      · exact hrt h
      · simp only [List.mem_singleton] at h; exact hro h
    rw [setObj_objs_ne _ _ _ _ hnr]
    by_cases hno : n = o
    · subst hno; exact free_objs_same _ _
    · rcases List.mem_append.mp hn with h | h
      · rw [free_objs_ne _ _ _ hno]
        exact e6 n h (hrange n h).1 (hrange n h).2
      · simp only [List.mem_singleton] at h; exact absurd h hno
  · rw [setObj_objs_same]; exact isDict_del _ _ hr
  · rw [setObj_objs_same, get_del]; simp
  · intro k hk
    rw [setObj_objs_same, get_del]; simp [hk]
  · intro n hnr hn
    simp only [List.mem_append, List.mem_singleton, not_or] at hn
    rw [setObj_objs_ne _ _ _ _ hnr, free_objs_ne _ _ _ hn.2, e5 n hn.1]
  · show (delete_all d t.nums).trailer = _
    exact e2
  · show (delete_all d t.nums).xref_len = _
    exact e1
  · show (delete_all d t.nums).pages = _
    exact e3
  · show (delete_all d t.nums).marks = _
    exact e4

theorem clear_removes_outline_witness :
    ∃ d', pdf_clear_outline 8 doc_outline3 = some (d', .ok ()) ∧
      d'.freed = [5, 6, 7, 4] ∧ [5, 6, 7, 4].Nodup ∧
      (∀ n, n ∈ [5, 6, 7, 4] → d'.objs n = .null) ∧
      (d'.objs 1).isDict = true ∧ (d'.objs 1).get .Outlines = .null ∧
      (∀ k, k ≠ .Outlines → (d'.objs 1).get k = (doc_outline3.objs 1).get k) ∧
      (∀ n, n ≠ 1 → n ∉ [5, 6, 7, 4] → d'.objs n = doc_outline3.objs n) ∧
      d'.trailer = doc_outline3.trailer ∧ d'.xref_len = doc_outline3.xref_len ∧
      d'.pages = doc_outline3.pages ∧ d'.marks = doc_outline3.marks :=
  clear_removes_outline 8 doc_outline3 1 4 shape3 rfl rfl rfl rfl (by decide) (by decide) rfl
    (by decide) ⟨by decide, by decide, rfl, rfl, rfl,
      ⟨by decide, by decide, rfl, rfl, rfl, trivial, trivial⟩,
      ⟨by decide, by decide, rfl, rfl, rfl, trivial, trivial⟩⟩ (by decide) (by decide)

theorem stored_before_congr (d d' : Doc) (target : Nat) (c : Before)
    (hx : d'.xref_len = d.xref_len) :
    (∀ n, n ∈ c.visited → d'.objs n = d.objs n) → stored_before d target c →
      stored_before d' target c := by
  induction c with
  | here => intro _ _; trivial
  | child num inner ih =>
    intro hagree hs
    have h0 : d'.objs num = d.objs num := hagree num (by simp [Before.visited])
    simp only [stored_before, h0, hx] at hs ⊢
    obtain ⟨h1, h2, h3, h4, h5, h6⟩ := hs
    exact ⟨h1, h2, h3, h4, h5, ih (fun n hn => hagree n (by simp [Before.visited, hn])) h6⟩
  | sibling num dwn inner ih =>
    intro hagree hs
    have h0 : d'.objs num = d.objs num := hagree num (by simp [Before.visited])
    simp only [stored_before, h0, hx] at hs ⊢
    obtain ⟨h1, h2, h3, h4, h5, h6, h7⟩ := hs
    exact ⟨h1, h2, h3, h4, h5,
      stored_congr d d' dwn hx (fun n hn => hagree n (by simp [Before.visited, hn])) h6,
      ih (fun n hn => hagree n (by simp [Before.visited, hn])) h7⟩

theorem not_indirect_congr (d d' : Doc) (n : Nat) (k : Name) (h : d'.objs n = d.objs n)
    (hd : (d.objs n).isDict = true) :
    not_indirect d' (.ref n) k ↔ not_indirect d (.ref n) k := by
  unfold not_indirect
  rw [dict_get_ref d n _ hd, dict_get_ref d' n _ (by rw [h]; exact hd), h]

/-- The call of the clearer for a child chain that is stored, as the loop makes it. -/
theorem clear_below_stored (t : Shape) (f : Nat) (d : Doc) (hs : stored d t)
    (hnd : t.nums.Nodup) (hf : 2 * t.nums.length + 2 ≤ f) :
    (if t.handle ≠ .null then pdf_clear_outline_imp f d t.handle else some (d, .ok ()))
      = some (delete_all d t.nums, .ok ()) := by
  cases t with
  | nil => simp [Shape.handle, Shape.nums]
  | node dn dd dnx =>
    obtain ⟨g, rfl⟩ : ∃ g, f = g + 1 := ⟨f - 1, by omega⟩
    have := clear_siblings_stored (.node dn dd dnx) g d hs hnd (by omega)
    simp only [Shape.handle] at this
    simp [Shape.handle, pdf_clear_outline_imp, pdf_is_indirect, this]

/-- The loop of the clearer on a chain in which the entry `bad` has a `First`
or `Next` entry that is present but not indirect: it ends with the exception
for that entry, after one `pdf_delete_object` for every entry before it. -/
theorem clear_siblings_before (bad : Nat) (msg : String) (c : Before) :
    ∀ (fuel : Nat) (d : Doc), stored_before d bad c → (bad :: c.visited).Nodup →
      (d.objs bad).isDict = true →
      (not_indirect d (.ref bad) .First ∧ msg = "/Down is not indirect" ∨
        ¬ not_indirect d (.ref bad) .First ∧ not_indirect d (.ref bad) .Next ∧
          msg = "/Next is not indirect") →
      2 * c.visited.length + 1 ≤ fuel →
      clear_siblings fuel d (.ref (c.head bad))
        = some (delete_all d c.visited, .error (.throw msg)) := by
  induction c with
  | here =>
    intro fuel d _ _ hdict hbad hf
    obtain ⟨f, rfl⟩ : ∃ f, fuel = f + 1 := ⟨fuel - 1, by omega⟩
    show clear_siblings (f + 1) d (.ref bad) = _
    rw [clear_siblings]
    simp only [is_dict_ref d bad hdict]
    unfold not_indirect at hbad
    rcases hbad with ⟨h1, rfl⟩ | ⟨h1, h2, rfl⟩
    · simp only [if_pos h1]
      simp [Before.visited]
    · simp only [if_neg h1, if_pos h2]
      simp [Before.visited]
  | child num inner ih =>
    intro fuel d hs hnd hdict hbad hf
    obtain ⟨h0, hx, hnumd, hfirst, hnext, hsi⟩ := hs
    simp only [Before.visited, List.nodup_cons, List.mem_cons, not_or, List.length_cons]
      at hnd hf
    obtain ⟨⟨hbn, hbi⟩, hni, hndi⟩ := hnd
    obtain ⟨f, rfl⟩ : ∃ f, fuel = f + 1 := ⟨fuel - 1, by omega⟩
    obtain ⟨g, rfl⟩ : ∃ g, f = g + 1 := ⟨f - 1, by omega⟩
    have hdel : pdf_delete_object d num = d.free num := delete_object_same d num h0 hx
    have hb1 : (d.free num).objs bad = d.objs bad := free_objs_ne _ _ _ hbn
    have hinner := ih g (d.free num)
      (stored_before_congr d _ bad inner rfl
        (fun n hn => free_objs_ne _ _ _ (by rintro rfl; exact hni hn)) hsi)
      (List.nodup_cons.mpr ⟨hbi, hndi⟩) (by rw [hb1]; exact hdict)
      (by rw [not_indirect_congr d _ bad _ hb1 hdict, not_indirect_congr d _ bad _ hb1 hdict]
          exact hbad) (by omega)
    have hF : pdf_dict_get d (.ref num) .First = .ref (inner.head bad) := by
      rw [dict_get_ref d num _ hnumd, hfirst]; rfl
    have hN : ¬ (pdf_dict_get d (.ref num) .Next ≠ .null ∧
        pdf_is_indirect (pdf_dict_get d (.ref num) .Next) = false) := by
      rw [dict_get_ref d num _ hnumd]
      rcases hnext with h | ⟨m, h⟩ <;> rw [h] <;> simp [entry_handle, pdf_is_indirect]
    have hi : ∀ n, pdf_is_indirect (.ref n) = true := fun _ => rfl
    show clear_siblings (g + 1 + 1) d (.ref num) = _
    rw [clear_siblings]
    simp only [is_dict_ref d num hnumd, hF, if_neg hN, hi, pdf_to_num, hdel,
      pdf_clear_outline_imp, hinner]
    simp [Before.visited, delete_all_cons, hdel]
  | sibling num dwn inner ih =>
    intro fuel d hs hnd hdict hbad hf
    obtain ⟨h0, hx, hnumd, hfirst, hnext, hsd, hsi⟩ := hs
    simp only [Before.visited, List.nodup_cons, List.mem_cons, List.mem_append, not_or,
      List.nodup_append, List.length_cons, List.length_append] at hnd hf
    obtain ⟨⟨hbn, hbd, hbi⟩, ⟨hnd1, hni⟩, hndd, hndi, hdisj⟩ := hnd
    obtain ⟨f, rfl⟩ : ∃ f, fuel = f + 1 := ⟨fuel - 1, by omega⟩
    have hdel : pdf_delete_object d num = d.free num := delete_object_same d num h0 hx
    have hsd1 : stored (d.free num) dwn :=
      stored_congr d _ dwn rfl (fun n hn => free_objs_ne _ _ _ (by rintro rfl; exact hnd1 hn)) hsd
    have hbelow := clear_below_stored dwn f (d.free num) hsd1 hndd (by omega)
    obtain ⟨e1, _, _, _, e5, _⟩ := delete_all_frame dwn.nums (d.free num)
    have hb2 : (delete_all (d.free num) dwn.nums).objs bad = d.objs bad := by
      rw [e5 bad hbd, free_objs_ne _ _ _ hbn]
    have hinner := ih f (delete_all (d.free num) dwn.nums)
      (stored_before_congr d _ bad inner (by rw [e1]; rfl)
        (fun n hn => by
          rw [e5 n (fun h => hdisj h hn), free_objs_ne _ _ _ (by rintro rfl; exact hni hn)]) hsi)
      (List.nodup_cons.mpr ⟨hbi, hndi⟩) (by rw [hb2]; exact hdict)
      (by rw [not_indirect_congr d _ bad _ hb2 hdict, not_indirect_congr d _ bad _ hb2 hdict]
          exact hbad) (by omega)
    have hF : pdf_dict_get d (.ref num) .First = dwn.handle := by
      rw [dict_get_ref d num _ hnumd, hfirst, entry_handle_link]
    have hN : pdf_dict_get d (.ref num) .Next = .ref (inner.head bad) := by
      rw [dict_get_ref d num _ hnumd, hnext]; rfl
    have hi : ∀ n, pdf_is_indirect (.ref n) = true := fun _ => rfl
    show clear_siblings (f + 1) d (.ref num) = _
    rw [clear_siblings]
    simp only [is_dict_ref d num hnumd, hF, hN, if_neg (handle_indirect dwn), hi, pdf_to_num,
      hdel, hbelow, hinner]
    simp [Before.visited, delete_all_cons, delete_all_append, hdel]

theorem stored_before_range (d : Doc) (target : Nat) (c : Before) (h : stored_before d target c) :
    ∀ m, m ∈ c.visited → 0 < m ∧ m < d.xref_len := by
  induction c with
  | here => intro m hm; simp [Before.visited] at hm
  | child num inner ih =>
    obtain ⟨h0, hx, _, _, _, hsi⟩ := h
    intro m hm
    simp only [Before.visited, List.mem_cons] at hm
    rcases hm with rfl | hm
    · exact ⟨h0, hx⟩
    · exact ih hsi m hm
  | sibling num dwn inner ih =>
    obtain ⟨h0, hx, _, _, _, hsd, hsi⟩ := h
    intro m hm
    simp only [Before.visited, List.mem_cons, List.mem_append] at hm
    rcases hm with rfl | hm | hm
    · exact ⟨h0, hx⟩
    · exact stored_range d dwn hsd m hm
    · exact ih hsi m hm

/-- C19: the clearer checks an entry before it deletes it. When the sibling
chain given to `pdf_clear_outline_imp` reaches, along the path `c`, an entry
`bad` whose `First` or `Next` entry is present but not indirect (the entries
before it stored properly, no number repeated), the call with fuel for two
calls per entry ends with "/Down is not indirect" or "/Next is not indirect"
(First is checked first). The calls of `pdf_delete_object` made are exactly one
for every entry before `bad` in pre-order; those objects are free, and the
object of `bad` and every other object, so every entry after it, is as it was. -/
theorem clear_checks_before_delete (bad : Nat) (msg : String) (c : Before) (fuel : Nat) (d : Doc)
    (hst : stored_before d bad c) (hnd : (bad :: c.visited).Nodup)
    (hdict : (d.objs bad).isDict = true)
    (hbad : not_indirect d (.ref bad) .First ∧ msg = "/Down is not indirect" ∨
      ¬ not_indirect d (.ref bad) .First ∧ not_indirect d (.ref bad) .Next ∧
        msg = "/Next is not indirect")
    (hfuel : 2 * c.visited.length + 2 ≤ fuel) :
    ∃ d', pdf_clear_outline_imp fuel d (.ref (c.head bad)) = some (d', .error (.throw msg)) ∧
      d'.freed = d.freed ++ c.visited ∧
      (∀ n, n ∈ c.visited → d'.objs n = .null) ∧
      d'.objs bad = d.objs bad ∧
      (∀ n, n ∉ c.visited → d'.objs n = d.objs n) := by
  obtain ⟨f, rfl⟩ : ∃ f, fuel = f + 1 := ⟨fuel - 1, by omega⟩
  obtain ⟨_, _, _, _, e5, e6, e7⟩ := delete_all_frame c.visited d
  have hrange := stored_before_range d bad c hst
  refine ⟨delete_all d c.visited, ?_, e7 hrange, fun n hn => e6 n hn (hrange n hn).1 (hrange n hn).2,
    e5 bad (List.nodup_cons.mp hnd).1, e5⟩
  have hi : ∀ n, pdf_is_indirect (.ref n) = true := fun _ => rfl
  simp only [pdf_clear_outline_imp, hi]
  simpa using clear_siblings_before bad msg c f d hst hnd hdict hbad (by omega)

theorem clear_checks_before_delete_witness :
    (∃ d', pdf_clear_outline_imp 6 doc_direct_next (.ref 5)
        = some (d', .error (.throw "/Next is not indirect")) ∧
      d'.freed = [5, 6] ∧
      (∀ n, n ∈ [5, 6] → d'.objs n = .null) ∧
      d'.objs 7 = doc_direct_next.objs 7 ∧
      (∀ n, n ∉ [5, 6] → d'.objs n = doc_direct_next.objs n)) ∧
    (∃ d', pdf_clear_outline_imp 4 doc_direct_down (.ref 5)
        = some (d', .error (.throw "/Down is not indirect")) ∧
      d'.freed = [5] ∧
      (∀ n, n ∈ [5] → d'.objs n = .null) ∧
      d'.objs 6 = doc_direct_down.objs 6 ∧
      (∀ n, n ∉ [5] → d'.objs n = doc_direct_down.objs n)) :=
  ⟨clear_checks_before_delete 7 "/Next is not indirect" (.sibling 5 (.node 6 .nil .nil) .here) 6
    doc_direct_next
    ⟨by decide, by decide, rfl, rfl, rfl, ⟨by decide, by decide, rfl, rfl, rfl, trivial, trivial⟩,
      trivial⟩
    (by decide) rfl
    (Or.inr ⟨fun h => h.1 rfl, ⟨by decide, rfl⟩, rfl⟩) (by decide),
   clear_checks_before_delete 6 "/Down is not indirect" (.child 5 .here) 4 doc_direct_down
    ⟨by decide, by decide, rfl, rfl, Or.inr ⟨7, rfl⟩, trivial⟩
    (by decide) rfl (Or.inl ⟨⟨by decide, rfl⟩, rfl⟩) (by decide)⟩

/-! ### The loader: the fields of a loaded node -/

theorem mark_obj_marks_only (d : Doc) (h : Handle) : ∃ m, (pdf_mark_obj d h).2 = d.setMarks m := by
  unfold pdf_mark_obj
  cases d.flagged h with
  | none => exact ⟨d.marks, rfl⟩
  | some l =>
    by_cases hl : l ∈ d.marks
    · exact ⟨d.marks, by simp [hl]⟩
    · exact ⟨l :: d.marks, by simp [hl]⟩

theorem unmark_obj_marks_only (d : Doc) (h : Handle) : ∃ m, pdf_unmark_obj d h = d.setMarks m := by
  unfold pdf_unmark_obj
  cases d.flagged h with
  | none => exact ⟨d.marks, rfl⟩
  | some l => exact ⟨_, rfl⟩

theorem unmark_loop_marks_only : ∀ (n : Nat) (d : Doc) (h : Handle),
    ∃ m, unmark_loop n d h = d.setMarks m := by
  intro n
  induction n with
  | zero => intro d h; exact ⟨d.marks, rfl⟩
  | succ n ih =>
    intro d h
    rw [unmark_loop]
    split_ifs
    · obtain ⟨m1, h1⟩ := unmark_obj_marks_only d h
      obtain ⟨m2, h2⟩ := ih (pdf_unmark_obj d h) (pdf_dict_get (pdf_unmark_obj d h) h .Next)
      exact ⟨m2, by rw [h2, h1]; rfl⟩
    · exact ⟨d.marks, rfl⟩

/-- The loader changes nothing of the document but the marks. -/
theorem load_marks_only (P : LinkParser) : ∀ n,
    (∀ d heap parent prev dict d' heap' r,
      load_siblings P n d heap parent prev dict = some (d', heap', r) → ∃ m, d' = d.setMarks m) ∧
    (∀ d heap parent dict d' heap' r,
      pdf_load_outline_imp P n d heap parent dict = some (d', heap', r) →
      ∃ m, d' = d.setMarks m) := by
  intro n
  induction n with
  | zero =>
    exact ⟨fun _ _ _ _ _ _ _ _ h => by simp [load_siblings] at h,
      fun _ _ _ _ _ _ _ h => by simp [pdf_load_outline_imp] at h⟩
  | succ n ih =>
    obtain ⟨ih1, ih2⟩ := ih
    constructor
    · intro d heap parent prev dict d' heap' r h
      obtain ⟨m1, hm1⟩ := mark_obj_marks_only d dict
      rw [load_siblings] at h
      split_ifs at h with c1 c2
      · cases h; exact ⟨d.marks, rfl⟩
      · cases h; exact ⟨m1, hm1⟩
      · cases hi : load_item P (pdf_mark_obj d dict).2 dict with
        | error e =>
          simp only [hi, Option.some.injEq, Prod.mk.injEq] at h
          exact ⟨m1, by rw [← h.1, hm1]⟩
        | ok item =>
          simp only [hi] at h
          by_cases hf : pdf_dict_get (pdf_mark_obj d dict).2 dict .First = .null
          · simp only [hf, ne_eq, not_true_eq_false, ↓reduceIte] at h
            cases hB : load_siblings P n (pdf_mark_obj d dict).2 (heap + 1) parent (some heap)
                (pdf_dict_get (pdf_mark_obj d dict).2 dict .Next) with
            | none => simp [hB] at h
            | some b =>
              obtain ⟨d3, heap3, rb⟩ := b
              obtain ⟨m3, hm3⟩ := ih1 _ _ _ _ _ _ _ _ hB
              have hd3 : d3 = d.setMarks m3 := by rw [hm3, hm1]; rfl
              cases rb with
              | error e =>
                simp only [hB, Option.some.injEq, Prod.mk.injEq] at h
                exact ⟨m3, by rw [← h.1, hd3]⟩
              | ok next =>
                simp only [hB, Option.some.injEq, Prod.mk.injEq] at h
                exact ⟨m3, by rw [← h.1, hd3]⟩
          · simp only [hf, ne_eq, not_false_eq_true, ↓reduceIte] at h
            cases hA : pdf_load_outline_imp P n (pdf_mark_obj d dict).2 (heap + 1) (some heap)
                (pdf_dict_get (pdf_mark_obj d dict).2 dict .First) with
            | none => simp [hA] at h
            | some a =>
              obtain ⟨d2, heap2, ra⟩ := a
              obtain ⟨m2, hm2⟩ := ih2 _ _ _ _ _ _ _ hA
              have hd2 : d2 = d.setMarks m2 := by rw [hm2, hm1]; rfl
              cases ra with
              | error e =>
                simp only [hA, Option.some.injEq, Prod.mk.injEq] at h
                exact ⟨m2, by rw [← h.1, hd2]⟩
              | ok down =>
                simp only [hA] at h
                cases hB : load_siblings P n d2 heap2 parent (some heap)
                    (pdf_dict_get d2 dict .Next) with
                | none => simp [hB] at h
                | some b =>
                  obtain ⟨d3, heap3, rb⟩ := b
                  obtain ⟨m3, hm3⟩ := ih1 _ _ _ _ _ _ _ _ hB
                  have hd3 : d3 = d.setMarks m3 := by rw [hm3, hd2]; rfl
                  cases rb with
                  | error e =>
                    simp only [hB, Option.some.injEq, Prod.mk.injEq] at h
                    exact ⟨m3, by rw [← h.1, hd3]⟩
                  | ok next =>
                    simp only [hB, Option.some.injEq, Prod.mk.injEq] at h
                    exact ⟨m3, by rw [← h.1, hd3]⟩
    · intro d heap parent dict d' heap' r h
      rw [pdf_load_outline_imp] at h
      cases hB : load_siblings P n d heap parent none dict with
      | none => simp [hB] at h
      | some b =>
        obtain ⟨d3, heap3, rb⟩ := b
        simp only [hB, Option.some.injEq, Prod.mk.injEq] at h
        obtain ⟨m3, hm3⟩ := ih1 _ _ _ _ _ _ _ _ hB
        obtain ⟨m4, hm4⟩ := unmark_loop_marks_only d3.marks.length d3 dict
        exact ⟨m4, by rw [← h.1, unmark_chain, hm4, hm3]; rfl⟩

/-- The first node of a chain the loop of the loader returns: its fields are
those of `load_item` on the marked document, except for the open flag, which is
the test of `Count` when there is a `First` entry and false when there is none. -/
theorem load_siblings_head (P : LinkParser) (fuel : Nat) (d : Doc) (heap : Nat)
    (parent prev : Option Nat) (dict : Handle) (d' : Doc) (heap' a : Nat) (item : Item)
    (p v : Option Nat) (down next : Outline)
    (h : load_siblings P fuel d heap parent prev dict
      = some (d', heap', .ok (.node a item p v down next))) :
    ∃ item0, load_item P (pdf_mark_obj d dict).2 dict = .ok item0 ∧
      item = { item0 with is_open := item.is_open } ∧
      (item.is_open = true ↔ pdf_dict_get d dict .First ≠ .null ∧
        0 < pdf_to_int d (pdf_dict_get d dict .Count)) := by
  cases fuel with
  | zero => simp [load_siblings] at h
  | succ n =>
    obtain ⟨m1, hm1⟩ := mark_obj_marks_only d dict
    rw [load_siblings] at h
    split_ifs at h with c1 c2
    · cases h
    · cases h
    · cases hi : load_item P (pdf_mark_obj d dict).2 dict with
      | error e => simp [hi] at h
      | ok item0 =>
        refine ⟨item0, rfl, ?_⟩
        simp only [hi] at h
        have hF : pdf_dict_get (pdf_mark_obj d dict).2 dict .First = pdf_dict_get d dict .First := by
          rw [hm1]; rfl
        by_cases hf : pdf_dict_get (pdf_mark_obj d dict).2 dict .First = .null
        · simp only [hf, ne_eq, not_true_eq_false, ↓reduceIte] at h
          cases hB : load_siblings P n (pdf_mark_obj d dict).2 (heap + 1) parent (some heap)
              (pdf_dict_get (pdf_mark_obj d dict).2 dict .Next) with
          | none => simp [hB] at h
          | some b =>
            obtain ⟨d3, heap3, rb⟩ := b
            cases rb with
            | error e => simp [hB] at h
            | ok nx =>
              simp only [hB, Option.some.injEq, Prod.mk.injEq, Except.ok.injEq,
                Outline.node.injEq] at h
              obtain ⟨_, _, _, rfl, _⟩ := h
              rw [← hF]
              simp [hf]
        · simp only [hf, ne_eq, not_false_eq_true, ↓reduceIte] at h
          cases hA : pdf_load_outline_imp P n (pdf_mark_obj d dict).2 (heap + 1) (some heap)
              (pdf_dict_get (pdf_mark_obj d dict).2 dict .First) with
          | none => simp [hA] at h
          | some a2 =>
            obtain ⟨d2, heap2, ra⟩ := a2
            obtain ⟨m2, hm2⟩ := (load_marks_only P n).2 _ _ _ _ _ _ _ hA
            have hC : pdf_to_int d2 (pdf_dict_get d2 dict .Count)
                = pdf_to_int d (pdf_dict_get d dict .Count) := by
              rw [hm2, hm1]; rfl
            cases ra with
            | error e => simp [hA] at h
            | ok dn =>
              simp only [hA] at h
              cases hB : load_siblings P n d2 heap2 parent (some heap)
                  (pdf_dict_get d2 dict .Next) with
              | none => simp [hB] at h
              | some b =>
                obtain ⟨d3, heap3, rb⟩ := b
                cases rb with
                | error e => simp [hB] at h
                | ok nx =>
                  simp only [hB, Option.some.injEq, Prod.mk.injEq, Except.ok.injEq,
                    Outline.node.injEq] at h
                  obtain ⟨_, _, _, rfl, _⟩ := h
                  rw [← hF, hC] at *
                  simp [hf]

/-- C17 (as the code has it): a node the loader returns is open exactly when
its dictionary has a `First` entry and its `Count` entry is a positive number.
Whether the child chain loaded from `First` is empty plays no part. The node is
the first one of the chain returned by the loop entered at `dict`; every node
of a loaded tree is the first node of such a chain. -/
theorem loader_open_flag (P : LinkParser) (fuel : Nat) (d : Doc) (heap : Nat)
    (parent prev : Option Nat) (dict : Handle) (d' : Doc) (heap' a : Nat) (item : Item)
    (p v : Option Nat) (down next : Outline)
    (h : load_siblings P fuel d heap parent prev dict
      = some (d', heap', .ok (.node a item p v down next))) :
    item.is_open = true ↔
      pdf_dict_get d dict .First ≠ .null ∧ 0 < pdf_to_int d (pdf_dict_get d dict .Count) := by
  obtain ⟨_, _, _, h3⟩ := load_siblings_head P fuel d heap parent prev dict d' heap' a item p v
    down next h
  exact h3

/-- C17 (the claim as stated fails): the outline entry of `doc_first_not_dict`
has a `First` entry that refers to a number, so the child chain loaded from it
is empty, and a `Count` of 2; the node the loader returns for it has no
children and is open. -/
theorem loader_open_without_children :
    pdf_load_outline no_links 5 doc_first_not_dict 100
      = some (doc_first_not_dict,
          .ok (.node 100 ⟨some "a", none, -1, 0, 0, true⟩ none none .nil .nil)) ∧
    pdf_dict_get doc_first_not_dict (.ref 3) .First = .ref 4 ∧
    pdf_is_dict doc_first_not_dict (.ref 4) = false ∧
    pdf_to_int doc_first_not_dict (pdf_dict_get doc_first_not_dict (.ref 3) .Count) = 2 := by
  refine ⟨rfl, rfl, rfl, by decide⟩

theorem loader_open_flag_witness :
    (true = true ↔
      pdf_dict_get doc_first_not_dict (.ref 3) .First ≠ .null ∧
        0 < pdf_to_int doc_first_not_dict (pdf_dict_get doc_first_not_dict (.ref 3) .Count)) :=
  loader_open_flag no_links 4 doc_first_not_dict 100 none none (.ref 3)
    (doc_first_not_dict.setMarks [⟨.obj 3, []⟩]) 101 100 ⟨some "a", none, -1, 0, 0, true⟩
    none none .nil .nil rfl

/-- The URI, the page and the coordinates that lines 32-42 give a node. -/
theorem load_item_selects (P : LinkParser) (d : Doc) (dict : Handle) (item : Item)
    (h : load_item P d dict = .ok item) :
    (pdf_dict_get d dict .Dest ≠ .null →
      P.parse_link_dest d (pdf_dict_get d dict .Dest) = .ok item.uri) ∧
    (pdf_dict_get d dict .Dest = .null → pdf_dict_get d dict .A ≠ .null →
      P.parse_link_action d (pdf_dict_get d dict .A) = .ok item.uri) ∧
    (pdf_dict_get d dict .Dest = .null → pdf_dict_get d dict .A = .null → item.uri = none) ∧
    (∀ u, item.uri = some u → fz_is_external_link u = false →
      (item.page, item.x, item.y) = pdf_resolve_link u) ∧
    (∀ u, item.uri = some u → fz_is_external_link u = true → item.page = -1) ∧
    (item.uri = none → item.page = -1) := by
  unfold load_item at h
  simp only [] at h
  generalize hparsed : (if pdf_dict_get d dict .Dest ≠ .null then
      P.parse_link_dest d (pdf_dict_get d dict .Dest)
    else if pdf_dict_get d dict .A ≠ .null then
      P.parse_link_action d (pdf_dict_get d dict .A)
    else .ok none) = parsed at h
  have hsel : (pdf_dict_get d dict .Dest ≠ .null →
        P.parse_link_dest d (pdf_dict_get d dict .Dest) = parsed) ∧
      (pdf_dict_get d dict .Dest = .null → pdf_dict_get d dict .A ≠ .null →
        P.parse_link_action d (pdf_dict_get d dict .A) = parsed) ∧
      (pdf_dict_get d dict .Dest = .null → pdf_dict_get d dict .A = .null →
        parsed = .ok none) := by
    refine ⟨fun h1 => ?_, fun h1 h2 => ?_, fun h1 h2 => ?_⟩
    · rw [if_pos h1] at hparsed; exact hparsed
    · rw [if_neg (by simp [h1]), if_pos h2] at hparsed; exact hparsed
    · rw [if_neg (by simp [h1]), if_neg (by simp [h2])] at hparsed; exact hparsed.symm
  cases parsed with
  | error e => simp at h
  | ok u =>
    cases u with
    | none =>
      simp only [Except.ok.injEq] at h
      subst h
      refine ⟨hsel.1, hsel.2.1, fun _ _ => rfl, fun u hu _ => ?_, fun u hu _ => ?_, fun _ => rfl⟩
      · simp at hu
      · simp at hu
    | some uri =>
      simp only [] at h
      by_cases hext : fz_is_external_link uri = true
      · rw [if_pos hext] at h
        simp only [Except.ok.injEq] at h
        subst h
        refine ⟨hsel.1, hsel.2.1, ?_, ?_, fun _ _ _ => rfl, fun hu => by simp at hu⟩
        · intro h1 h2; have := hsel.2.2 h1 h2; simp at this
        · intro u hu he
          simp only [Option.some.injEq] at hu
          subst hu
          rw [hext] at he; cases he
      · rw [if_neg hext] at h
        simp only [Except.ok.injEq] at h
        subst h
        refine ⟨hsel.1, hsel.2.1, ?_, ?_, ?_, fun hu => by simp at hu⟩
        · intro h1 h2; have := hsel.2.2 h1 h2; simp at this
        · intro u hu _
          simp only [Option.some.injEq] at hu
          subst hu
          rfl
        · intro u hu he
          simp only [Option.some.injEq] at hu
          subst hu
          exact absurd he hext

/-- C18: the destination of a loaded node. For the first node of a chain the
loop of the loader returns for the dictionary `dict` (every loaded node is
one): with a `Dest` entry its URI is what the destination parser gives for that
entry, whatever `A` holds; without `Dest` but with `A` it is what the action
parser gives for `A`; without both there is no URI. The page and coordinates
are the resolution of the URI when there is one and it is internal; the page
is -1 when the URI is external and when there is none. The parsers are called
on the document as it is then, with `dict` marked. -/
theorem loader_selects_destination (P : LinkParser) (fuel : Nat) (d : Doc) (heap : Nat)
    (parent prev : Option Nat) (dict : Handle) (d' : Doc) (heap' a : Nat) (item : Item)
    (p v : Option Nat) (down next : Outline)
    (h : load_siblings P fuel d heap parent prev dict
      = some (d', heap', .ok (.node a item p v down next))) :
    (pdf_dict_get d dict .Dest ≠ .null →
      P.parse_link_dest (pdf_mark_obj d dict).2 (pdf_dict_get d dict .Dest) = .ok item.uri) ∧
    (pdf_dict_get d dict .Dest = .null → pdf_dict_get d dict .A ≠ .null →
      P.parse_link_action (pdf_mark_obj d dict).2 (pdf_dict_get d dict .A) = .ok item.uri) ∧
    (pdf_dict_get d dict .Dest = .null → pdf_dict_get d dict .A = .null → item.uri = none) ∧
    (∀ u, item.uri = some u → fz_is_external_link u = false →
      (item.page, item.x, item.y) = pdf_resolve_link u) ∧
    (∀ u, item.uri = some u → fz_is_external_link u = true → item.page = -1) ∧
    (item.uri = none → item.page = -1) := by
  obtain ⟨item0, h1, h2, _⟩ := load_siblings_head P fuel d heap parent prev dict d' heap' a item
    p v down next h
  obtain ⟨m1, hm1⟩ := mark_obj_marks_only d dict
  have hg : ∀ k, pdf_dict_get (pdf_mark_obj d dict).2 dict k = pdf_dict_get d dict k := by
    intro k; rw [hm1]; rfl
  have hs := load_item_selects P _ dict item0 h1
  simp only [hg] at hs
  have e1 : item.uri = item0.uri := by rw [h2]
  have e2 : item.page = item0.page := by rw [h2]
  have e3 : item.x = item0.x := by rw [h2]
  have e4 : item.y = item0.y := by rw [h2]
  rw [e1, e2, e3, e4]
  exact hs

theorem loader_selects_destination_witness :
    pdf_load_outline links_by_kind 5 doc_dest_and_action 100
      = some (doc_dest_and_action,
          .ok (.node 100 ⟨some "a", some (.internal 1 2 3), 1, 2, 3, false⟩ none none .nil
            (.node 101 ⟨some "b", some (.external "u"), -1, 0, 0, false⟩ none (some 100) .nil
              (.node 102 ⟨some "c", none, -1, 0, 0, false⟩ none (some 101) .nil .nil)))) ∧
    links_by_kind.parse_link_dest (pdf_mark_obj doc_dest_and_action (.ref 3)).2
        (pdf_dict_get doc_dest_and_action (.ref 3) .Dest) = .ok (some (.internal 1 2 3)) ∧
    links_by_kind.parse_link_action
        (pdf_mark_obj (doc_dest_and_action.setMarks [⟨.obj 3, []⟩]) (.ref 4)).2
        (pdf_dict_get (doc_dest_and_action.setMarks [⟨.obj 3, []⟩]) (.ref 4) .A)
      = .ok (some (.external "u")) :=
  ⟨rfl,
   (loader_selects_destination links_by_kind 4 doc_dest_and_action 100 none none (.ref 3)
      (doc_dest_and_action.setMarks [⟨.obj 5, []⟩, ⟨.obj 4, []⟩, ⟨.obj 3, []⟩]) 103 100
      ⟨some "a", some (.internal 1 2 3), 1, 2, 3, false⟩ none none .nil
      (.node 101 ⟨some "b", some (.external "u"), -1, 0, 0, false⟩ none (some 100) .nil
        (.node 102 ⟨some "c", none, -1, 0, 0, false⟩ none (some 101) .nil .nil)) rfl).1
     (by decide),
   (loader_selects_destination links_by_kind 3 (doc_dest_and_action.setMarks [⟨.obj 3, []⟩]) 101
      none (some 100) (.ref 4)
      (doc_dest_and_action.setMarks [⟨.obj 5, []⟩, ⟨.obj 4, []⟩, ⟨.obj 3, []⟩]) 103 101
      ⟨some "b", some (.external "u"), -1, 0, 0, false⟩ none (some 100) .nil
      (.node 102 ⟨some "c", none, -1, 0, 0, false⟩ none (some 101) .nil .nil) rfl).2.1
     rfl (by decide)⟩

/-! ### The writer: links, counts and destinations -/

/-- Lines 178-224 for one node: its object is allocated and filled and linked
to the sibling before it; what follows is the call for its children and the
rest of the loop. -/
theorem write_node_step (dp d : Doc) (a : Nat) (item : Item) (p v : Option Nat)
    (down next : Outline) (pn : Nat) (opn : Bool) (first last : Handle) (cnt : Int)
    (hpages : d.pages = dp.pages) (hwt : item.title ≠ none)
    (hwp : pdf_lookup_page_obj dp item.page ≠ .null)
    (hlast : last = .null ∨ ∃ ln, last = .ref ln ∧ (d.objs ln).isDict = true ∧
      ln < d.xref_len ∧ ln ≠ pn) :
    ∃ d2, d2.xref_len = d.xref_len + 1 ∧ d2.trailer = d.trailer ∧ d2.pages = d.pages ∧
      d2.marks = d.marks ∧ (d2.objs d.xref_len).isDict = true ∧
      (d2.objs d.xref_len).get .Parent = .ref pn ∧
      (d2.objs d.xref_len).get .Prev = last.val d ∧
      (∀ k, k ≠ .Prev → k ≠ .Title → k ≠ .Dest → k ≠ .Parent →
        (d2.objs d.xref_len).get k = .null) ∧
      (∀ n, n < d.xref_len → last ≠ .ref n → d2.objs n = d.objs n) ∧
      (∀ ln, last = .ref ln → d2.objs ln = (d.objs ln).put .Next (.ref d.xref_len)) ∧
      (∀ d3, (if down.isNode then
            write_siblings d2 down (.ref d.xref_len) item.is_open .null .null 0
          else (d2, .ok ())) = (d3, .ok ()) →
        write_siblings d (.node a item p v down next) (.ref pn) opn first last cnt
          = write_siblings d3 next (.ref pn) opn
              (if first = .null then .ref d.xref_len else first) (.ref d.xref_len)
              (c_int (cnt + 1))) ∧
      (∀ d3 e, (if down.isNode then
            write_siblings d2 down (.ref d.xref_len) item.is_open .null .null 0
          else (d2, .ok ())) = (d3, .error e) →
        write_siblings d (.node a item p v down next) (.ref pn) opn first last cnt
          = (d3, .error e)) := by
  obtain ⟨title, htitle⟩ := Option.ne_none_iff_exists'.mp hwt
  obtain ⟨pg, hpg⟩ := lookup_page_ref dp item.page hwp
  have hentries := write_entries_ok d.grow item d.xref_len pn pg title (by simp [grow_objs])
    htitle (by rw [lookup_page_congr dp d.grow (by simpa using hpages)]; exact hpg)
  have hy : (if item.y ≠ .fin 0 then
        (Flt.sub (Flt.of_int (page_box_height d.grow (.ref pg))) item.y).to_int else 0)
      = dest_y dp item pg := by
    rw [box_height_congr dp d.grow (by simpa using hpages)]; rfl
  rw [hy] at hentries
  have hnode : ∀ k, k ≠ .Title → k ≠ .Dest → k ≠ .Parent →
      (node_obj title pg item.x.to_int (dest_y dp item pg) pn).get k = .null :=
    fun k => get_A_node_obj _ _ _ _ _ k
  have hpar : (node_obj title pg item.x.to_int (dest_y dp item pg) pn).get .Parent = .ref pn := by
    simp [node_obj, PdfObj.get, lookup]
  rcases hlast with rfl | ⟨ln, rfl, hld, hln, hlp⟩
  · refine ⟨d.grow.setObj d.xref_len (node_obj title pg item.x.to_int (dest_y dp item pg) pn),
      rfl, rfl, rfl, rfl, by simp [node_obj, PdfObj.isDict], by simp [hpar], ?_, ?_, ?_, ?_, ?_, ?_⟩
    · rw [setObj_objs_same, val_null]
      exact hnode _ (by decide) (by decide) (by decide)
    · intro k _ h2 h3 h4
      rw [setObj_objs_same]; exact hnode k h2 h3 h4
    · intro n hn _
      rw [setObj_objs_ne _ _ _ _ (by omega), grow_objs]
      simp [Nat.ne_of_lt hn]
    · intro ln hl; cases hl
    · intro d3 h
      rw [write_siblings]
      simp only [pdf_add_new_dict, hentries, ne_eq, not_true_eq_false, ↓reduceIte, h]
    · intro d3 e h
      rw [write_siblings]
      simp only [pdf_add_new_dict, hentries, ne_eq, not_true_eq_false, ↓reduceIte, h]
  · have hlb : ln ≠ d.xref_len := by omega
    have h1 : ((d.grow.setObj d.xref_len
        (node_obj title pg item.x.to_int (dest_y dp item pg) pn)).objs ln) = d.objs ln := by
      rw [setObj_objs_ne _ _ _ _ hlb, grow_objs]; simp [hlb]
    have hlinkeq : (if Handle.ref ln ≠ .null then
          and_then (and_then
            (d.grow.setObj d.xref_len
              (node_obj title pg item.x.to_int (dest_y dp item pg) pn), Except.ok ())
            (fun e => pdf_dict_put e (.ref ln) .Next (Handle.val e (.ref d.xref_len))))
            (fun e => pdf_dict_put e (.ref d.xref_len) .Prev (Handle.val e (.ref ln)))
         else (d.grow.setObj d.xref_len
              (node_obj title pg item.x.to_int (dest_y dp item pg) pn), Except.ok ()))
        = (((d.grow.setObj d.xref_len
            (node_obj title pg item.x.to_int (dest_y dp item pg) pn)).setObj ln
              ((d.objs ln).put .Next (.ref d.xref_len))).setObj d.xref_len
              ((node_obj title pg item.x.to_int (dest_y dp item pg) pn).put .Prev (.ref ln)),
            .ok ()) := by
      simp only [ne_eq, reduceCtorEq, not_false_eq_true, ↓reduceIte, and_then, val_ref]
      rw [dict_put_ref _ ln _ _ (by rw [h1]; exact hld), h1]
      simp only []
      rw [dict_put_ref _ d.xref_len _ _ (by
        rw [setObj_objs_ne _ _ _ _ (Ne.symm hlb), setObj_objs_same]; rfl)]
      rw [setObj_objs_ne _ _ _ _ (Ne.symm hlb), setObj_objs_same]
    refine ⟨((d.grow.setObj d.xref_len
        (node_obj title pg item.x.to_int (dest_y dp item pg) pn)).setObj ln
          ((d.objs ln).put .Next (.ref d.xref_len))).setObj d.xref_len
          ((node_obj title pg item.x.to_int (dest_y dp item pg) pn).put .Prev (.ref ln)),
      rfl, rfl, rfl, rfl, ?_, ?_, ?_, ?_, ?_, ?_, ?_, ?_⟩
    · rw [setObj_objs_same]; rfl
    · rw [setObj_objs_same,
        get_put (node_obj title pg item.x.to_int (dest_y dp item pg) pn) _ _ _ rfl]
      simp [hpar]
    · rw [setObj_objs_same,
        get_put (node_obj title pg item.x.to_int (dest_y dp item pg) pn) _ _ _ rfl]
      simp [val_ref]
    · intro k h1 h2 h3 h4
      rw [setObj_objs_same,
        get_put (node_obj title pg item.x.to_int (dest_y dp item pg) pn) _ _ _ rfl]
      simp [h1, hnode k h2 h3 h4]
    · intro n hn hne
      have hnl : n ≠ ln := by rintro rfl; exact hne rfl
      rw [setObj_objs_ne _ _ _ _ (by omega), setObj_objs_ne _ _ _ _ hnl,
        setObj_objs_ne _ _ _ _ (by omega), grow_objs]
      simp [Nat.ne_of_lt hn]
    · intro ln' hl
      cases hl
      rw [setObj_objs_ne _ _ _ _ hlb, setObj_objs_same]
    · intro d3 h
      rw [write_siblings]
      simp only [pdf_add_new_dict, hentries, hlinkeq, h]
    · intro d3 e h
      rw [write_siblings]
      simp only [pdf_add_new_dict, hentries, hlinkeq, h]

/-- The call of the writer for the children of the node whose object is `b`,
the object allocated last. -/
theorem write_below_ok (dp d2 : Doc) (down : Outline) (b : Nat) (is_open : Bool)
    (hp : d2.pages = dp.pages) (hw : writable dp down) (hb : (d2.objs b).isDict = true)
    (hx : d2.xref_len = b + 1) :
    ∃ d3, (if down.isNode then write_siblings d2 down (.ref b) is_open .null .null 0
        else (d2, .ok ())) = (d3, .ok ()) ∧
      d3.xref_len = b + 1 + down.size ∧ d3.trailer = d2.trailer ∧ d3.pages = d2.pages ∧
      d3.marks = d2.marks ∧
      (∀ n, n < b → d3.objs n = d2.objs n) ∧ (d3.objs b).isDict = true ∧
      (∀ k, k ≠ .First → k ≠ .Last → k ≠ .Count → (d3.objs b).get k = (d2.objs b).get k) ∧
      (down.isNode = false → d3 = d2) ∧
      (down.isNode = true →
        write_siblings d2 down (.ref b) is_open .null .null 0 = (d3, .ok ())) ∧
      persisted dp d3 down (b + 1) := by
  cases hdn : down.isNode
  · have hdnil : down = .nil := isNode_false down hdn
    subst hdnil
    exact ⟨d2, by simp, by simp [hx, Outline.size], rfl, rfl, rfl, fun _ _ => rfl, hb,
      fun _ _ _ _ => rfl, fun _ => rfl, fun h => (by cases h), trivial⟩
  · obtain ⟨d3, h1, h2, h3, h4, h5, h6, _, h8, h9, _, _, _, h13⟩ :=
      write_siblings_ok dp down d2 b is_open .null .null 0 hp hw hb (by omega) (Or.inl rfl)
        (Or.inl rfl)
    refine ⟨d3, by simpa using h1, by rw [h2, hx], h3, h4, h5, ?_, h8, h9, fun h => (by cases h),
      fun _ => h1, by rw [hx] at h13; exact h13⟩
    intro n hn
    exact h6 n (by omega) (by omega) (by simp)

theorem links_written_congr (d d' : Doc) (t : Outline) :
    ∀ (num pn : Nat) (prev : PdfObj),
      (∀ n, num ≤ n → n < num + t.size → d'.objs n = d.objs n) →
      links_written d t num pn prev → links_written d' t num pn prev := by
  induction t with
  | nil => intro _ _ _ _ _; trivial
  | node a item p v down next ihd ihn =>
    intro num pn prev hagree hl
    have h0 : d'.objs num = d.objs num := hagree num (Nat.le_refl _) (by simp [Outline.size])
    simp only [links_written, h0] at hl ⊢
    obtain ⟨h1, h2, h3, h4, h5, h6⟩ := hl
    refine ⟨h1, h2, h3, h4, ?_, ?_⟩
    · exact ihd _ _ _ (fun n hn1 hn2 => hagree n (by omega) (by simp [Outline.size]; omega)) h5
    · exact ihn _ _ _ (fun n hn1 hn2 => hagree n (by omega) (by simp [Outline.size]; omega)) h6

/-- The links the loop of the writer leaves: `Parent`, `Prev` and `Last` of
every node of the chain and below it, and `Last` of the parent object. -/
theorem write_siblings_links (dp : Doc) (t : Outline) :
    ∀ (d : Doc) (pn : Nat) (opn : Bool) (first last : Handle) (cnt : Int) (d' : Doc),
      d.pages = dp.pages → writable dp t →
      (d.objs pn).isDict = true → pn < d.xref_len →
      (first = .null ∨ ∃ f, first = .ref f) →
      (last = .null ∨ ∃ ln, last = .ref ln ∧ (d.objs ln).isDict = true ∧ ln < d.xref_len ∧
        ln ≠ pn) →
      write_siblings d t (.ref pn) opn first last cnt = (d', .ok ()) →
      links_written d' t d.xref_len pn (last.val d) ∧
      (d'.objs pn).get .Last
        = (if t.isNode then .ref (last_sibling t d.xref_len) else last.val d) := by
  induction t with
  | nil =>
    intro d pn opn first last cnt d' hpages _ hpd hpn hfirst hlast heq
    have hfv : ∀ e, first.val e = first.val d := by
      intro e; rcases hfirst with rfl | ⟨f, rfl⟩ <;> rfl
    have hlv : ∀ e, last.val e = last.val d := by
      intro e; rcases hlast with rfl | ⟨ln, rfl, -⟩ <;> rfl
    have h1 := isDict_put _ .First (first.val d) hpd
    have h2 := isDict_put _ .Last (last.val d) h1
    simp only [write_siblings, and_then] at heq
    rw [dict_put_ref d pn _ _ hpd] at heq
    simp only [hfv, hlv] at heq
    rw [dict_put_ref _ pn _ _ (by rw [setObj_objs_same]; exact h1)] at heq
    simp only [setObj_objs_same, setObj_setObj] at heq
    rw [dict_put_ref _ pn _ _ (by rw [setObj_objs_same]; exact h2)] at heq
    simp only [setObj_objs_same, setObj_setObj, Prod.mk.injEq, and_true] at heq
    subst heq
    refine ⟨trivial, ?_⟩
    rw [setObj_objs_same, get_put _ _ _ _ h2, get_put _ _ _ _ h1]
    simp
  | node a item p v down next ihd ihn =>
    intro d pn opn first last cnt d' hpages hw hpd hpn hfirst hlast heq
    obtain ⟨hwt, hwp, hwd, hwn⟩ := hw
    have hbpn : pn ≠ d.xref_len := by omega
    obtain ⟨d2, hx2, ht2, hp2, hm2, hd2, hpar2, hprev2, hnull2, hfr2, hl2, hstep, _⟩ :=
      write_node_step dp d a item p v down next pn opn first last cnt hpages hwt hwp hlast
    obtain ⟨d3, hbeq, hx3, ht3, hp3, hm3, hfr3, hd3, hg3, hleaf3, hnode3, hper3⟩ :=
      write_below_ok dp d2 down d.xref_len item.is_open (by rw [hp2, hpages]) hwd hd2 hx2
    rw [hstep d3 hbeq] at heq
    -- the children
    have hdown : links_written d3 down (d.xref_len + 1) d.xref_len .null ∧
        (d3.objs d.xref_len).get .Last
          = (if down.isNode then .ref (last_sibling down (d.xref_len + 1)) else .null) ∧
        (down.isNode = false → (d3.objs d.xref_len).get .Count = .null) := by
      cases hdn : down.isNode
      · have hdnil : down = .nil := isNode_false down hdn
        subst hdnil
        rw [hleaf3 rfl]
        exact ⟨trivial, by simpa using hnull2 _ (by decide) (by decide) (by decide) (by decide),
          fun _ => hnull2 _ (by decide) (by decide) (by decide) (by decide)⟩
      · have := ihd d2 d.xref_len item.is_open .null .null 0 d3 (by rw [hp2, hpages]) hwd hd2
          (by omega) (Or.inl rfl) (Or.inl rfl) (hnode3 hdn)
        rw [hx2, val_null, hdn] at this
        exact ⟨this.1, by simpa using this.2, fun h => (by cases h)⟩
    obtain ⟨hld, hlast3, hcnt3⟩ := hdown
    -- the next siblings
    have hfirst1 : (if first = .null then Handle.ref d.xref_len else first) = .null ∨
        ∃ f, (if first = .null then Handle.ref d.xref_len else first) = .ref f := by
      rcases hfirst with rfl | ⟨f, rfl⟩
      · exact Or.inr ⟨d.xref_len, by simp⟩
      · exact Or.inr ⟨f, by simp⟩
    have hpn3 : d3.objs pn = d.objs pn := by
      rw [hfr3 pn hpn]
      apply hfr2 pn hpn
      rcases hlast with rfl | ⟨ln, rfl, _, _, hlp⟩
      · simp
      · intro h; cases h; exact hlp rfl
    have hlast1 : (Handle.ref d.xref_len = .null) ∨ ∃ ln, Handle.ref d.xref_len = .ref ln ∧
        (d3.objs ln).isDict = true ∧ ln < d3.xref_len ∧ ln ≠ pn :=
      Or.inr ⟨_, rfl, hd3, by omega, Ne.symm hbpn⟩
    obtain ⟨d4, h1, h2, _, _, _, h6, h7, _⟩ :=
      write_siblings_ok dp next d3 pn opn (if first = .null then Handle.ref d.xref_len else first)
        (.ref d.xref_len) (c_int (cnt + 1)) (by rw [hp3, hp2, hpages]) hwn
        (by rw [hpn3]; exact hpd) (by omega) hfirst1 hlast1
    have hd4 : d4 = d' := by
      rw [h1] at heq
      exact (Prod.mk.inj heq).1
    subst hd4
    obtain ⟨_, hb2, _⟩ := h7 _ rfl
    have hnext := ihn d3 pn opn (if first = .null then Handle.ref d.xref_len else first)
      (.ref d.xref_len) (c_int (cnt + 1)) d4 (by rw [hp3, hp2, hpages]) hwn
      (by rw [hpn3]; exact hpd) (by omega) hfirst1 hlast1 h1
    rw [hx3, val_ref] at hnext
    refine ⟨⟨?_, ?_, ?_, ?_, ?_, hnext.1⟩, ?_⟩
    · rw [hb2 _ (by decide), hg3 _ (by decide) (by decide) (by decide), hpar2]
    · rw [hb2 _ (by decide), hg3 _ (by decide) (by decide) (by decide), hprev2]
    · rw [hb2 _ (by decide), hlast3]
    · intro h
      rw [hb2 _ (by decide), hcnt3 h]
    · apply links_written_congr d3 d4 down _ _ _ _ hld
      intro n hn1 hn2
      exact h6 n (by omega) (by omega) (by intro h; cases h; omega)
    · rw [hnext.2]
      cases hnn : next.isNode <;> simp [last_sibling, hnn]

theorem nodes_length (t : Outline) : t.nodes.length = t.size := by
  induction t with
  | nil => rfl
  | node a item p v down next ihd ihn =>
    simp [Outline.nodes, Outline.size, ihd, ihn]; omega

/-- The node at place `i` of the writer's order is the first node of the tree,
or a node of its child chain, or a node of its later siblings. -/
theorem nodes_cases (a : Nat) (item0 : Item) (p v : Option Nat) (down0 next0 : Outline)
    (i : Nat) (e : Item × Outline)
    (h : (Outline.node a item0 p v down0 next0).nodes[i]? = some e) :
    (i = 0 ∧ e = (item0, down0)) ∨
    (∃ j, i = j + 1 ∧ j < down0.size ∧ down0.nodes[j]? = some e) ∨
    (∃ j, i = 1 + down0.size + j ∧ next0.nodes[j]? = some e) := by
  cases i with
  | zero =>
    simp only [Outline.nodes, List.getElem?_cons_zero, Option.some.injEq] at h
    exact Or.inl ⟨rfl, h.symm⟩
  | succ j =>
    simp only [Outline.nodes, List.getElem?_cons_succ] at h
    by_cases hj : j < down0.nodes.length
    · rw [List.getElem?_append_left hj] at h
      exact Or.inr (Or.inl ⟨j, rfl, by rw [← nodes_length]; exact hj, h⟩)
    · rw [List.getElem?_append_right (by omega)] at h
      rw [nodes_length] at h hj
      exact Or.inr (Or.inr ⟨j - down0.size, by omega, h⟩)

/-- What `persisted` says of the node at place `i` of the writer's order. -/
theorem persisted_at (dp d : Doc) (t : Outline) :
    ∀ (num i : Nat) (item : Item) (down : Outline),
      persisted dp d t num → t.nodes[i]? = some (item, down) →
      (d.objs (num + i)).isDict = true ∧
      (∃ pg, pdf_lookup_page_obj dp item.page = .ref pg ∧
        (d.objs (num + i)).get .Dest
          = .arr [.ref pg, .name .XYZ, .int item.x.to_int, .int (dest_y dp item pg), .null]) ∧
      (d.objs (num + i)).get .First = (if down.isNode then .ref (num + i + 1) else .null) ∧
      (down.isNode = true → (d.objs (num + i)).get .Count
        = .int (if item.is_open then count_up down.chainLength 0
                else c_int (-count_up down.chainLength 0))) := by
  induction t with
  | nil => intro _ i _ _ _ h; simp [Outline.nodes] at h
  | node a item0 p v down0 next0 ihd ihn =>
    intro num i item down hp h
    obtain ⟨h1, ⟨title, pg, _, hpg, _, hdest⟩, _, h4, h5, _, h7, h8⟩ := hp
    rcases nodes_cases a item0 p v down0 next0 i _ h with ⟨rfl, he⟩ | ⟨j, rfl, _, hj⟩ | ⟨j, rfl, hj⟩
    · cases he
      exact ⟨h1, ⟨pg, hpg, hdest⟩, h4, h5⟩
    · have := ihd (num + 1) j item down h7 hj
      rw [show num + 1 + j = num + (j + 1) by omega] at this
      exact this
    · have := ihn (num + 1 + down0.size) j item down h8 hj
      rw [show num + 1 + down0.size + j = num + (1 + down0.size + j) by omega] at this
      exact this

/-- What `links_written` says of the node at place `i` of the writer's order. -/
theorem links_at (d : Doc) (t : Outline) :
    ∀ (num pn : Nat) (prev : PdfObj) (i : Nat) (item : Item) (down : Outline),
      links_written d t num pn prev → t.nodes[i]? = some (item, down) →
      (d.objs (num + i)).get .Last
        = (if down.isNode then .ref (last_sibling down (num + i + 1)) else .null) ∧
      (down.isNode = false → (d.objs (num + i)).get .Count = .null) := by
  induction t with
  | nil => intro _ _ _ i _ _ _ h; simp [Outline.nodes] at h
  | node a item0 p v down0 next0 ihd ihn =>
    intro num pn prev i item down hl h
    obtain ⟨_, _, h3, h4, h5, h6⟩ := hl
    rcases nodes_cases a item0 p v down0 next0 i _ h with ⟨rfl, he⟩ | ⟨j, rfl, _, hj⟩ | ⟨j, rfl, hj⟩
    · cases he
      exact ⟨h3, h4⟩
    · have := ihd (num + 1) num .null j item down h5 hj
      rw [show num + 1 + j = num + (j + 1) by omega] at this
      exact this
    · have := ihn (num + 1 + down0.size) pn (.ref num) j item down h6 hj
      rw [show num + 1 + down0.size + j = num + (1 + down0.size + j) by omega] at this
      exact this

theorem sibling_nums_length (t : Outline) : ∀ num, (sibling_nums t num).length = t.chainLength := by
  induction t with
  | nil => intro _; rfl
  | node a item p v down next _ ihn =>
    intro num
    simp [sibling_nums, Outline.chainLength, ihn]; omega

/-- The links of the objects of one sibling chain, read off `persisted` and
`links_written`. -/
theorem chain_links (dp d : Doc) (t : Outline) :
    ∀ (num pn : Nat) (prev : PdfObj), persisted dp d t num → links_written d t num pn prev →
      (∀ o, o ∈ sibling_nums t num → num ≤ o ∧ o < num + t.size ∧ (d.objs o).isDict = true ∧
        (d.objs o).get .Parent = .ref pn) ∧
      (sibling_nums t num).Pairwise (fun x y => x < y) ∧
      (∀ i o o', (sibling_nums t num)[i]? = some o → (sibling_nums t num)[i + 1]? = some o' →
        (d.objs o).get .Next = .ref o' ∧ (d.objs o').get .Prev = .ref o) ∧
      (∀ o, (sibling_nums t num).head? = some o → o = num ∧ (d.objs o).get .Prev = prev) ∧
      (∀ o, (sibling_nums t num).getLast? = some o →
        o = last_sibling t num ∧ (d.objs o).get .Next = .null) := by
  induction t with
  | nil =>
    intro num pn prev _ _
    simp [sibling_nums]
  | node a item p v down next _ ihn =>
    intro num pn prev hp hl
    obtain ⟨h1, _, _, _, _, hnext, _, h8⟩ := hp
    obtain ⟨l1, l2, _, _, _, l6⟩ := hl
    obtain ⟨i1, i2, i3, i4, i5⟩ := ihn (num + 1 + down.size) pn (.ref num) h8 l6
    refine ⟨?_, ?_, ?_, ?_, ?_⟩
    · intro o ho
      simp only [sibling_nums, List.mem_cons] at ho
      rcases ho with rfl | ho
      · exact ⟨Nat.le_refl _, by simp only [Outline.size]; omega, h1, l1⟩
      · obtain ⟨b1, b2, b3, b4⟩ := i1 o ho
        exact ⟨by omega, by simp only [Outline.size]; omega, b3, b4⟩
    · simp only [sibling_nums, List.pairwise_cons]
      exact ⟨fun o ho => by have := (i1 o ho).1; omega, i2⟩
    · intro i o o' ho ho'
      cases i with
      | zero =>
        simp only [sibling_nums, List.getElem?_cons_zero, Option.some.injEq,
          List.getElem?_cons_succ] at ho ho'
        subst ho
        have hh : (sibling_nums next (num + 1 + down.size)).head? = some o' := by
          rw [List.head?_eq_getElem?]; exact ho'
        obtain ⟨e1, e2⟩ := i4 o' hh
        have hnn : next.isNode = true := by
          cases next with
          | nil => simp [sibling_nums] at ho'
          | node => rfl
        rw [hnext, hnn, e2, e1]
        simp
      | succ j =>
        simp only [sibling_nums, List.getElem?_cons_succ] at ho ho'
        exact i3 j o o' ho ho'
    · intro o ho
      simp only [sibling_nums, List.head?_cons, Option.some.injEq] at ho
      subst ho
      exact ⟨rfl, l2⟩
    · intro o ho
      cases next with
      | nil =>
        simp only [sibling_nums, List.getLast?_singleton, Option.some.injEq] at ho
        subst ho
        rw [hnext]
        simp [last_sibling]
      | node a2 item2 p2 v2 down2 next2 =>
        simp only [sibling_nums, List.getLast?_cons_cons] at ho
        have := i5 o (by simpa [sibling_nums] using ho)
        simpa [last_sibling] using this

theorem count_value (n : Nat) (b : Bool) (h : n < 2147483648) :
    (if b = true then count_up n 0 else c_int (-count_up n 0))
      = (if b = true then (n : Int) else -(n : Int)) := by
  have h1 : count_up n 0 = n := by
    rw [count_up_eq n 0 (by omega) (by omega)]; simp
  rw [h1, c_int_of_in_int (-(n : Int)) ⟨by omega, by omega⟩]

theorem chainLength_le_size (t : Outline) : t.chainLength ≤ t.size := by
  induction t with
  | nil => exact Nat.le_refl _
  | node a item p v down next _ ihn => simp only [Outline.chainLength, Outline.size]; omega

theorem nodes_down_size (t : Outline) : ∀ (i : Nat) (item : Item) (down : Outline),
    t.nodes[i]? = some (item, down) → down.size < t.size := by
  induction t with
  | nil => intro i _ _ h; simp [Outline.nodes] at h
  | node a item0 p v down0 next0 ihd ihn =>
    intro i item down h
    rcases nodes_cases a item0 p v down0 next0 i _ h with ⟨rfl, he⟩ | ⟨j, rfl, _, hj⟩ | ⟨j, rfl, hj⟩
    · cases he
      simp only [Outline.size]; omega
    · have := ihd j item down hj
      simp only [Outline.size]; omega
    · have := ihn j item down hj
      simp only [Outline.size]; omega

/-- The call `pdf_write_outline` on a document without an outline: what it
leaves in the Outlines object and in the objects of the nodes. -/
theorem write_outline_full (d : Doc) (T : Outline) (root : Nat)
    (hroot : pdf_dict_get d (pdf_trailer d) .Root = .ref root)
    (hcat : (d.objs root).isDict = true)
    (hnone : (d.objs root).get .Outlines = .null)
    (hlen : root < d.xref_len)
    (hnode : T.isNode = true)
    (hw : writable d T) :
    ∃ d1, pdf_write_outline d T = (d1, .ok ()) ∧
      (d1.objs d.xref_len).get .Count = .int (count_up T.chainLength 0) ∧
      (d1.objs d.xref_len).get .Last = .ref (last_sibling T (d.xref_len + 1)) ∧
      persisted d d1 T (d.xref_len + 1) ∧
      links_written d1 T (d.xref_len + 1) d.xref_len .null := by
  obtain ⟨d2, h1, h2, h3, h4, h5, h6, _, h8, _, _, h11, h12, h13⟩ :=
    write_siblings_ok d T d.grow d.xref_len true .null .null 0 rfl hw
      (by simp [grow_objs, PdfObj.isDict]) (by simp) (Or.inl rfl) (Or.inl rfl)
  obtain ⟨l1, l2⟩ := write_siblings_links d T d.grow d.xref_len true .null .null 0 d2 rfl hw
    (by simp [grow_objs, PdfObj.isDict]) (by simp) (Or.inl rfl) (Or.inl rfl) h1
  have hr2 : d2.objs root = d.objs root := by
    rw [h6 root (by simp only [grow_xref_len]; omega) (by omega) (by simp), grow_objs]
    simp [Nat.ne_of_lt hlen]
  have hne : d.xref_len ≠ root := by omega
  refine ⟨d2.setObj root ((d.objs root).put .Outlines (.ref d.xref_len)), ?_, ?_, ?_, ?_, ?_⟩
  · have hO : pdf_dict_get d (.ref root) .Outlines = .null := by
      rw [dict_get_ref d root _ hcat, hnone]; rfl
    simp only [pdf_write_outline, hnode, ↓reduceIte, hroot, hO, ne_eq, not_true_eq_false,
      pdf_add_new_dict, pdf_write_outline_imp, h1, and_then, val_ref]
    rw [dict_put_ref d2 root _ _ (by rw [hr2]; exact hcat), hr2]
  · rw [setObj_objs_ne _ _ _ _ hne, h12]; simp
  · rw [setObj_objs_ne _ _ _ _ hne, l2, hnode]; simp
  · apply persisted_congr d d2 _ T _ _ (by simpa using h13)
    intro n hn1 _
    exact setObj_objs_ne _ _ _ _ (by omega)
  · apply links_written_congr d2 _ T _ _ _ _ (by simpa using l1)
    intro n hn1 _
    exact setObj_objs_ne _ _ _ _ (by omega)

/-- C13: the Count entry the writer puts. A call of `pdf_write_outline_imp` for a
non-empty chain of `n` nodes under the parent object `pn` leaves `Count = n`
in `pn` when the parent-open flag is true and `Count = -n` when it is false,
where `n` is the length of the chain itself (`chainLength`, which does not look
below the nodes), for `n` in the range of `int`. In `pdf_write_outline` the
Outlines object gets the positive count of the top chain, and the object of
every node with children gets the length of its child chain, positive when
the node's own `is_open` is set and negative otherwise. -/
theorem writer_count_sign :
    (∀ (d : Doc) (t : Outline) (pn : Nat) (opn : Bool), t.isNode = true → writable d t →
      (d.objs pn).isDict = true → pn < d.xref_len → t.chainLength < 2147483648 →
      ∃ d', pdf_write_outline_imp d t (.ref pn) opn = (d', .ok ()) ∧
        (d'.objs pn).get .Count
          = .int (if opn then (t.chainLength : Int) else -(t.chainLength : Int))) ∧
    (∀ (d : Doc) (T : Outline) (root : Nat),
      pdf_dict_get d (pdf_trailer d) .Root = .ref root → (d.objs root).isDict = true →
      (d.objs root).get .Outlines = .null → root < d.xref_len → T.isNode = true →
      writable d T → T.size < 2147483648 →
      ∃ d1, pdf_write_outline d T = (d1, .ok ()) ∧
        (d1.objs d.xref_len).get .Count = .int (T.chainLength : Int) ∧
        ∀ i item down, T.nodes[i]? = some (item, down) → down.isNode = true →
          (d1.objs (d.xref_len + 1 + i)).get .Count
            = .int (if item.is_open then (down.chainLength : Int)
                    else -(down.chainLength : Int))) := by
  constructor
  · intro d t pn opn ht hw hpd hpn hn
    obtain ⟨d', h1, _, _, _, _, _, _, _, _, _, _, h12, _⟩ :=
      write_siblings_ok d t d pn opn .null .null 0 rfl hw hpd hpn (Or.inl rfl) (Or.inl rfl)
    refine ⟨d', by simp [pdf_write_outline_imp, ht, h1], ?_⟩
    rw [h12, count_value _ _ hn]
  · intro d T root hroot hcat hnone hlen hnode hw hsize
    obtain ⟨d1, h1, h2, _, h4, _⟩ := write_outline_full d T root hroot hcat hnone hlen hnode hw
    refine ⟨d1, h1, ?_, ?_⟩
    · rw [h2, count_up_eq _ 0 (by omega) (by have := chainLength_le_size T; omega)]; simp
    · intro i item down hi hdn
      obtain ⟨_, _, _, hc⟩ := persisted_at d d1 T _ i item down h4 hi
      have hs := nodes_down_size T i item down hi
      have hl := chainLength_le_size down
      rw [hc hdn, count_value _ _ (by omega)]

theorem writer_count_sign_witness :
    (∃ d', pdf_write_outline_imp doc_plain tree_three (.ref 1) true = (d', .ok ()) ∧
      (d'.objs 1).get .Count = .int 3) ∧
    (∃ d', pdf_write_outline_imp doc_plain tree_three (.ref 1) false = (d', .ok ()) ∧
      (d'.objs 1).get .Count = .int (-3)) ∧
    ((pdf_write_outline doc_plain tree_three).1.objs 4).get .Count = .int 3 ∧
    ((pdf_write_outline doc_plain tree_three).1.objs 6).get .Count = .int 1 :=
  ⟨writer_count_sign.1 doc_plain tree_three 1 true rfl
      (by simp [writable, tree_three, leaf]; decide) rfl (by decide) (by decide),
   writer_count_sign.1 doc_plain tree_three 1 false rfl
      (by simp [writable, tree_three, leaf]; decide) rfl (by decide) (by decide),
   rfl, rfl⟩

/-- The object of every node of a persisted chain holds the title of that node. -/
theorem chain_titles (dp d : Doc) (t : Outline) :
    ∀ (num : Nat), persisted dp d t num →
      ∀ o item, (o, item) ∈ (sibling_nums t num).zip (chain_items t) →
        ∃ title, item.title = some title ∧ (d.objs o).get .Title = .str title := by
  induction t with
  | nil => intro num _ o item h; simp [sibling_nums] at h
  | node a item0 p v down next _ ihn =>
    intro num hp o item h
    obtain ⟨_, ⟨title, pg, ht, _, htitle, _⟩, _, _, _, _, _, h8⟩ := hp
    simp only [sibling_nums, chain_items, List.zip_cons_cons, List.mem_cons, Prod.mk.injEq] at h
    rcases h with ⟨rfl, rfl⟩ | h
    · exact ⟨title, ht, htitle⟩
    · exact ihn _ h8 o item h

/-- C15: the threading of one sibling chain. A call of `pdf_write_outline_imp`
for a non-empty chain under the parent object `pn` (a dictionary of the
document, every node with a title and a page) succeeds. With
`sibling_nums t d.xref_len` the numbers of the objects allocated for the nodes
of the chain, in their order (as many as the chain has nodes, each holding the
title of its node): every one is new (not below the old length of the cross
reference table), a dictionary, and has `Parent = pn`; the numbers increase
strictly, so they are pairwise distinct; each has `Next` = the one after it,
which has `Prev` = the one before; the first has no `Prev` and is `First` of
`pn`; the last has no `Next` and is `Last` of `pn`. -/
theorem writer_threads_siblings (d : Doc) (t : Outline) (pn : Nat) (opn : Bool)
    (ht : t.isNode = true) (hw : writable d t) (hpd : (d.objs pn).isDict = true)
    (hpn : pn < d.xref_len) :
    ∃ d', pdf_write_outline_imp d t (.ref pn) opn = (d', .ok ()) ∧
      (sibling_nums t d.xref_len).length = t.chainLength ∧
      (∀ o item, (o, item) ∈ (sibling_nums t d.xref_len).zip (chain_items t) →
        ∃ title, item.title = some title ∧ (d'.objs o).get .Title = .str title) ∧
      (∀ o, o ∈ sibling_nums t d.xref_len →
        d.xref_len ≤ o ∧ o < d'.xref_len ∧ (d'.objs o).isDict = true ∧
        (d'.objs o).get .Parent = .ref pn) ∧
      (sibling_nums t d.xref_len).Pairwise (fun x y => x < y) ∧
      (∀ i o o', (sibling_nums t d.xref_len)[i]? = some o →
        (sibling_nums t d.xref_len)[i + 1]? = some o' →
        (d'.objs o).get .Next = .ref o' ∧ (d'.objs o').get .Prev = .ref o) ∧
      (∀ o, (sibling_nums t d.xref_len).head? = some o →
        (d'.objs o).get .Prev = .null ∧ (d'.objs pn).get .First = .ref o) ∧
      (∀ o, (sibling_nums t d.xref_len).getLast? = some o →
        (d'.objs o).get .Next = .null ∧ (d'.objs pn).get .Last = .ref o) := by
  obtain ⟨d', h1, h2, _, _, _, _, _, _, _, _, h11, _, h13⟩ :=
    write_siblings_ok d t d pn opn .null .null 0 rfl hw hpd hpn (Or.inl rfl) (Or.inl rfl)
  obtain ⟨l1, l2⟩ := write_siblings_links d t d pn opn .null .null 0 d' rfl hw hpd hpn
    (Or.inl rfl) (Or.inl rfl) h1
  rw [val_null] at l1
  obtain ⟨c1, c2, c3, c4, c5⟩ := chain_links d d' t d.xref_len pn .null h13 l1
  refine ⟨d', by simp [pdf_write_outline_imp, ht, h1], sibling_nums_length t _,
    chain_titles d d' t _ h13, ?_, c2, c3, ?_, ?_⟩
  · intro o ho
    obtain ⟨b1, b2, b3, b4⟩ := c1 o ho
    exact ⟨b1, by rw [h2]; exact b2, b3, b4⟩
  · intro o ho
    obtain ⟨e1, e2⟩ := c4 o ho
    subst e1
    exact ⟨e2, h11 rfl ht⟩
  · intro o ho
    obtain ⟨e1, e2⟩ := c5 o ho
    subst e1
    refine ⟨e2, ?_⟩
    rw [l2, ht]; simp

theorem writer_threads_siblings_witness :
    ∃ d', pdf_write_outline_imp doc_plain tree_three (.ref 1) true = (d', .ok ()) ∧
      (sibling_nums tree_three doc_plain.xref_len).length = tree_three.chainLength ∧
      (∀ o item, (o, item) ∈ (sibling_nums tree_three doc_plain.xref_len).zip
          (chain_items tree_three) →
        ∃ title, item.title = some title ∧ (d'.objs o).get .Title = .str title) ∧
      (∀ o, o ∈ sibling_nums tree_three doc_plain.xref_len →
        doc_plain.xref_len ≤ o ∧ o < d'.xref_len ∧ (d'.objs o).isDict = true ∧
        (d'.objs o).get .Parent = .ref 1) ∧
      (sibling_nums tree_three doc_plain.xref_len).Pairwise (fun x y => x < y) ∧
      (∀ i o o', (sibling_nums tree_three doc_plain.xref_len)[i]? = some o →
        (sibling_nums tree_three doc_plain.xref_len)[i + 1]? = some o' →
        (d'.objs o).get .Next = .ref o' ∧ (d'.objs o').get .Prev = .ref o) ∧
      (∀ o, (sibling_nums tree_three doc_plain.xref_len).head? = some o →
        (d'.objs o).get .Prev = .null ∧ (d'.objs 1).get .First = .ref o) ∧
      (∀ o, (sibling_nums tree_three doc_plain.xref_len).getLast? = some o →
        (d'.objs o).get .Next = .null ∧ (d'.objs 1).get .Last = .ref o) :=
  writer_threads_siblings doc_plain tree_three 1 true rfl
    (by simp [writable, tree_three, leaf]; decide) rfl (by decide)

theorem to_int_of_fits (f : Flt) (h : f.fits) : f.to_int = f.trunc := by
  simp [Flt.to_int, h]

theorem convertible_at (d : Doc) (t : Outline) : ∀ (i : Nat) (item : Item) (down : Outline),
    convertible d t → t.nodes[i]? = some (item, down) → converts d item := by
  induction t with
  | nil => intro i _ _ _ h; simp [Outline.nodes] at h
  | node a item0 p v down0 next0 ihd ihn =>
    intro i item down hc h
    obtain ⟨h1, h2, h3⟩ := hc
    rcases nodes_cases a item0 p v down0 next0 i _ h with ⟨rfl, he⟩ | ⟨j, rfl, _, hj⟩ | ⟨j, rfl, hj⟩
    · cases he
      exact h1
    · exact ihd j item down h2 hj
    · exact ihn j item down h3 hj

/-- C16 (as the code has it): the destination the writer stores. After
`pdf_write_outline` on a document without an outline, for a tree in which the
conversions from `float` to `int` of lines 198-210 are defined for every node,
the object of every node (node `i` in the order of the writer, with the item
`item`) has as `Dest` the array of exactly five elements: the reference to the
page object of `item.page`, the name `XYZ`, the whole part of `x`, `y'`, and
the null object. Here `h` is the whole part of the `float` difference
`y1 - y0` of the box of that page; `y'` is the whole part of the `float`
difference of `h` and `y` when `y` is not 0, and `y' = 0` when `y` is 0. -/
theorem writer_dest_shape (d : Doc) (T : Outline) (root : Nat)
    (hroot : pdf_dict_get d (pdf_trailer d) .Root = .ref root)
    (hcat : (d.objs root).isDict = true)
    (hnone : (d.objs root).get .Outlines = .null)
    (hlen : root < d.xref_len)
    (hnode : T.isNode = true)
    (hw : writable d T) (hc : convertible d T) :
    ∃ d1, pdf_write_outline d T = (d1, .ok ()) ∧
      ∀ i item down, T.nodes[i]? = some (item, down) →
        ∃ pg, pdf_lookup_page_obj d item.page = .ref pg ∧
          page_box_height d (.ref pg)
            = (Flt.sub (page_box d (.ref pg)).2 (page_box d (.ref pg)).1).trunc ∧
          (d1.objs (d.xref_len + 1 + i)).get .Dest
            = .arr [.ref pg, .name .XYZ, .int item.x.trunc,
                .int (if item.y ≠ .fin 0 then
                        (Flt.sub (Flt.of_int (page_box_height d (.ref pg))) item.y).trunc
                      else 0),
                .null] := by
  obtain ⟨d1, h1, _, _, h4, _⟩ := write_outline_full d T root hroot hcat hnone hlen hnode hw
  refine ⟨d1, h1, ?_⟩
  intro i item down hi
  obtain ⟨_, ⟨pg, hpg, hdest⟩, _, _⟩ := persisted_at d d1 T _ i item down h4 hi
  obtain ⟨c1, c2, c3⟩ := convertible_at d T i item down hc hi
  rw [hpg] at c2 c3
  refine ⟨pg, hpg, to_int_of_fits _ c2, ?_⟩
  rw [hdest, to_int_of_fits _ c1]
  by_cases hy : item.y = .fin 0
  · simp [dest_y, hy]
  · simp only [dest_y, ne_eq, hy, not_false_eq_true, ↓reduceIte]
    rw [to_int_of_fits _ (c3 hy)]

/-- C16 (the claim as stated fails) on page 0 of `doc_plain`, whose box has the
height 100. The last element of the array is the null object, not the number
0: for `x = 0` and `y = 10` the writer stores `[2 0 R /XYZ 0 90 null]`. The
third element is not `x` when `x` has a fraction: for `x = 2.75` it is 2. The
fourth element is not `h - y` when that difference is no `float`: for
`y = 2^27` it is -134217632, while `100 - 2^27` is -134217628. -/
theorem writer_dest_last_is_null :
    (((pdf_write_outline doc_plain tree_single).1.objs 5).get .Dest
        = .arr [.ref 2, .name .XYZ, .int 0, .int 90, .null] ∧
      ((pdf_write_outline doc_plain tree_single).1.objs 5).get .Dest
        ≠ .arr [.ref 2, .name .XYZ, .int 0, .int 90, .int 0]) ∧
    (((pdf_write_outline doc_plain tree_fraction).1.objs 5).get .Dest
        = .arr [.ref 2, .name .XYZ, .int 2, .int 90, .null] ∧
      Flt.of_int 2 ≠ .fin (11 * ((2 ^ 147 : Nat) : Int))) ∧
    (((pdf_write_outline doc_plain tree_far).1.objs 5).get .Dest
        = .arr [.ref 2, .name .XYZ, .int 0, .int (-134217632), .null] ∧
      Flt.trunc 134217728 = 134217728 ∧ (100 : Int) - 134217728 = -134217628) := by
  have h : ((pdf_write_outline doc_plain tree_single).1.objs 5).get .Dest
      = .arr [.ref 2, .name .XYZ, .int 0, .int 90, .null] := rfl
  refine ⟨⟨h, ?_⟩, ⟨rfl, by decide⟩, ⟨rfl, by decide, by decide⟩⟩
  rw [h]
  intro hc
  simp at hc

theorem writer_dest_shape_witness :
    ∃ d1, pdf_write_outline doc_plain tree_y_zero = (d1, .ok ()) ∧
      ∀ i item down, tree_y_zero.nodes[i]? = some (item, down) →
        ∃ pg, pdf_lookup_page_obj doc_plain item.page = .ref pg ∧
          page_box_height doc_plain (.ref pg)
            = (Flt.sub (page_box doc_plain (.ref pg)).2 (page_box doc_plain (.ref pg)).1).trunc ∧
          (d1.objs (doc_plain.xref_len + 1 + i)).get .Dest
            = .arr [.ref pg, .name .XYZ, .int item.x.trunc,
                .int (if item.y ≠ .fin 0 then
                        (Flt.sub (Flt.of_int (page_box_height doc_plain (.ref pg))) item.y).trunc
                      else 0),
                .null] :=
  writer_dest_shape doc_plain tree_y_zero 1 rfl rfl rfl (by decide) rfl
    (by simp [writable, tree_y_zero, leaf]; decide) (by decide)

theorem isNode_close_leaves (t : Outline) : (close_leaves t).isNode = t.isNode := by
  cases t <;> rfl

/-- The writer does not read the `is_open` flag of a node without children. -/
theorem write_siblings_close_leaves (t : Outline) :
    ∀ (d : Doc) (pn : Handle) (opn : Bool) (first last : Handle) (cnt : Int),
      write_siblings d (close_leaves t) pn opn first last cnt
        = write_siblings d t pn opn first last cnt := by
  induction t with
  | nil => intro d pn opn first last cnt; rfl
  | node a item p v down next ihd ihn =>
    intro d pn opn first last cnt
    have he : ∀ e h1 h2, write_entries e
        { item with is_open := item.is_open && down.isNode } h1 h2 = write_entries e item h1 h2 :=
      fun _ _ _ => rfl
    simp only [close_leaves]
    rw [write_siblings, write_siblings]
    simp only [he, isNode_close_leaves, ihn]
    cases hdn : down.isNode
    · simp
    · simp [ihd]

/-- C20: the leaves of the persisted form. After `pdf_write_outline` on a
document without an outline (a tree of fewer than `2^31` nodes, every node
with a title and a page), the object of every node without children has no
`First`, no `Last` and no `Count` entry, whatever its `is_open` flag; the
`Count` of the Outlines object and of every node with children is a number of
magnitude at least 1; and the writer gives the same result for the tree with
`is_open` cleared in every node without children, so that flag is not
recorded. -/
theorem writer_leaves_bare :
    (∀ (d : Doc) (T : Outline) (root : Nat),
      pdf_dict_get d (pdf_trailer d) .Root = .ref root → (d.objs root).isDict = true →
      (d.objs root).get .Outlines = .null → root < d.xref_len → T.isNode = true →
      writable d T → T.size < 2147483648 →
      ∃ d1, pdf_write_outline d T = (d1, .ok ()) ∧
        (∀ i item down, T.nodes[i]? = some (item, down) → down.isNode = false →
          (d1.objs (d.xref_len + 1 + i)).get .First = .null ∧
          (d1.objs (d.xref_len + 1 + i)).get .Last = .null ∧
          (d1.objs (d.xref_len + 1 + i)).get .Count = .null) ∧
        (∀ i item down, T.nodes[i]? = some (item, down) → down.isNode = true →
          ∃ c, (d1.objs (d.xref_len + 1 + i)).get .Count = .int c ∧ 1 ≤ c.natAbs) ∧
        (∃ c, (d1.objs d.xref_len).get .Count = .int c ∧ 1 ≤ c.natAbs)) ∧
    (∀ (d : Doc) (T : Outline), pdf_write_outline d (close_leaves T) = pdf_write_outline d T) := by
  constructor
  · intro d T root hroot hcat hnone hlen hnode hw hsize
    obtain ⟨d1, h1, h2, _, h4, h5⟩ := write_outline_full d T root hroot hcat hnone hlen hnode hw
    refine ⟨d1, h1, ?_, ?_, ?_⟩
    · intro i item down hi hdn
      obtain ⟨_, _, hf, _⟩ := persisted_at d d1 T _ i item down h4 hi
      obtain ⟨hl, hc⟩ := links_at d1 T _ _ _ i item down h5 hi
      rw [hdn] at hf hl
      exact ⟨by simpa using hf, by simpa using hl, hc hdn⟩
    · intro i item down hi hdn
      obtain ⟨_, _, _, hc⟩ := persisted_at d d1 T _ i item down h4 hi
      have hs := nodes_down_size T i item down hi
      have hl := chainLength_le_size down
      have hpos := chainLength_pos down hdn
      rw [count_value _ _ (by omega)] at hc
      refine ⟨_, hc hdn, ?_⟩
      cases item.is_open <;> simp <;> omega
    · have hl := chainLength_le_size T
      have hpos := chainLength_pos T hnode
      refine ⟨_, h2, ?_⟩
      rw [count_up_eq _ 0 (by omega) (by omega)]
      simp; omega
  · intro d T
    simp only [pdf_write_outline, isNode_close_leaves, pdf_write_outline_imp,
      write_siblings_close_leaves]

theorem writer_leaves_bare_witness :
    (∃ d1, pdf_write_outline doc_plain tree_three = (d1, .ok ()) ∧
        (∀ i item down, tree_three.nodes[i]? = some (item, down) → down.isNode = false →
          (d1.objs (doc_plain.xref_len + 1 + i)).get .First = .null ∧
          (d1.objs (doc_plain.xref_len + 1 + i)).get .Last = .null ∧
          (d1.objs (doc_plain.xref_len + 1 + i)).get .Count = .null) ∧
        (∀ i item down, tree_three.nodes[i]? = some (item, down) → down.isNode = true →
          ∃ c, (d1.objs (doc_plain.xref_len + 1 + i)).get .Count = .int c ∧ 1 ≤ c.natAbs) ∧
        (∃ c, (d1.objs doc_plain.xref_len).get .Count = .int c ∧ 1 ≤ c.natAbs)) ∧
    pdf_write_outline doc_plain (close_leaves tree_open_leaf)
      = pdf_write_outline doc_plain tree_open_leaf ∧
    close_leaves tree_open_leaf = tree_single :=
  ⟨writer_leaves_bare.1 doc_plain tree_three 1 rfl rfl rfl (by decide) rfl
      (by simp [writable, tree_three, leaf]; decide) (by decide),
   writer_leaves_bare.2 doc_plain tree_open_leaf, rfl⟩

/-- Lines 183-191 for a node whose page is missing: Title and the empty array
are put, then the exception is raised. -/
theorem write_entries_missing (d : Doc) (item : Item) (n pn : Nat) (title : String)
    (hn : d.objs n = .dict []) (ht : item.title = some title)
    (hp : pdf_lookup_page_obj d item.page = .null) :
    write_entries d item (.ref n) (.ref pn) =
      (d.setObj n (.dict [(.Title, .str title), (.Dest, .arr [])]),
        .error (.throw (page_missing item.page))) := by
  have hp' : ∀ o, pdf_lookup_page_obj (d.setObj n o) item.page = .null := fun _ => hp
  simp only [write_entries, and_then, pdf_dict_put_text_string, ht]
  rw [dict_put_ref d n _ _ (by rw [hn]; rfl)]
  simp only [hn]
  rw [dict_put_ref _ n _ _ (by rw [setObj_objs_same]; rfl)]
  simp only [setObj_objs_same, setObj_setObj, hp']
  simp [PdfObj.put, putEntry]

/-- The loop of the writer on a chain in which, at the gap of `c`, a node has a
page that the document does not have, every node before it being writable:
the exception names that page, the objects of the document before the call are
untouched (but for `Next` of the last sibling), and no ancestor of the node has
received `First`, `Last` or `Count`. -/
theorem write_siblings_missing_page (dp : Doc) (a : Nat) (item : Item) (p v : Option Nat)
    (down next : Outline) (htitle : item.title ≠ none)
    (hpage : pdf_lookup_page_obj dp item.page = .null) (c : Ctx) :
    ∀ (d : Doc) (pn : Nat) (opn : Bool) (first last : Handle) (cnt : Int),
      d.pages = dp.pages → writable_before dp c →
      (d.objs pn).isDict = true → pn < d.xref_len →
      (first = .null ∨ ∃ f, first = .ref f) →
      (last = .null ∨ ∃ ln, last = .ref ln ∧ (d.objs ln).isDict = true ∧ ln < d.xref_len ∧
        ln ≠ pn) →
      ∃ d', write_siblings d (c.fill (.node a item p v down next)) (.ref pn) opn first last cnt
          = (d', .error (.throw (page_missing item.page))) ∧
        d'.trailer = d.trailer ∧
        (∀ n, n < d.xref_len → last ≠ .ref n → d'.objs n = d.objs n) ∧
        (∀ n, n ∈ objs_above c d.xref_len →
          (d'.objs n).get .First = .null ∧ (d'.objs n).get .Last = .null ∧
          (d'.objs n).get .Count = .null) := by
  induction c with
  | hole =>
    intro d pn opn first last cnt hpages _ hpd hpn hfirst hlast
    obtain ⟨title, ht⟩ := Option.ne_none_iff_exists'.mp htitle
    have hentries := write_entries_missing d.grow item d.xref_len pn title (by simp [grow_objs])
      ht (by rw [lookup_page_congr dp d.grow (by simpa using hpages)]; exact hpage)
    refine ⟨d.grow.setObj d.xref_len (.dict [(.Title, .str title), (.Dest, .arr [])]), ?_, rfl,
      ?_, ?_⟩
    · simp only [Ctx.fill]
      rw [write_siblings]
      simp only [pdf_add_new_dict, hentries]
    · intro n hn _
      rw [setObj_objs_ne _ _ _ _ (by omega), grow_objs]
      simp [Nat.ne_of_lt hn]
    · intro n hn
      simp [objs_above] at hn
  | down a0 item0 p0 v0 inner nxt ih =>
    intro d pn opn first last cnt hpages hb hpd hpn hfirst hlast
    obtain ⟨hwt, hwp, hbi⟩ := hb
    obtain ⟨d2, hx2, ht2, hp2, hm2, hd2, hpar2, hprev2, hnull2, hfr2, hl2, _, hstep⟩ :=
      write_node_step dp d a0 item0 p0 v0 (inner.fill (.node a item p v down next)) nxt pn opn
        first last cnt hpages hwt hwp hlast
    obtain ⟨d3, e1, e2, e3, e4⟩ := ih d2 d.xref_len item0.is_open .null .null 0
      (by rw [hp2, hpages]) hbi hd2 (by omega) (Or.inl rfl) (Or.inl rfl)
    refine ⟨d3, ?_, by rw [e2, ht2], ?_, ?_⟩
    · simp only [Ctx.fill]
      apply hstep d3
      rw [isNode_fill inner (.node a item p v down next) rfl]
      simpa using e1
    · intro n hn hne
      rw [e3 n (by omega) (by simp), hfr2 n hn hne]
    · intro n hn
      simp only [objs_above, List.mem_cons] at hn
      rcases hn with rfl | hn
      · rw [e3 _ (by omega) (by simp)]
        exact ⟨hnull2 _ (by decide) (by decide) (by decide) (by decide),
          hnull2 _ (by decide) (by decide) (by decide) (by decide),
          hnull2 _ (by decide) (by decide) (by decide) (by decide)⟩
      · rw [hx2] at e4
        exact e4 n hn
  | next a0 item0 p0 v0 dwn inner ih =>
    intro d pn opn first last cnt hpages hb hpd hpn hfirst hlast
    obtain ⟨hwt, hwp, hwd, hbi⟩ := hb
    have hbpn : pn ≠ d.xref_len := by omega
    obtain ⟨d2, hx2, ht2, hp2, hm2, hd2, hpar2, hprev2, hnull2, hfr2, hl2, hstep, _⟩ :=
      write_node_step dp d a0 item0 p0 v0 dwn (inner.fill (.node a item p v down next)) pn opn
        first last cnt hpages hwt hwp hlast
    obtain ⟨d3, hbeq, hx3, ht3, hp3, hm3, hfr3, hd3, hg3, _, _, _⟩ :=
      write_below_ok dp d2 dwn d.xref_len item0.is_open (by rw [hp2, hpages]) hwd hd2 hx2
    have hfirst1 : (if first = .null then Handle.ref d.xref_len else first) = .null ∨
        ∃ f, (if first = .null then Handle.ref d.xref_len else first) = .ref f := by
      rcases hfirst with rfl | ⟨f, rfl⟩
      · exact Or.inr ⟨d.xref_len, by simp⟩
      · exact Or.inr ⟨f, by simp⟩
    have hpn3 : d3.objs pn = d.objs pn := by
      rw [hfr3 pn hpn]
      apply hfr2 pn hpn
      rcases hlast with rfl | ⟨ln, rfl, _, _, hlp⟩
      · simp
      · intro h; cases h; exact hlp rfl
    obtain ⟨d4, e1, e2, e3, e4⟩ := ih d3 pn opn
      (if first = .null then Handle.ref d.xref_len else first) (.ref d.xref_len)
      (c_int (cnt + 1)) (by rw [hp3, hp2, hpages]) hbi (by rw [hpn3]; exact hpd) (by omega)
      hfirst1 (Or.inr ⟨_, rfl, hd3, by omega, Ne.symm hbpn⟩)
    refine ⟨d4, ?_, by rw [e2, ht3, ht2], ?_, ?_⟩
    · simp only [Ctx.fill]
      rw [hstep d3 hbeq]
      exact e1
    · intro n hn hne
      rw [e3 n (by omega) (by intro h; cases h; omega), hfr3 n hn, hfr2 n hn hne]
    · intro n hn
      simp only [objs_above] at hn
      rw [hx3] at e4
      exact e4 n hn

/-- A page that is missing at write time, where the writer gets as far as the
page lookup. Let the tree have, at the gap of `c`, a node with a title whose
page the document does not have, every node the writer meets before it having
a title and a page (so it is the first such node in pre-order), and let the
document have an indirect Root dictionary without an Outlines entry. Then
`pdf_write_outline` raises "page N does not exist" with the page number of
that node; the Root object is as it was, so it has no Outlines entry; and
neither the new Outlines object nor the object of any ancestor of the node has
a `First`, `Last` or `Count` entry. -/
theorem writer_missing_page (d : Doc) (root : Nat) (c : Ctx) (a : Nat) (item : Item)
    (p v : Option Nat) (down next : Outline)
    (hroot : pdf_dict_get d (pdf_trailer d) .Root = .ref root)
    (hcat : (d.objs root).isDict = true)
    (hnone : (d.objs root).get .Outlines = .null)
    (hlen : root < d.xref_len)
    (hbefore : writable_before d c) (htitle : item.title ≠ none)
    (hpage : pdf_lookup_page_obj d item.page = .null) :
    ∃ d', pdf_write_outline d (c.fill (.node a item p v down next))
        = (d', .error (.throw (page_missing item.page))) ∧
      d'.trailer = d.trailer ∧ d'.objs root = d.objs root ∧
      (d'.objs root).get .Outlines = .null ∧
      (∀ n, n = d.xref_len ∨ n ∈ objs_above c (d.xref_len + 1) →
        (d'.objs n).get .First = .null ∧ (d'.objs n).get .Last = .null ∧
        (d'.objs n).get .Count = .null) := by
  obtain ⟨d', e1, e2, e3, e4⟩ := write_siblings_missing_page d a item p v down next htitle hpage c
    d.grow d.xref_len true .null .null 0 rfl hbefore (by simp [grow_objs, PdfObj.isDict])
    (by simp) (Or.inl rfl) (Or.inl rfl)
  have hr : d'.objs root = d.objs root := by
    rw [e3 root (by simp only [grow_xref_len]; omega) (by simp), grow_objs]
    simp [Nat.ne_of_lt hlen]
  have hc : d'.objs d.xref_len = .dict [] := by
    rw [e3 d.xref_len (by simp) (by simp), grow_objs]
    simp
  refine ⟨d', ?_, by rw [e2]; rfl, hr, by rw [hr]; exact hnone, ?_⟩
  · have hO : pdf_dict_get d (.ref root) .Outlines = .null := by
      rw [dict_get_ref d root _ hcat, hnone]; rfl
    simp only [pdf_write_outline, isNode_fill c (.node a item p v down next) rfl, ↓reduceIte,
      hroot, hO, ne_eq, not_true_eq_false, pdf_add_new_dict, pdf_write_outline_imp, e1]
  · intro n hn
    rcases hn with rfl | hn
    · rw [hc]; exact ⟨rfl, rfl, rfl⟩
    · exact e4 n (by simpa using hn)

theorem writer_missing_page_witness :
    ∃ d', pdf_write_outline doc_plain tree_page7 = (d', .error (.throw "page 7 does not exist")) ∧
      d'.trailer = doc_plain.trailer ∧ d'.objs 1 = doc_plain.objs 1 ∧
      (d'.objs 1).get .Outlines = .null ∧
      (∀ n, n = 4 ∨ n ∈ [6] →
        (d'.objs n).get .First = .null ∧ (d'.objs n).get .Last = .null ∧
        (d'.objs n).get .Count = .null) :=
  writer_missing_page doc_plain 1
    (.next 1 ⟨some "a", none, 0, 0, 10, false⟩ none none .nil
      (.down 2 ⟨some "b", none, 1, 0, 20, true⟩ none (some 1) .hole
        (leaf 4 "c" 0 0 40 false none (some 2) .nil)))
    3 ⟨some "b1", none, 7, 0, 30, false⟩ (some 2) none .nil .nil rfl rfl rfl (by decide)
    (by simp [writable_before, writable]; decide) (by simp) (by decide)

/-- C14 (code at the failing input): a node without a title whose page the
document does not have. The validator accepts the tree; the writer reads the
title through the null pointer (line 184) before it looks the page up (lines
190-192), so the call, and with it `pdf_rewrite_outline`, ends in that fault
and not in "page 7 does not exist". The same happens when a node without a
title comes before the node with the missing page. -/
theorem writer_untitled_missing_page :
    (check_outline tree_untitled_page7 = .ok none ∧
      pdf_lookup_page_obj doc_plain 7 = .null ∧
      (pdf_write_outline doc_plain tree_untitled_page7).2 = .error .null_deref ∧
      (pdf_write_outline doc_plain tree_untitled_page7).2
        ≠ .error (.throw "page 7 does not exist") ∧
      ∃ d', pdf_rewrite_outline 4 doc_plain tree_untitled_page7
        = some (d', .error .null_deref)) ∧
    (check_outline tree_untitled_then_page7 = .ok none ∧
      (pdf_write_outline doc_plain tree_untitled_then_page7).2 = .error .null_deref) :=
  ⟨⟨rfl, rfl, rfl, fun h => Except.noConfusion h (fun e => Err.noConfusion e), ⟨_, rfl⟩⟩,
    rfl, rfl⟩

end PdfOutline
